import Mathlib

/-!
# Captain's Signature storefront: cart store and checkout validation

A shallow embedding of `frontend/js/cart.js` (class `CartManager`), of
`frontend/js/checkout.js` (class `CheckoutManager`) and of `submitOrder` in
`frontend/js/api.js` (class `APIService`).

Conventions of the embedding:

* JavaScript strings are `String` where they are only stored and compared, and
  `List Char` where the code inspects their characters (form values).
* A number stored in a record (a price) is given by its value, a rational
  (`ℚ`); quantities and quantity changes are integers (`Int`). Arithmetic on
  amounts is the arithmetic of doubles (`JsNumber`): every product and sum is
  rounded to the nearest binary64 value, ties to even.
* An optional property (`size`, `color`, `quantity` of the argument of
  `addItem`) is an `Option`; `none` is JavaScript's `undefined`.
* The clock and the behaviour of `localStorage.setItem` are inputs, gathered in
  `Env`; what the checkout reads from the browser is gathered in `CheckoutEnv`.
* An asynchronous call is represented by how it ends: with a value or with a
  thrown error.
* The text written to `localStorage` is the text of `JSON.stringify`, a
  sequence of characters, and it is read with `JSON.parse`; both are given
  here after ECMAScript (`QuoteJSONString`, `Number::toString`, the JSON
  grammar). A string holds Unicode characters, no lone surrogate.
-/

namespace Captain

/-! ## Cart store (`frontend/js/cart.js`) -/

/-- One line of the cart, as stored in `cart.items`. -/
structure CartItem where
  id : String
  name : String
  price : ℚ
  image : String
  size : Option String
  color : Option String
  quantity : Int
  addedAt : String
deriving DecidableEq

/-- The argument of `addItem`: the product fields, with an optional quantity. -/
structure NewItem where
  id : String
  name : String
  price : ℚ
  image : String
  size : Option String
  color : Option String
  quantity : Option Int
deriving DecidableEq

/-- The cart record `{ items, updatedAt }`. -/
structure Cart where
  items : List CartItem
  updatedAt : String
deriving DecidableEq

/-- The state of a `CartManager`: `this.cart`, and the record last written
under `storageKey` in `localStorage` (`none`: the key is absent). The text
held by the storage is the one `stringify` gives for that record. -/
structure CartManager where
  cart : Cart
  stored : Option Cart
deriving DecidableEq

/-- What a call reads from the browser: `new Date().toISOString()` and whether
`localStorage.setItem` succeeds (`false`: it throws). -/
structure Env where
  now : String
  setItemOk : Bool
deriving DecidableEq

/-- The method `Array.prototype.findIndex`: the index of the first element satisfying
`p`; `none` stands for the result `-1`. -/
def findIndex {α : Type} (p : α → Bool) : List α → Option Nat
  | [] => none
  | x :: xs => if p x then some 0 else (findIndex p xs).map (· + 1)

/-- The method `saveCart`: stamp `updatedAt`, then write the record; a failing write is
caught and logged. -/
def saveCart (env : Env) (m : CartManager) : CartManager :=
  let cart : Cart := { m.cart with updatedAt := env.now }
  { cart := cart, stored := if env.setItemOk then some cart else m.stored }

/-- The expression `item.quantity || 1`: the right operand is taken when the left one is
falsy, that is `undefined` or `0`. -/
def quantityOrOne : Option Int → Int
  | none => 1
  | some q => if q = 0 then 1 else q

/-- The method `addItem(item)`. -/
def addItem (env : Env) (item : NewItem) (m : CartManager) : CartManager :=
  let existingItemIndex := findIndex
    (fun cartItem => cartItem.id == item.id && cartItem.size == item.size &&
      cartItem.color == item.color) m.cart.items
  let items : List CartItem :=
    match existingItemIndex with
    | some i =>
      m.cart.items.modify
        (fun cartItem => { cartItem with
          quantity := cartItem.quantity + quantityOrOne item.quantity }) i
    | none =>
      m.cart.items ++ [
        { id := item.id
          name := item.name
          price := item.price
          image := item.image
          size := item.size
          color := item.color
          quantity := quantityOrOne item.quantity
          addedAt := env.now }]
  saveCart env { m with cart := { m.cart with items := items } }

/-- The method `removeItem(itemId)`. -/
def removeItem (env : Env) (itemId : String) (m : CartManager) : CartManager :=
  saveCart env { m with cart := { m.cart with
    items := m.cart.items.filter (fun item => item.id != itemId) } }

/-- The method `updateQuantity(itemId, change)`. -/
def updateQuantity (env : Env) (itemId : String) (change : Int)
    (m : CartManager) : CartManager :=
  match findIndex (fun item => item.id == itemId) m.cart.items with
  | some itemIndex =>
    match m.cart.items[itemIndex]? with
    | some line =>
      let newQuantity := line.quantity + change
      let items : List CartItem :=
        if newQuantity < 1 then m.cart.items.eraseIdx itemIndex
        else if newQuantity ≤ 10 then
          m.cart.items.set itemIndex { line with quantity := newQuantity }
        else m.cart.items
      saveCart env { m with cart := { m.cart with items := items } }
    | none => m
  | none => m

/-- The method `clearCart()`. -/
def clearCart (env : Env) (m : CartManager) : CartManager :=
  saveCart env { m with cart := { m.cart with items := [] } }

/-! ## JavaScript numbers -/

/-- The quotient `n / d` rounded to the nearest integer, a tie going to the
even one. -/
def roundHalfEven (n d : Nat) : Nat :=
  if d < 2 * (n % d) ∨ (2 * (n % d) = d ∧ (n / d) % 2 = 1) then n / d + 1 else n / d

/-- The number of halvings that bring `n` below 2, at most `fuel` of them. -/
def halvings : Nat → Nat → Nat
  | 0, _ => 0
  | fuel + 1, n => if n < 2 then 0 else halvings fuel (n / 2) + 1

/-- The integer part of the binary logarithm of a positive natural number. -/
def binaryLog (n : Nat) : Nat :=
  halvings n n

/-- The integer `e` with `2^e ≤ n / d < 2^(e+1)`, for positive `n` and `d`. -/
def floorLog2 (n d : Nat) : Int :=
  let e : Int := (binaryLog n : Int) - (binaryLog d : Int)
  if (if 0 ≤ e then d * 2 ^ e.toNat ≤ n else d ≤ n * 2 ^ (-e).toNat) then e else e - 1

/-- The binary64 rounding of a rational, to nearest with ties to even and an
unbounded exponent range upwards: the double nearest to `x` when that double
is finite, and a value of magnitude `2^1024` or more when `x` rounds beyond
the largest double. Subnormal results are spaced by `2^(-1074)`. -/
def roundDouble (x : ℚ) : ℚ :=
  if x = 0 then 0
  else
    let n : Nat := x.num.natAbs
    let d : Nat := x.den
    let p : Int := max (floorLog2 n d) (-1022) - 52
    let magnitude : ℚ :=
      if 0 ≤ p then ((roundHalfEven n (d * 2 ^ p.toNat) * 2 ^ p.toNat : Nat) : ℚ)
      else (roundHalfEven (n * 2 ^ (-p).toNat) d : ℚ) / ((2 ^ (-p).toNat : Nat) : ℚ)
    if x < 0 then -magnitude else magnitude

/-- A JavaScript number: a finite double, given by its value, an infinity, or
`NaN`. The two zeros are not told apart. -/
inductive JsNumber where
  | finite (value : ℚ)
  | posInf
  | negInf
  | nan
deriving DecidableEq

/-- The Number value for a rational: what a numeric literal of that value
denotes and what an exact result is rounded to. -/
def JsNumber.ofRat (x : ℚ) : JsNumber :=
  if 2 ^ 1024 ≤ roundDouble x then .posInf
  else if roundDouble x ≤ -(2 ^ 1024) then .negInf
  else .finite (roundDouble x)

/-- The operator `+` on numbers. -/
def JsNumber.add : JsNumber → JsNumber → JsNumber
  | .finite a, .finite b => JsNumber.ofRat (a + b)
  | .nan, _ => .nan
  | _, .nan => .nan
  | .posInf, .negInf => .nan
  | .negInf, .posInf => .nan
  | .posInf, _ => .posInf
  | _, .posInf => .posInf
  | .negInf, _ => .negInf
  | _, .negInf => .negInf

/-- The product of an infinity of the given sign (`true`: positive) and a
finite number. -/
def infTimes (positive : Bool) (a : ℚ) : JsNumber :=
  if a = 0 then .nan
  else if (0 < a) = positive then .posInf
  else .negInf

/-- The operator `*` on numbers. -/
def JsNumber.mul : JsNumber → JsNumber → JsNumber
  | .finite a, .finite b => JsNumber.ofRat (a * b)
  | .nan, _ => .nan
  | _, .nan => .nan
  | .posInf, .finite a => infTimes true a
  | .finite a, .posInf => infTimes true a
  | .negInf, .finite a => infTimes false a
  | .finite a, .negInf => infTimes false a
  | .posInf, .posInf => .posInf
  | .negInf, .negInf => .posInf
  | .posInf, .negInf => .negInf
  | .negInf, .posInf => .negInf

/-- The operator `>` on numbers. -/
def JsNumber.gt : JsNumber → JsNumber → Bool
  | .finite a, .finite b => decide (b < a)
  | .nan, _ => false
  | _, .nan => false
  | .posInf, .posInf => false
  | .posInf, _ => true
  | _, .negInf => true
  | _, _ => false

/-- The method `getTotal()`: the prices and quantities of the lines are read
as numbers, the products and the running total are doubles. -/
def getTotal (m : CartManager) : JsNumber :=
  m.cart.items.foldl
    (fun total item =>
      total.add ((JsNumber.ofRat item.price).mul (JsNumber.ofRat item.quantity)))
    (.finite 0)

/-- The method `getItemCount()`. -/
def getItemCount (m : CartManager) : Int :=
  m.cart.items.foldl (fun count item => count + item.quantity) 0

/-- The method `isEmpty()`. -/
def isEmpty (m : CartManager) : Bool :=
  m.cart.items.length == 0

/-- The method `calculateShipping(subtotal)`. -/
def calculateShipping (subtotal : JsNumber) : JsNumber :=
  if subtotal.gt (.finite 150) then .finite 0 else .finite 15

/-- The method `calculateTax(subtotal)`: 8% tax rate. -/
def calculateTax (subtotal : JsNumber) : JsNumber :=
  subtotal.mul (JsNumber.ofRat 0.08)

/-- The method `calculateTotal(subtotal)`. -/
def calculateTotal (subtotal : JsNumber) : JsNumber :=
  let shipping := calculateShipping subtotal
  let tax := calculateTax subtotal
  (subtotal.add shipping).add tax

/-! ## Checkout validation (`frontend/js/checkout.js`) -/

/-- The characters that `\s` matches in a regular expression and that
`String.prototype.trim` strips: ECMAScript WhiteSpace and LineTerminator. -/
def isWhiteSpace (c : Char) : Bool :=
  c.toNat == 0x09 || c.toNat == 0x0A || c.toNat == 0x0B || c.toNat == 0x0C ||
  c.toNat == 0x0D || c.toNat == 0x20 || c.toNat == 0xA0 || c.toNat == 0x1680 ||
  (0x2000 ≤ c.toNat && c.toNat ≤ 0x200A) || c.toNat == 0x2028 ||
  c.toNat == 0x2029 || c.toNat == 0x202F || c.toNat == 0x205F ||
  c.toNat == 0x3000 || c.toNat == 0xFEFF

/-- The class `\d` (without the `u` flag): `0` to `9`. -/
def isDigit (c : Char) : Bool :=
  0x30 ≤ c.toNat && c.toNat ≤ 0x39

/-- The class `A-Za-z`. -/
def isLetter (c : Char) : Bool :=
  (0x41 ≤ c.toNat && c.toNat ≤ 0x5A) || (0x61 ≤ c.toNat && c.toNat ≤ 0x7A)

/-- The method `String.prototype.trim`, on the characters of the string. -/
def trim (s : List Char) : List Char :=
  ((s.dropWhile isWhiteSpace).reverse.dropWhile isWhiteSpace).reverse

/-- The regular expressions of the rule table, without their anchors: a
character class (or one literal character), a sequence, `a?`, `a+` and
`a{min,max}`. -/
inductive Pattern where
  | cls (p : Char → Bool)
  | seq (a b : Pattern)
  | opt (a : Pattern)
  | plus (a : Pattern)
  | rep (a : Pattern) (min max : Nat)

/-- Exactly `n` successive matches of `step`: the inputs left after them. -/
def exactly (step : List Char → List (List Char)) : Nat → List Char → List (List Char)
  | 0, s => [s]
  | n + 1, s => (step s).flatMap (exactly step n)

/-- At most `n` successive matches of `step`, longest first: the inputs left
after them. -/
def atMost (step : List Char → List (List Char)) : Nat → List Char → List (List Char)
  | 0, s => [s]
  | n + 1, s => (step s).flatMap (atMost step n) ++ [s]

/-- Backtracking match of a pattern at the start of the input: every input
that can be left after a match, in the order a backtracking matcher tries
them. A repetition `a+` needs at most as many rounds as there are characters. -/
def Pattern.run : Pattern → List Char → List (List Char)
  | .cls p => fun s =>
    match s with
    | c :: rest => if p c then [rest] else []
    | [] => []
  | .seq a b => fun s => (a.run s).flatMap b.run
  | .opt a => fun s => a.run s ++ [s]
  | .plus a => fun s => (a.run s).flatMap (atMost a.run s.length)
  | .rep a min max => fun s => (exactly a.run min s).flatMap (atMost a.run (max - min))

/-- The method `RegExp.prototype.test` for `/^body$/`: some match of the body leaves
nothing of the input. -/
def Pattern.test (body : Pattern) (s : List Char) : Bool :=
  (body.run s).any List.isEmpty

/-- One entry of `validationRules`. -/
structure Rule where
  required : Bool
  pattern : Option Pattern
  message : String

/-- The class `[^\s@]`. -/
def notSpaceNorAt (c : Char) : Bool :=
  !(isWhiteSpace c || c == '@')

/-- The expression `/^[A-Za-z\s]{2,50}$/`, the pattern of `full-name` and of `city`. -/
def namePattern : Pattern :=
  .rep (.cls (fun c => isLetter c || isWhiteSpace c)) 2 50

/-- The expression `/^[^\s@]+@[^\s@]+\.[^\s@]+$/` of `email`. -/
def emailPattern : Pattern :=
  .seq (.plus (.cls notSpaceNorAt))
    (.seq (.cls (fun c => c == '@'))
      (.seq (.plus (.cls notSpaceNorAt))
        (.seq (.cls (fun c => c == '.')) (.plus (.cls notSpaceNorAt)))))

/-- The expression `/^[\+]?[1-9][\d]{0,15}$/` of `phone`. -/
def phonePattern : Pattern :=
  .seq (.opt (.cls (fun c => c == '+')))
    (.seq (.cls (fun c => 0x31 ≤ c.toNat && c.toNat ≤ 0x39))
      (.rep (.cls isDigit) 0 15))

/-- The expression `/^[A-Za-z0-9\s,.-]{5,100}$/` of `address`. -/
def addressPattern : Pattern :=
  .rep (.cls (fun c => isLetter c || isDigit c || isWhiteSpace c ||
    c == ',' || c == '.' || c == '-')) 5 100

/-- The expression `/^\d{5}(-\d{4})?$/` of `zip`. -/
def zipPattern : Pattern :=
  .seq (.rep (.cls isDigit) 5 5)
    (.opt (.seq (.cls (fun c => c == '-')) (.rep (.cls isDigit) 4 4)))

/-- The lookup `this.validationRules[id]`; `none` when the table has no such key. -/
def validationRules (id : String) : Option Rule :=
  if id = "full-name" then
    some { required := true, pattern := some namePattern,
           message := "Please enter a valid full name (2-50 characters)" }
  else if id = "email" then
    some { required := true, pattern := some emailPattern,
           message := "Please enter a valid email address" }
  else if id = "phone" then
    some { required := true, pattern := some phonePattern,
           message := "Please enter a valid phone number" }
  else if id = "address" then
    some { required := true, pattern := some addressPattern,
           message := "Please enter a valid address" }
  else if id = "city" then
    some { required := true, pattern := some namePattern,
           message := "Please enter a valid city name" }
  else if id = "state" then
    some { required := true, pattern := none,
           message := "Please select a state" }
  else if id = "zip" then
    some { required := true, pattern := some zipPattern,
           message := "Please enter a valid ZIP code" }
  else none

/-- The list `Object.keys(this.validationRules)`, in insertion order. -/
def ruleKeys : List String :=
  ["full-name", "email", "phone", "address", "city", "state", "zip"]

/-- What the validation code reads and writes of a DOM element: `value`,
`textContent`, and whether `classList` holds `error`. -/
structure Element where
  value : String
  textContent : String
  errorClass : Bool
deriving DecidableEq

/-- The page: `document.getElementById`, `none` for a missing element. -/
abbrev Document := String → Option Element

/-- The outcome of `validateField`: the returned boolean and the two elements
after the call. -/
structure FieldResult where
  valid : Bool
  input : Element
  errorElement : Element
deriving DecidableEq

/-- The method `validateField(input, errorElement)`, with `id` the `input.id`; `none`
when the call throws (no rule for the id). -/
def validateField (id : String) (input errorElement : Element) : Option FieldResult :=
  match validationRules id with
  | none => none
  | some rules =>
    let value := trim input.value.toList
    if rules.required && value.isEmpty then
      some { valid := false
             input := { input with errorClass := true }
             errorElement := { errorElement with textContent := "This field is required" } }
    else if (match rules.pattern with
        | some pattern => !value.isEmpty && !pattern.test value
        | none => false) then
      some { valid := false
             input := { input with errorClass := true }
             errorElement := { errorElement with textContent := rules.message } }
    else if id == "state" && value.isEmpty then
      some { valid := false
             input := { input with errorClass := true }
             errorElement := { errorElement with textContent := rules.message } }
    else
      some { valid := true
             input := { input with errorClass := false }
             errorElement := { errorElement with textContent := "" } }

/-- One round of the `forEach` of `validateForm`, for the key `fieldId`: the
field is validated when both of its elements exist, and skipped otherwise. -/
def validateFormStep (acc : Bool × Document) (fieldId : String) :
    Option (Bool × Document) :=
  match acc.2 fieldId, acc.2 (fieldId ++ "-error") with
  | some input, some errorElement =>
    match validateField fieldId input errorElement with
    | some r =>
      some (acc.1 && r.valid,
        Function.update (Function.update acc.2 fieldId (some r.input))
          (fieldId ++ "-error") (some r.errorElement))
    | none => none
  | _, _ => some acc

/-- The method `validateForm()`: the returned `isValid` and the page after the call;
`none` when a `validateField` call throws. -/
def validateForm (doc : Document) : Option (Bool × Document) :=
  ruleKeys.foldlM validateFormStep (true, doc)

/-! ### Words of the specification about cart lines -/

/-- The merge identity of the specification: a line and an added item agree on
the triple (id, size, color). -/
def sameLine (line : CartItem) (item : NewItem) : Prop :=
  line.id = item.id ∧ line.size = item.size ∧ line.color = item.color

instance (line : CartItem) (item : NewItem) : Decidable (sameLine line item) := by
  unfold sameLine; infer_instance

/-- The range of the specification: a quantity between 1 and 10. -/
def quantityInRange (line : CartItem) : Prop :=
  1 ≤ line.quantity ∧ line.quantity ≤ 10

instance (line : CartItem) : Decidable (quantityInRange line) := by
  unfold quantityInRange; infer_instance

/-! ### Words of the specification about form values -/

/-- Whether `validateField` returns true for the field `id` on the given
elements. -/
def accepted (id : String) (input errorElement : Element) : Prop :=
  ∃ r : FieldResult, validateField id input errorElement = some r ∧ r.valid = true

/-- The part of a value after its first `@` (empty when it has none). -/
def afterAt (v : List Char) : List Char :=
  (v.dropWhile (fun c => c != '@')).drop 1

/-- The email shape in the words of the specification: no whitespace, exactly
one `@`, which is not the first character, and after it a `.` that is neither
the first nor the last character of that part. -/
def emailShape (v : List Char) : Prop :=
  (∀ c ∈ v, isWhiteSpace c = false) ∧
  v.count '@' = 1 ∧
  v.head? ≠ some '@' ∧
  ∃ i : Nat, 0 < i ∧ i + 1 < (afterAt v).length ∧ (afterAt v)[i]? = some '.'

/-- The ZIP shape in the words of the specification: exactly 5 decimal digits,
optionally followed by `-` and exactly 4 decimal digits. -/
def zipShape (v : List Char) : Prop :=
  ∃ a : List Char, a.length = 5 ∧ (∀ c ∈ a, isDigit c = true) ∧
    (v = a ∨ ∃ b : List Char, b.length = 4 ∧ (∀ c ∈ b, isDigit c = true) ∧
      v = a ++ '-' :: b)

/-- The phone shape in the words of the specification: an optional leading
`+`, then 1 to 16 decimal digits, the first of which is not `0`. -/
def phoneShape (v : List Char) : Prop :=
  ∃ d : List Char, (v = d ∨ v = '+' :: d) ∧ 1 ≤ d.length ∧ d.length ≤ 16 ∧
    (∀ c ∈ d, isDigit c = true) ∧ d.head? ≠ some '0'

/-- The name and city shape in the words of the specification: 2 to 50
characters, each a letter or a space. -/
def statedNameShape (v : List Char) : Prop :=
  2 ≤ v.length ∧ v.length ≤ 50 ∧ ∀ c ∈ v, isLetter c = true ∨ c = ' '

/-- The address shape in the words of the specification: 5 to 100 characters,
each a letter, a digit, a space, `,`, `.` or `-`. -/
def statedAddressShape (v : List Char) : Prop :=
  5 ≤ v.length ∧ v.length ≤ 100 ∧
    ∀ c ∈ v, isLetter c = true ∨ isDigit c = true ∨ c = ' ' ∨ c = ',' ∨ c = '.' ∨
      c = '-'

/-- The name and city shape as amended: 2 to 50 characters, each a letter or a
whitespace character. -/
def nameShape (v : List Char) : Prop :=
  2 ≤ v.length ∧ v.length ≤ 50 ∧ ∀ c ∈ v, isLetter c = true ∨ isWhiteSpace c = true

/-- The address shape as amended: 5 to 100 characters, each a letter, a digit,
a whitespace character, `,`, `.` or `-`. -/
def addressShape (v : List Char) : Prop :=
  5 ≤ v.length ∧ v.length ≤ 100 ∧
    ∀ c ∈ v, isLetter c = true ∨ isDigit c = true ∨ isWhiteSpace c = true ∨
      c = ',' ∨ c = '.' ∨ c = '-'

/-! ### Sample data -/

/-- A browser environment with a working storage. -/
def sampleEnv : Env := { now := "2024-05-01T10:00:00.000Z", setItemOk := true }

/-- A cart line for product `p1`, at the given quantity. -/
def sampleLine (quantity : Int) : CartItem :=
  { id := "p1", name := "Captain Jacket", price := 50, image := "jacket.jpg",
    size := none, color := none, quantity := quantity,
    addedAt := "2024-04-30T09:00:00.000Z" }

/-- A cart line for product `p2`, at the given quantity. -/
def otherLine (quantity : Int) : CartItem :=
  { id := "p2", name := "Deck Shoes", price := 80, image := "shoes.jpg",
    size := some "42", color := some "navy", quantity := quantity,
    addedAt := "2024-04-30T09:05:00.000Z" }

/-- The argument `addProductToCart` builds for product `p1`, with the given
quantity property. -/
def sampleItem (quantity : Option Int) : NewItem :=
  { id := "p1", name := "Captain Jacket", price := 50, image := "jacket.jpg",
    size := none, color := none, quantity := quantity }

/-- A manager holding the given lines, nothing stored yet. -/
def managerOf (items : List CartItem) : CartManager :=
  { cart := { items := items, updatedAt := "2024-04-30T09:00:00.000Z" },
    stored := none }

/-- A page given by the list of its elements with their ids. -/
def pageOf (elements : List (String × Element)) : Document :=
  fun id => elements.lookup id

/-- An input element holding `value`, no error shown. -/
def inputWith (value : String) : Element :=
  { value := value, textContent := "", errorClass := false }

/-- An error element showing `text`. -/
def errorWith (text : String) : Element :=
  { value := "", textContent := text, errorClass := false }

/-- A checkout page with the seven inputs and their error elements, valid
values everywhere except the given email and ZIP values. -/
def samplePage (email zip : String) : Document :=
  pageOf [
    ("full-name", inputWith "Ada Lovelace"), ("full-name-error", errorWith ""),
    ("email", inputWith email), ("email-error", errorWith ""),
    ("phone", inputWith "+14155550123"), ("phone-error", errorWith ""),
    ("address", inputWith "12 Main St., Apt 4-B"), ("address-error", errorWith ""),
    ("city", inputWith "London"), ("city-error", errorWith ""),
    ("state", inputWith "CA"), ("state-error", errorWith ""),
    ("zip", inputWith zip), ("zip-error", errorWith "")]

/-- The same page without the element `zip-error`. -/
def samplePageWithoutZipError (email zip : String) : Document :=
  pageOf [
    ("full-name", inputWith "Ada Lovelace"), ("full-name-error", errorWith ""),
    ("email", inputWith email), ("email-error", errorWith ""),
    ("phone", inputWith "+14155550123"), ("phone-error", errorWith ""),
    ("address", inputWith "12 Main St., Apt 4-B"), ("address-error", errorWith ""),
    ("city", inputWith "London"), ("city-error", errorWith ""),
    ("state", inputWith "CA"), ("state-error", errorWith ""),
    ("zip", inputWith zip)]

/-- A sequence of `addItem` calls, each with the environment it runs in,
applied from left to right. -/
def addItems : List (Env × NewItem) → CartManager → CartManager
  | [], m => m
  | call :: rest, m => addItems rest (addItem call.1 call.2 m)

/-- The quantity the amended claims count for an added item: its `quantity`
property when present and not 0, and 1 when it is absent or 0. -/
def countedQuantity : Option Int → Int
  | none => 1
  | some 0 => 1
  | some k => k

/-- The quantity the specification counts for an added item: its `quantity`
property, and 1 when the item carries none. -/
def statedQuantity : Option Int → Int
  | none => 1
  | some k => k

/-! ## Order assembly and submission (`frontend/js/checkout.js`, `frontend/js/api.js`) -/

/-- One entry of `items` in the order. -/
structure OrderItem where
  productId : String
  name : String
  price : ℚ
  quantity : Int
  size : Option String
  color : Option String
deriving DecidableEq

/-- The `customer` block of the order. -/
structure Customer where
  fullName : String
  email : String
  phone : String
deriving DecidableEq

/-- The `shipping` block of the order. -/
structure Shipping where
  address : String
  city : String
  state : String
  zipCode : String
deriving DecidableEq

/-- The object `prepareOrderData` returns. -/
structure Order where
  orderId : String
  customer : Customer
  shipping : Shipping
  items : List OrderItem
  subtotal : JsNumber
  shippingCost : JsNumber
  tax : JsNumber
  total : JsNumber
  paymentMethod : String
  orderDate : String
  status : String
deriving DecidableEq

/-- The object `getFormData` returns. -/
structure FormData where
  fullName : String
  email : String
  phone : String
  address : String
  city : String
  state : String
  zip : String
deriving DecidableEq

/-- The checkout page: its elements by id, and the element matching
`.payment-method.active` (`none`: no such element), given by the text of its
`span` (`none`: it has no `span`). -/
structure CheckoutPage where
  doc : Document
  activePayment : Option (Option String)

/-- What `handleCheckout` reads from the browser: `Date.now()` (a time value,
printed by `toString` as plain decimal digits), `new Date().toISOString()`,
the message of the `TypeError` raised by a property read on `null`, how
`sessionStorage.setItem` ends (`none`: the write succeeds; `some message`: it
throws an error with that message), and the environment of the cart calls. -/
structure CheckoutEnv where
  nowMillis : Nat
  now : String
  typeError : String
  sessionWriteError : Option String
  cartEnv : Env

/-- The call `s.slice(-k)` on the characters of a string: its last `k`
characters, and all of it when it is shorter. -/
def sliceLast (k : Nat) (s : List Char) : List Char :=
  s.drop (s.length - k)

/-- The template `CS-${Date.now().toString().slice(-8)}`. -/
def makeOrderId (nowMillis : Nat) : String :=
  "CS-" ++ String.mk (sliceLast 8 (Nat.toDigits 10 nowMillis))

/-- The read `document.getElementById(id).value`; it throws when the element
is missing. -/
def valueOf (env : CheckoutEnv) (doc : Document) (id : String) : Except String String :=
  match doc id with
  | some element => .ok element.value
  | none => .error env.typeError

/-- The read `document.getElementById(id).value.trim()`. -/
def trimmedValueOf (env : CheckoutEnv) (doc : Document) (id : String) :
    Except String String :=
  match valueOf env doc id with
  | .ok value => .ok (String.mk (trim value.toList))
  | .error e => .error e

/-- The method `getFormData()`; an error is the message of the exception it
throws. -/
def getFormData (env : CheckoutEnv) (doc : Document) : Except String FormData := do
  let fullName ← trimmedValueOf env doc "full-name"
  let email ← trimmedValueOf env doc "email"
  let phone ← trimmedValueOf env doc "phone"
  let address ← trimmedValueOf env doc "address"
  let city ← trimmedValueOf env doc "city"
  let state ← valueOf env doc "state"
  let zip ← trimmedValueOf env doc "zip"
  pure { fullName := fullName, email := email, phone := phone, address := address,
         city := city, state := state, zip := zip }

/-- The method `getSelectedPaymentMethod()`. -/
def getSelectedPaymentMethod (env : CheckoutEnv) (page : CheckoutPage) :
    Except String String :=
  match page.activePayment with
  | some (some text) => .ok text
  | some none => .error env.typeError
  | none => .ok "Stripe"

/-- The method `prepareOrderData()`; an error is the message of the exception
it throws. -/
def prepareOrderData (env : CheckoutEnv) (page : CheckoutPage) (m : CartManager) :
    Except String Order := do
  let cart := m.cart
  let formData ← getFormData env page.doc
  let paymentMethod ← getSelectedPaymentMethod env page
  pure {
    orderId := makeOrderId env.nowMillis
    customer := { fullName := formData.fullName, email := formData.email,
                  phone := formData.phone }
    shipping := { address := formData.address, city := formData.city,
                  state := formData.state, zipCode := formData.zip }
    items := cart.items.map (fun item =>
      { productId := item.id, name := item.name, price := item.price,
        quantity := item.quantity, size := item.size, color := item.color })
    subtotal := getTotal m
    shippingCost := calculateShipping (getTotal m)
    tax := calculateTax (getTotal m)
    total := calculateTotal (getTotal m)
    paymentMethod := paymentMethod
    orderDate := env.now
    status := "processing" }

/-- The method `storeShippingAddress()`: the text written to
`sessionStorage` under `shippingAddress`; an error is the message of the
exception thrown by `getFormData` or by `sessionStorage.setItem`. -/
def storeShippingAddress (env : CheckoutEnv) (doc : Document) : Except String String := do
  let formData ← getFormData env doc
  let address := formData.fullName ++ ", " ++ formData.address ++ ", " ++
    formData.city ++ ", " ++ formData.state ++ " " ++ formData.zip
  match env.sessionWriteError with
  | some message => .error message
  | none => pure address

/-- A JavaScript value, as far as its truthiness goes: `undefined`, `null`, a
boolean, a number, a string, or an object (arrays and functions included). -/
inductive JsValue where
  | undefined
  | null
  | bool (b : Bool)
  | number (n : JsNumber)
  | string (s : String)
  | object
deriving DecidableEq

/-- The conversion `ToBoolean`: whether a value passes an `if` test. -/
def JsValue.truthy : JsValue → Bool
  | .undefined => false
  | .null => false
  | .bool b => b
  | .number (.finite value) => decide (value ≠ 0)
  | .number .nan => false
  | .number _ => true
  | .string s => decide (s ≠ "")
  | .object => true

/-- The object `submitOrder` resolves to; `success` is whatever value the
response carries. -/
structure SubmitResult where
  success : JsValue
  orderId : Option String
  message : Option String
  timestamp : Option String
deriving DecidableEq

/-- How `await this.apiService.submitOrder(orderData)` ends: with a result, or
with a thrown error of the given message. -/
inductive SubmitOutcome where
  | returned (result : SubmitResult)
  | threw (message : String)
deriving DecidableEq

/-- How the `fetch` of `submitOrder` ends: it rejects with an error, or it
gives a response with `ok`, `status` and the outcome of `response.json()`. -/
inductive FetchOutcome where
  | rejected (message : String)
  | responded (ok : Bool) (status : Nat) (json : Except String SubmitResult)

/-- The method `APIService.submitOrder(orderData)`, for a given `mockMode`
and network. -/
def submitOrder (mockMode : Bool) (env : CheckoutEnv)
    (fetch : Order → FetchOutcome) (orderData : Order) : SubmitOutcome :=
  if mockMode then
    .returned { success := .bool true
                orderId := some (makeOrderId env.nowMillis)
                message := some "Order placed successfully"
                timestamp := some env.now }
  else
    match fetch orderData with
    | .rejected message => .threw message
    | .responded ok status json =>
      if !ok then .threw ("HTTP error! status: " ++ toString status)
      else
        match json with
        | .ok result => .returned result
        | .error message => .threw message

/-- The expression `text || fallback` on an optional string: the fallback is
taken when the text is `undefined` or empty. -/
def textOr (text : Option String) (fallback : String) : String :=
  match text with
  | some t => if t = "" then fallback else t
  | none => fallback

/-- One call of `showNotification(message, type)`. -/
structure Notification where
  message : String
  type : String
deriving DecidableEq

/-- What a call of `handleCheckout` leaves behind: the page, the cart
manager, the notifications it showed, the orders it passed to `submitOrder`,
the address it wrote to `sessionStorage`, the `showLoading` calls it made and
whether it scheduled the redirect to the success page. -/
structure CheckoutOutcome where
  doc : Document
  manager : CartManager
  notifications : List Notification
  submitted : List Order
  shippingAddress : Option String
  loading : List Bool
  redirect : Bool

/-- The `catch` and `finally` blocks of `handleCheckout`, for a thrown error
of the given message. -/
def checkoutFailed (doc : Document) (m : CartManager) (submitted : List Order)
    (message : String) : CheckoutOutcome :=
  { doc := doc
    manager := m
    notifications :=
      [{ message := textOr (some message) "Failed to process order. Please try again."
         type := "error" }]
    submitted := submitted
    shippingAddress := none
    loading := [true, false]
    redirect := false }

/-- The method `handleCheckout()`, with `submit` the behaviour of
`this.apiService.submitOrder`; `none` when an exception escapes it. -/
def handleCheckout (env : CheckoutEnv) (submit : Order → SubmitOutcome)
    (page : CheckoutPage) (m : CartManager) : Option CheckoutOutcome :=
  match validateForm page.doc with
  | none => none
  | some (isValid, doc) =>
    if !isValid then
      some { doc := doc
             manager := m
             notifications :=
               [{ message := "Please fix the errors in the form", type := "error" }]
             submitted := []
             shippingAddress := none
             loading := []
             redirect := false }
    else if isEmpty m then
      some { doc := doc
             manager := m
             notifications := [{ message := "Your cart is empty", type := "error" }]
             submitted := []
             shippingAddress := none
             loading := []
             redirect := false }
    else
      match prepareOrderData env { page with doc := doc } m with
      | .error message => some (checkoutFailed doc m [] message)
      | .ok orderData =>
        match submit orderData with
        | .threw message => some (checkoutFailed doc m [orderData] message)
        | .returned result =>
          if result.success.truthy then
            match storeShippingAddress env doc with
            | .error message => some (checkoutFailed doc m [orderData] message)
            | .ok address =>
              some { doc := doc
                     manager := clearCart env.cartEnv m
                     notifications := []
                     submitted := [orderData]
                     shippingAddress := some address
                     loading := [true, false]
                     redirect := true }
          else
            some (checkoutFailed doc m [orderData]
              (textOr result.message "Order submission failed"))

/-! ## Persistence (`loadCart`, `saveCart`) -/

/-- The values `JSON.parse` produces and `JSON.stringify` serializes. -/
inductive Json where
  | null
  | bool (b : Bool)
  | num (n : ℚ)
  | str (s : String)
  | arr (elements : List Json)
  | obj (properties : List (String × Json))

/-- The optional property `key` of a serialized object: `JSON.stringify`
leaves out a property whose value is `undefined`. -/
def optionalProperty (key : String) (value : Option String) : List (String × Json) :=
  match value with
  | some v => [(key, Json.str v)]
  | none => []

/-- The JSON value of a cart line: its properties in the order `addItem`
gives them, `size` and `color` left out when `undefined`. -/
def CartItem.toJson (item : CartItem) : Json :=
  .obj ([("id", Json.str item.id), ("name", Json.str item.name),
         ("price", Json.num item.price), ("image", Json.str item.image)] ++
        optionalProperty "size" item.size ++ optionalProperty "color" item.color ++
        [("quantity", Json.num item.quantity), ("addedAt", Json.str item.addedAt)])

/-- The JSON value of the cart record `{ items, updatedAt }`. -/
def Cart.toJson (cart : Cart) : Json :=
  .obj [("items", Json.arr (cart.items.map CartItem.toJson)),
        ("updatedAt", Json.str cart.updatedAt)]

/-- A text held by `localStorage`, by what `loadCart` can tell of it: the
empty string, a text `JSON.parse` rejects with a `SyntaxError`, or a text
`JSON.parse` accepts, given by the value it parses to (`storedText` below
takes a text to its case). -/
inductive StoredText where
  | empty
  | invalid
  | json (value : Json)

/-- How `localStorage.getItem(this.storageKey)` ends: it throws, it returns
`null` (the key is absent), or it returns the stored text. -/
inductive GetItem where
  | throws
  | absent
  | text (stored : StoredText)

/-- The object `{ items: [], updatedAt: new Date().toISOString() }`. -/
def freshCart (env : Env) : Cart :=
  { items := [], updatedAt := env.now }

/-- The method `loadCart()`, for a given outcome of the storage read: the
value it returns. -/
def loadCart (env : Env) (read : GetItem) : Json :=
  match read with
  | .throws => (freshCart env).toJson
  | .absent => (freshCart env).toJson
  | .text .empty => (freshCart env).toJson
  | .text .invalid => (freshCart env).toJson
  | .text (.json value) => value

/-! ### The text of the persisted record (`JSON.stringify`, `JSON.parse`) -/

/-- The value `s × 10^e`. -/
def decimalValue (s : Nat) (e : Int) : ℚ :=
  if 0 ≤ e then (s : ℚ) * ((10 ^ e.toNat : Nat) : ℚ)
  else (s : ℚ) / ((10 ^ (-e).toNat : Nat) : ℚ)

/-- The integer `n` with `10^(n-1) ≤ num / den < 10^n`, for positive `num`
and `den`. -/
def decimalExponent (num den : Nat) : Int :=
  let e : Int := ((Nat.toDigits 10 num).length : Int) - ((Nat.toDigits 10 den).length : Int)
  if (if 0 ≤ e then den * 10 ^ e.toNat ≤ num else den ≤ num * 10 ^ (-e).toNat) then e + 1
  else e

/-- The integer part of `(num / den) / 10^e`. -/
def scaledFloor (num den : Nat) (e : Int) : Nat :=
  if 0 ≤ e then num / (den * 10 ^ e.toNat) else num * 10 ^ (-e).toNat / den

/-- The two decimals of `k` digits next to a positive `x`: `(s, e)` stands for
`s × 10^e`, the first is at or below `x` and the second above it. -/
def candidates (x : ℚ) (k : Nat) : List (Nat × Int) :=
  let e : Int := decimalExponent x.num.natAbs x.den - (k : Int)
  let lo : Nat := scaledFloor x.num.natAbs x.den e
  [(lo, e), if lo + 1 = 10 ^ k then (10 ^ (k - 1), e + 1) else (lo + 1, e)]

/-- The decimal of `k` digits that `Number::toString` takes for a positive
double `x`, when there is one: a decimal whose Number value is `x`, the one
closest to `x` when both neighbours qualify, the even one at a tie. -/
def pickDecimal (x : ℚ) (k : Nat) : Option (Nat × Int) :=
  match (candidates x k).filter (fun c => roundDouble (decimalValue c.1 c.2) = x) with
  | [] => none
  | [c] => some c
  | lo :: hi :: _ =>
    if x - decimalValue lo.1 lo.2 < decimalValue hi.1 hi.2 - x then some lo
    else if decimalValue hi.1 hi.2 - x < x - decimalValue lo.1 lo.2 then some hi
    else if lo.1 % 2 = 0 then some lo
    else some hi

/-- The digits `s` and the exponent `n - k` of `Number::toString` for a
positive double `x`: the decimal with the fewest digits `k` whose Number value
is `x`. Seventeen digits always tell a double apart from its neighbours; the
exact decimal expansion of `x` stands for the case that none of them did. -/
def shortestDecimal (x : ℚ) : Nat × Int :=
  match (List.range 17).findSome? (fun i => pickDecimal x (i + 1)) with
  | some c => c
  | none => (x.num.natAbs * 5 ^ binaryLog x.den, -(binaryLog x.den : Int))

/-- The exponent part of `Number::toString`: `e`, the sign of `n`, and the
decimal digits of its magnitude. -/
def exponentText (n : Int) : List Char :=
  'e' :: (if n < 0 then '-' else '+') :: Nat.toDigits 10 n.natAbs

/-- The text of `Number::toString` for the digits `s` and the exponent `e`:
with `k` the number of digits and `n = k + e`, the digits followed by zeros
when `k ≤ n ≤ 21`, the digits with a point after the first `n` when
`0 < n ≤ 21`, `0.` and zeros before the digits when `-6 < n ≤ 0`, and
otherwise the first digit, the other digits after a point if there are any,
and the exponent `n - 1`. -/
def formatDecimal (s : Nat) (e : Int) : List Char :=
  let digits := Nat.toDigits 10 s
  let k : Int := digits.length
  let n : Int := k + e
  if k ≤ n ∧ n ≤ 21 then digits ++ List.replicate (n - k).toNat '0'
  else if 0 < n ∧ n ≤ 21 then digits.take n.toNat ++ '.' :: digits.drop n.toNat
  else if -6 < n ∧ n ≤ 0 then '0' :: '.' :: (List.replicate (-n).toNat '0' ++ digits)
  else
    match digits with
    | [] => []
    | [d] => d :: exponentText (n - 1)
    | d :: rest => d :: '.' :: (rest ++ exponentText (n - 1))

/-- The operation `Number::toString` (radix 10) on a finite number. -/
def numberToString (x : ℚ) : List Char :=
  if x = 0 then ['0']
  else if x < 0 then '-' :: formatDecimal (shortestDecimal (-x)).1 (shortestDecimal (-x)).2
  else formatDecimal (shortestDecimal x).1 (shortestDecimal x).2

/-- The number a sequence of decimal digits denotes. -/
def digitsValue (digits : List Char) : Nat :=
  digits.foldl (fun value c => 10 * value + (c.toNat - 48)) 0

/-- The exponent part of a JSON number, when the text has a well-formed one
or none: its value and the text after it. -/
def parseExponent (text : List Char) : Option (Int × List Char) :=
  match text with
  | c :: rest =>
    if c = 'e' ∨ c = 'E' then
      let negative : Bool := rest.head? = some '-'
      let digitsText := if rest.head? = some '-' ∨ rest.head? = some '+' then rest.tail else rest
      let digits := digitsText.takeWhile isDigit
      if digits = [] then none
      else some (if negative then -(digitsValue digits : Int) else (digitsValue digits : Int),
        digitsText.dropWhile isDigit)
    else some (0, text)
  | [] => some (0, [])

/-- The fraction part of a JSON number, when the text has a well-formed one or
none: its digits and the text after it. -/
def parseFraction (text : List Char) : Option (List Char × List Char) :=
  match text with
  | c :: rest =>
    if c = '.' then
      if rest.takeWhile isDigit = [] then none
      else some (rest.takeWhile isDigit, rest.dropWhile isDigit)
    else some ([], text)
  | [] => some ([], [])

/-- A JSON number without its sign at the head of a text: its exact value and
the text after it. The integer part is `0` or starts with a digit other than
`0`. -/
def parseUnsigned (text : List Char) : Option (ℚ × List Char) :=
  let intDigits := text.takeWhile isDigit
  if intDigits = [] ∨ (intDigits.head? = some '0' ∧ intDigits.length ≠ 1) then none
  else
    match parseFraction (text.dropWhile isDigit) with
    | none => none
    | some (fracDigits, afterFraction) =>
      match parseExponent afterFraction with
      | none => none
      | some (exponent, rest) =>
        some (decimalValue (digitsValue (intDigits ++ fracDigits))
          (exponent - (fracDigits.length : Int)), rest)

/-- A JSON number at the head of a text: the rational of its Number value
(a value of magnitude `2^1024` or more stands for an infinity, as in
`JsNumber.ofRat`) and the text after it. -/
def parseNumber (text : List Char) : Option (ℚ × List Char) :=
  match text with
  | c :: rest =>
    if c = '-' then
      match parseUnsigned rest with
      | some (value, after) => some (roundDouble (-value), after)
      | none => none
    else
      match parseUnsigned text with
      | some (value, after) => some (roundDouble value, after)
      | none => none
  | [] => none

/-- The lowercase hexadecimal digit of a number below 16. -/
def hexDigit (n : Nat) : Char :=
  if n < 10 then Char.ofNat (48 + n) else Char.ofNat (87 + n)

/-- The escape `\uXXXX` of a code unit, as `UnicodeEscape` writes it. -/
def unicodeEscape (code : Nat) : List Char :=
  ['\\', 'u', hexDigit (code / 4096 % 16), hexDigit (code / 256 % 16),
    hexDigit (code / 16 % 16), hexDigit (code % 16)]

/-- What `QuoteJSONString` writes for one character: the two-character
escapes of the quotation mark, the backslash and of backspace, form feed, line
feed, carriage return and tab, `\uXXXX` for the other characters below U+0020,
and the character itself otherwise. A string here holds no lone surrogate. -/
def quoteChar (c : Char) : List Char :=
  if c = '"' then ['\\', '"']
  else if c = '\\' then ['\\', '\\']
  else if c.toNat = 0x08 then ['\\', 'b']
  else if c.toNat = 0x0C then ['\\', 'f']
  else if c.toNat = 0x0A then ['\\', 'n']
  else if c.toNat = 0x0D then ['\\', 'r']
  else if c.toNat = 0x09 then ['\\', 't']
  else if c.toNat < 0x20 then unicodeEscape c.toNat
  else [c]

/-- The operation `QuoteJSONString`: the text `JSON.stringify` writes for a
string. -/
def quoteJSONString (s : String) : List Char :=
  '"' :: (s.toList.flatMap quoteChar ++ ['"'])

/-- The text `JSON.stringify` writes for a number: `null` for one that is not
finite. -/
def stringifyNumber (x : JsNumber) : List Char :=
  match x with
  | .finite value => numberToString value
  | _ => ['n', 'u', 'l', 'l']

/-- A property `"key":value` of a serialized object. -/
def stringifyProperty (key : String) (value : List Char) : List Char :=
  quoteJSONString key ++ ':' :: value

/-- An optional string property of a serialized object, after a comma:
`JSON.stringify` leaves out a property whose value is `undefined`. -/
def stringifyOptional (key : String) (value : Option String) : List Char :=
  match value with
  | some v => ',' :: stringifyProperty key (quoteJSONString v)
  | none => []

/-- The text `JSON.stringify` writes for a cart line. -/
def stringifyItem (item : CartItem) : List Char :=
  '{' :: (stringifyProperty "id" (quoteJSONString item.id) ++
    ',' :: (stringifyProperty "name" (quoteJSONString item.name) ++
    ',' :: (stringifyProperty "price" (stringifyNumber (JsNumber.ofRat item.price)) ++
    ',' :: (stringifyProperty "image" (quoteJSONString item.image) ++
    (stringifyOptional "size" item.size ++
    (stringifyOptional "color" item.color ++
    ',' :: (stringifyProperty "quantity" (stringifyNumber (JsNumber.ofRat item.quantity)) ++
    ',' :: (stringifyProperty "addedAt" (quoteJSONString item.addedAt) ++ ['}']))))))))

/-- The texts of the cart lines, separated by commas. -/
def stringifyItems : List CartItem → List Char
  | [] => []
  | item :: rest =>
    match rest with
    | [] => stringifyItem item
    | _ :: _ => stringifyItem item ++ ',' :: stringifyItems rest

/-- The text `JSON.stringify(this.cart)` that `saveCart` writes to
`localStorage`. -/
def stringify (cart : Cart) : List Char :=
  '{' :: (stringifyProperty "items" ('[' :: (stringifyItems cart.items ++ [']'])) ++
    ',' :: (stringifyProperty "updatedAt" (quoteJSONString cart.updatedAt) ++ ['}']))

/-- The value of a hexadecimal digit. -/
def hexValue (c : Char) : Option Nat :=
  if isDigit c then some (c.toNat - 48)
  else if 0x61 ≤ c.toNat ∧ c.toNat ≤ 0x66 then some (c.toNat - 87)
  else if 0x41 ≤ c.toNat ∧ c.toNat ≤ 0x46 then some (c.toNat - 55)
  else none

/-- The character a two-character escape of a JSON string denotes, by the
character after the backslash. -/
def simpleEscape (c : Char) : Option Nat :=
  if c = '"' then some 0x22
  else if c = '\\' then some 0x5C
  else if c = '/' then some 0x2F
  else if c = 'b' then some 0x08
  else if c = 'f' then some 0x0C
  else if c = 'n' then some 0x0A
  else if c = 'r' then some 0x0D
  else if c = 't' then some 0x09
  else none

/-- Where the reading of a JSON string stands: between characters, after a
backslash, or inside `\uXXXX` with `remaining + 1` hexadecimal digits still to
come and the value `code` of the digits read. -/
inductive StringState where
  | plain
  | escape
  | hex (remaining : Nat) (code : Nat)

/-- One more code point or code unit before the ones read after it. -/
def withUnit (u : Nat) (read : Option (List Nat × List Char)) :
    Option (List Nat × List Char) :=
  match read with
  | some (units, after) => some (u :: units, after)
  | none => none

/-- The characters of a JSON string after its opening quotation mark, up to
the closing one: the code points of the characters written as they are and the
code units of the escapes, and the text after the closing quotation mark. A
character below U+0020 written as it is, an unknown escape and a text that
ends before the closing quotation mark make the text ill formed. -/
def parseChars : StringState → List Char → Option (List Nat × List Char)
  | _, [] => none
  | .plain, c :: rest =>
    if c = '"' then some ([], rest)
    else if c = '\\' then parseChars .escape rest
    else if c.toNat < 0x20 then none
    else withUnit c.toNat (parseChars .plain rest)
  | .escape, c :: rest =>
    if c = 'u' then parseChars (.hex 3 0) rest
    else
      match simpleEscape c with
      | some code => withUnit code (parseChars .plain rest)
      | none => none
  | .hex remaining code, c :: rest =>
    match hexValue c with
    | none => none
    | some digit =>
      if remaining = 0 then withUnit (code * 16 + digit) (parseChars .plain rest)
      else parseChars (.hex (remaining - 1) (code * 16 + digit)) rest

/-- The character of a code point or code unit that is not the first half of
a pair: a surrogate without its partner, which a string here cannot hold, is
given as U+FFFD. -/
def unitChar (u : Nat) : Char :=
  if 0xD800 ≤ u ∧ u ≤ 0xDFFF then Char.ofNat 0xFFFD else Char.ofNat u

/-- The characters of a sequence of code points and code units, after a high
surrogate that waits for its partner (`pending`) or after none: a high
surrogate followed by a low one is the character of the pair. -/
def decodeUnits : Option Nat → List Nat → List Char
  | pending, [] =>
    match pending with
    | some _ => [Char.ofNat 0xFFFD]
    | none => []
  | pending, u :: rest =>
    match pending with
    | some high =>
      if 0xDC00 ≤ u ∧ u ≤ 0xDFFF then
        Char.ofNat (0x10000 + (high - 0xD800) * 0x400 + (u - 0xDC00)) :: decodeUnits none rest
      else if 0xD800 ≤ u ∧ u ≤ 0xDBFF then Char.ofNat 0xFFFD :: decodeUnits (some u) rest
      else Char.ofNat 0xFFFD :: unitChar u :: decodeUnits none rest
    | none =>
      if 0xD800 ≤ u ∧ u ≤ 0xDBFF then decodeUnits (some u) rest
      else unitChar u :: decodeUnits none rest

/-- A JSON string after its opening quotation mark: the string and the text
after the closing quotation mark. -/
def parseString (text : List Char) : Option (String × List Char) :=
  match parseChars .plain text with
  | some (units, after) => some (String.mk (decodeUnits none units), after)
  | none => none

/-- The white space of JSON: tab, line feed, carriage return and space. -/
def isJsonSpace (c : Char) : Bool :=
  c.toNat == 0x09 || c.toNat == 0x0A || c.toNat == 0x0D || c.toNat == 0x20

/-- The text after its leading white space. -/
def skipSpace (text : List Char) : List Char :=
  text.dropWhile isJsonSpace

/-- The properties of an object after the property `key` has been given the
value `value`: a key written again takes the later value and keeps its
place. -/
def setProperty (properties : List (String × Json)) (key : String) (value : Json) :
    List (String × Json) :=
  if properties.any (fun p => p.1 == key) then
    properties.map (fun p => if p.1 == key then (key, value) else p)
  else properties ++ [(key, value)]

/-- The elements of a JSON array after its opening bracket, the first of them
at the head of the text, by the reading of one value: the elements and the
text after the closing bracket. -/
def parseElements (value : List Char → Option (Json × List Char)) :
    Nat → List Char → Option (List Json × List Char)
  | 0, _ => none
  | fuel + 1, text =>
    match value text with
    | none => none
    | some (v, rest) =>
      match skipSpace rest with
      | [] => none
      | c :: rest2 =>
        if c = ',' then
          match parseElements value fuel rest2 with
          | some (vs, after) => some (v :: vs, after)
          | none => none
        else if c = ']' then some ([v], rest2)
        else none

/-- The members of a JSON object after its opening brace, the first of them
at the head of the text, by the reading of one value: the properties, added to
the ones read before, and the text after the closing brace. -/
def parseMembers (value : List Char → Option (Json × List Char)) :
    Nat → List (String × Json) → List Char → Option (List (String × Json) × List Char)
  | 0, _, _ => none
  | fuel + 1, properties, text =>
    match skipSpace text with
    | [] => none
    | q :: rest =>
      if q = '"' then
        match parseString rest with
        | none => none
        | some (key, rest2) =>
          match skipSpace rest2 with
          | [] => none
          | colon :: rest3 =>
            if colon = ':' then
              match value rest3 with
              | none => none
              | some (v, rest4) =>
                match skipSpace rest4 with
                | [] => none
                | c :: rest5 =>
                  if c = ',' then parseMembers value fuel (setProperty properties key v) rest5
                  else if c = '}' then some (setProperty properties key v, rest5)
                  else none
            else none
      else none

/-- A JSON value at the head of a text, after white space: the value and the
text after it. The fuel bounds the depth of nesting. -/
def parseValue : Nat → List Char → Option (Json × List Char)
  | 0, _ => none
  | fuel + 1, text =>
    match skipSpace text with
    | [] => none
    | c :: rest =>
      if c = '{' then
        match skipSpace rest with
        | [] => none
        | c2 :: rest2 =>
          if c2 = '}' then some (.obj [], rest2)
          else
            match parseMembers (parseValue fuel) rest.length [] rest with
            | some (properties, after) => some (.obj properties, after)
            | none => none
      else if c = '[' then
        match skipSpace rest with
        | [] => none
        | c2 :: rest2 =>
          if c2 = ']' then some (.arr [], rest2)
          else
            match parseElements (parseValue fuel) rest.length rest with
            | some (elements, after) => some (.arr elements, after)
            | none => none
      else if c = '"' then
        match parseString rest with
        | some (s, after) => some (.str s, after)
        | none => none
      else if (c :: rest).take 4 = ['n', 'u', 'l', 'l'] then some (.null, (c :: rest).drop 4)
      else if (c :: rest).take 4 = ['t', 'r', 'u', 'e'] then
        some (.bool true, (c :: rest).drop 4)
      else if (c :: rest).take 5 = ['f', 'a', 'l', 's', 'e'] then
        some (.bool false, (c :: rest).drop 5)
      else
        match parseNumber (c :: rest) with
        | some (n, after) => some (.num n, after)
        | none => none

/-- The function `JSON.parse` on a text: the value of the text, `none` for a
`SyntaxError`. -/
def jsonParse (text : List Char) : Option Json :=
  match parseValue (text.length + 1) text with
  | some (value, rest) => if skipSpace rest = [] then some value else none
  | none => none

/-- The text held by `localStorage`, as `loadCart` meets it. -/
def storedText (text : List Char) : StoredText :=
  if text = [] then .empty
  else
    match jsonParse text with
    | some value => .json value
    | none => .invalid

/-- The outcome of `localStorage.getItem(this.storageKey)` after the writes
of a manager: the text `JSON.stringify` gave for the record last written, if
any. -/
def storageRead (m : CartManager) : GetItem :=
  match m.stored with
  | some cart => .text (storedText (stringify cart))
  | none => .absent

/-- The property read `value.key` on a JSON value (`none`: `undefined`). -/
def Json.property (value : Json) (key : String) : Option Json :=
  match value with
  | .obj properties => properties.lookup key
  | _ => none

/-- A string property of a JSON value. -/
def Json.stringProperty (value : Json) (key : String) : Option String :=
  match value.property key with
  | some (.str s) => some s
  | _ => none

/-- A property of a JSON value that is a string when present: `none` when it
holds something else. -/
def Json.optionalStringProperty (value : Json) (key : String) : Option (Option String) :=
  match value.property key with
  | some (.str s) => some (some s)
  | some _ => none
  | none => some none

/-- A number property of a JSON value. -/
def Json.numberProperty (value : Json) (key : String) : Option ℚ :=
  match value.property key with
  | some (.num n) => some n
  | _ => none

/-- The cart line a JSON value is, when it is one: an object with string `id`,
`name`, `image` and `addedAt`, a number `price`, an integer `quantity`, and
`size` and `color` absent or strings. -/
def Json.asCartItem (value : Json) : Option CartItem := do
  let id ← value.stringProperty "id"
  let name ← value.stringProperty "name"
  let price ← value.numberProperty "price"
  let image ← value.stringProperty "image"
  let size ← value.optionalStringProperty "size"
  let color ← value.optionalStringProperty "color"
  let quantity ← value.numberProperty "quantity"
  let addedAt ← value.stringProperty "addedAt"
  if quantity.den = 1 then
    pure { id := id, name := name, price := price, image := image, size := size,
           color := color, quantity := quantity.num, addedAt := addedAt }
  else none

/-- The cart lines a list of JSON values is, when each of them is one. -/
def cartItemsOf : List Json → Option (List CartItem)
  | [] => some []
  | element :: rest =>
    match element.asCartItem, cartItemsOf rest with
    | some item, some items => some (item :: items)
    | _, _ => none

/-- The item sequence of a JSON value, when it has one: its `items` property
is an array of cart lines. -/
def Json.asItems (value : Json) : Option (List CartItem) :=
  match value.property "items" with
  | some (.arr elements) => cartItemsOf elements
  | _ => none

/-- The well-formed cart record a JSON value is, when it is one. -/
def Json.asCart (value : Json) : Option Cart := do
  let items ← value.asItems
  let updatedAt ← value.stringProperty "updatedAt"
  pure { items := items, updatedAt := updatedAt }

/-! ### Sequences of cart calls -/

/-- One call of a mutating cart operation, with the environment it runs in. -/
inductive CartCall where
  | addItem (env : Env) (item : NewItem)
  | removeItem (env : Env) (itemId : String)
  | updateQuantity (env : Env) (itemId : String) (change : Int)
  | clearCart (env : Env)

/-- The effect of one call on the manager. -/
def CartCall.run (call : CartCall) (m : CartManager) : CartManager :=
  match call with
  | .addItem env item => Captain.addItem env item m
  | .removeItem env itemId => Captain.removeItem env itemId m
  | .updateQuantity env itemId change => Captain.updateQuantity env itemId change m
  | .clearCart env => Captain.clearCart env m

/-- The effect of a sequence of calls, from left to right. -/
def runCalls (calls : List CartCall) (m : CartManager) : CartManager :=
  calls.foldl (fun state call => call.run state) m

/-- The merge key of a cart line: its (id, size, color). -/
def lineKey (line : CartItem) : String × Option String × Option String :=
  (line.id, line.size, line.color)

/-! ### Words of the specification about the order id -/

/-- A text padded with zeros on the left to `k` characters. -/
def zeroPad (k : Nat) (s : List Char) : List Char :=
  List.replicate (k - s.length) '0' ++ s

/-- The `k` low-order decimal digits of `n`, most significant first. -/
def lastDigits : Nat → Nat → List Char
  | 0, _ => []
  | k + 1, n => lastDigits k (n / 10) ++ [Nat.digitChar (n % 10)]

/-- A checkout environment for the samples. -/
def sampleCheckoutEnv : CheckoutEnv :=
  { nowMillis := 1714557600123
    now := "2024-05-01T10:00:00.123Z"
    typeError := "Cannot read properties of null (reading 'value')"
    sessionWriteError := none
    cartEnv := sampleEnv }

/-- The order-submission stub that returns `{ success: true }`. -/
def acceptingStub (_ : Order) : SubmitOutcome :=
  .returned { success := .bool true, orderId := none, message := none, timestamp := none }

/-- The order-submission stub that returns
`{ success: false, message: 'declined' }`. -/
def decliningStub (_ : Order) : SubmitOutcome :=
  .returned { success := .bool false, orderId := none, message := some "declined",
              timestamp := none }

/-- The order-submission stub that returns `{ success: 'no' }`. -/
def stringStub (_ : Order) : SubmitOutcome :=
  .returned { success := .string "no", orderId := none, message := none,
              timestamp := none }

/-- The sample checkout environment with a session storage that refuses the
write. -/
def fullSessionEnv : CheckoutEnv :=
  { sampleCheckoutEnv with sessionWriteError := some "The quota has been exceeded." }

/-- The sample checkout page with every field valid and no payment method
marked active. -/
def validPage : CheckoutPage :=
  { doc := samplePage "ada@example.com" "12345", activePayment := none }

/-- The sum of the specification in exact arithmetic: price times quantity
over the line items, each price at the value of its double, with no rounding
of the products or of the sum. -/
def exactSubtotal (items : List OrderItem) : ℚ :=
  (items.map (fun item => roundDouble item.price * (item.quantity : ℚ))).sum

/-- A cart of three items at 5.05 and three at 44.95. -/
def roundingCart : CartManager :=
  managerOf [{ sampleLine 3 with price := 5.05 }, { otherLine 3 with price := 44.95 }]

/-- A cart of one item each at 0.1, 0.2 and 0.3. -/
def orderCart : CartManager :=
  managerOf [{ sampleLine 1 with price := 0.1 },
    { otherLine 1 with price := 0.2 },
    { sampleLine 1 with id := "p3", price := 0.3 }]

/-- The products price times quantity of the line items added in doubles from
the last line item to the first. -/
def sumFromLast (items : List OrderItem) : JsNumber :=
  items.foldr (fun item total =>
    ((JsNumber.ofRat item.price).mul (JsNumber.ofRat item.quantity)).add total) (.finite 0)

/-- A cart whose one line has the price `2^1024`, a value beyond the largest
double: as a Number it is `Infinity`. -/
def infinitePriceCart : CartManager :=
  managerOf [{ sampleLine 1 with price := 2 ^ 1024 }]

/-! ## Lemmas on `findIndex` -/

theorem findIndex_eq_none_iff {α : Type} (p : α → Bool) (l : List α) :
    findIndex p l = none ↔ ∀ x ∈ l, p x = false := by
  induction l with
  | nil => simp [findIndex]
  | cons x xs ih =>
    by_cases hx : p x = true
    · simp [findIndex, hx]
    · simp [findIndex, hx, ih]

theorem findIndex_eq_some_iff {α : Type} (p : α → Bool) (l : List α) (i : Nat) :
    findIndex p l = some i ↔
      ∃ x, l[i]? = some x ∧ p x = true ∧
        ∀ j y, j < i → l[j]? = some y → p y = false := by
  induction l generalizing i with
  | nil => simp [findIndex]
  | cons x xs ih =>
    by_cases hx : p x = true
    · simp only [findIndex, hx, if_true, Option.some.injEq]
      constructor
      · rintro rfl
        exact ⟨x, by simp, hx, by intro j y hj; omega⟩
      · rintro ⟨y, hy, hpy, hlt⟩
        rcases Nat.eq_zero_or_pos i with h0 | hpos
        · exact h0.symm
        · have := hlt 0 x hpos (by simp)
          simp [hx] at this
    · have hxf : p x = false := by simpa using hx
      simp only [findIndex, hxf, Bool.false_eq_true, if_false, Option.map_eq_some']
      constructor
      · rintro ⟨k, hk, rfl⟩
        obtain ⟨y, hy, hpy, hlt⟩ := (ih k).1 hk
        refine ⟨y, by simpa using hy, hpy, ?_⟩
        intro j z hj hz
        cases j with
        | zero => simp at hz; subst hz; exact hxf
        | succ j => exact hlt j z (by omega) (by simpa using hz)
      · rintro ⟨y, hy, hpy, hlt⟩
        cases i with
        | zero => simp at hy; subst hy; simp [hpy] at hxf
        | succ k =>
          refine ⟨k, (ih k).2 ⟨y, by simpa using hy, hpy, ?_⟩, rfl⟩
          intro j z hj hz
          exact hlt (j + 1) z (by omega) (by simpa using hz)

theorem saveCart_items (env : Env) (m : CartManager) :
    (saveCart env m).cart.items = m.cart.items := rfl

/-! ## The cart operations -/

theorem list_modify_eq_set {α : Type} (f : α → α) (l : List α) (i : Nat) (x : α)
    (h : l[i]? = some x) : l.modify f i = l.set i (f x) := by
  induction l generalizing i with
  | nil => simp at h
  | cons y ys ih =>
    cases i with
    | zero => simp at h; subst h; simp [List.modify]
    | succ k =>
      simp at h
      have hk := ih k h
      simp only [List.modify] at hk ⊢
      simp [List.modifyTailIdx, hk]

/-- C1, the claim as worded, fails: an item whose quantity property is present
and 0 does not match any line of the empty cart, yet the appended line does
not carry quantity `item.quantity` (0): the code appends it with quantity 1. -/
theorem addItem_quantity_zero_counterexample :
    (∀ c ∈ (managerOf []).cart.items, ¬ sameLine c (sampleItem (some 0))) ∧
    (sampleItem (some 0)).quantity = some 0 ∧
    (addItem sampleEnv (sampleItem (some 0)) (managerOf [])).cart.items ≠
      (managerOf []).cart.items ++
        [{ id := "p1", name := "Captain Jacket", price := 50, image := "jacket.jpg",
           size := none, color := none, quantity := 0,
           addedAt := sampleEnv.now }] ∧
    (addItem sampleEnv (sampleItem (some 0)) (managerOf [])).cart.items =
      [{ id := "p1", name := "Captain Jacket", price := 50, image := "jacket.jpg",
         size := none, color := none, quantity := 1,
         addedAt := sampleEnv.now }] := by
  refine ⟨by simp [managerOf], rfl, ?_, ?_⟩
  · simp [addItem, managerOf, findIndex, saveCart, sampleItem, quantityOrOne]
  · simp [addItem, managerOf, findIndex, saveCart, sampleItem, quantityOrOne]

/-- C1 (amended): `addItem(item)` does one of two things, with `q` the added
quantity: `item.quantity` when it is present and not 0, and 1 when it is absent
or 0. If some line has the same id, size and color as `item`, the first such
line gets `q` added to its quantity and nothing else changes (same number of
lines, same order, every other line and the other fields of the matched line
unchanged). Otherwise exactly one line is appended at the end, carrying the
fields of `item`, quantity `q` and the current time, the earlier lines being
unchanged. -/
theorem addItem_merges_or_appends (env : Env) (item : NewItem) (m : CartManager) :
    ∃ q : Int,
      (item.quantity = none → q = 1) ∧
      (item.quantity = some 0 → q = 1) ∧
      (∀ k : Int, k ≠ 0 → item.quantity = some k → q = k) ∧
      (∀ (i : Nat) (line : CartItem),
        m.cart.items[i]? = some line → sameLine line item →
        (∀ (j : Nat) (c : CartItem), j < i → m.cart.items[j]? = some c →
          ¬ sameLine c item) →
        (addItem env item m).cart.items =
          m.cart.items.set i { line with quantity := line.quantity + q }) ∧
      ((∀ c ∈ m.cart.items, ¬ sameLine c item) →
        (addItem env item m).cart.items =
          m.cart.items ++
            [{ id := item.id, name := item.name, price := item.price,
               image := item.image, size := item.size, color := item.color,
               quantity := q, addedAt := env.now }]) := by
  refine ⟨quantityOrOne item.quantity, ?_, ?_, ?_, ?_, ?_⟩
  · intro h; simp [h, quantityOrOne]
  · intro h; simp [h, quantityOrOne]
  · intro k hk h; simp [h, quantityOrOne, hk]
  · intro i line hline hsame hfirst
    have hidx : findIndex (fun cartItem => cartItem.id == item.id &&
        cartItem.size == item.size && cartItem.color == item.color)
        m.cart.items = some i := by
      rw [findIndex_eq_some_iff]
      refine ⟨line, hline, ?_, ?_⟩
      · obtain ⟨h1, h2, h3⟩ := hsame
        simp [h1, h2, h3]
      · intro j c hj hc
        have := hfirst j c hj hc
        by_contra hcon
        apply this
        simp only [Bool.not_eq_false, Bool.and_eq_true, beq_iff_eq] at hcon
        exact ⟨hcon.1.1, hcon.1.2, hcon.2⟩
    simp only [addItem, hidx, saveCart_items]
    exact list_modify_eq_set _ _ _ _ hline
  · intro hnone
    have hidx : findIndex (fun cartItem => cartItem.id == item.id &&
        cartItem.size == item.size && cartItem.color == item.color)
        m.cart.items = none := by
      rw [findIndex_eq_none_iff]
      intro c hc
      have := hnone c hc
      by_contra hcon
      apply this
      simp only [Bool.not_eq_false, Bool.and_eq_true, beq_iff_eq] at hcon
      exact ⟨hcon.1.1, hcon.1.2, hcon.2⟩
    simp only [addItem, hidx, saveCart_items]

/-- Witness for C1: adding product `p1` with quantity 3 to a cart that holds
`p2` and then `p1` at quantity 2 only raises the second line to 5. -/
theorem addItem_merges_or_appends_witness :
    (addItem sampleEnv (sampleItem (some 3))
        (managerOf [otherLine 1, sampleLine 2])).cart.items =
      [otherLine 1, sampleLine 5] := by
  obtain ⟨q, -, -, hq, hmerge, -⟩ :=
    addItem_merges_or_appends sampleEnv (sampleItem (some 3))
      (managerOf [otherLine 1, sampleLine 2])
  have hq3 : q = 3 := hq 3 (by decide) rfl
  subst hq3
  have := hmerge 1 (sampleLine 2) rfl ⟨rfl, rfl, rfl⟩ (by
    intro j c hj hc
    have hj0 : j = 0 := by omega
    subst hj0
    simp [managerOf] at hc
    subst hc
    simp [sameLine, otherLine, sampleItem])
  rw [this]
  simp [managerOf, sampleLine]

theorem updateQuantity_of_first (env : Env) (itemId : String) (change : Int)
    (m : CartManager) (i : Nat) (line : CartItem)
    (hline : m.cart.items[i]? = some line) (hid : line.id = itemId)
    (hfirst : ∀ (j : Nat) (c : CartItem), j < i → m.cart.items[j]? = some c →
      c.id ≠ itemId) :
    (updateQuantity env itemId change m).cart.items =
      if line.quantity + change < 1 then m.cart.items.eraseIdx i
      else if line.quantity + change ≤ 10 then
        m.cart.items.set i { line with quantity := line.quantity + change }
      else m.cart.items := by
  have hidx : findIndex (fun item => item.id == itemId) m.cart.items = some i := by
    rw [findIndex_eq_some_iff]
    refine ⟨line, hline, by simp [hid], ?_⟩
    intro j c hj hc
    simpa using hfirst j c hj hc
  simp only [updateQuantity, hidx, hline, saveCart_items]

/-- C2: `updateQuantity(id, delta)` leaves the cart unchanged when no line has
that id. Otherwise, with `q` the quantity of the first line with that id and
`n = q + delta`: the line is removed when `n < 1`, its quantity becomes `n`
when `1 ≤ n ≤ 10`, and the items stay as they are when `n > 10`; all other
lines keep their content and order. In particular a change of `-q` removes the
line and a change of `+1` at quantity 10 leaves it at 10. -/
theorem updateQuantity_contract (env : Env) (itemId : String) (m : CartManager) :
    ((∀ c ∈ m.cart.items, c.id ≠ itemId) →
      ∀ delta : Int, updateQuantity env itemId delta m = m) ∧
    (∀ (i : Nat) (line : CartItem),
      m.cart.items[i]? = some line → line.id = itemId →
      (∀ (j : Nat) (c : CartItem), j < i → m.cart.items[j]? = some c →
        c.id ≠ itemId) →
      (∀ delta : Int,
        (line.quantity + delta < 1 →
          (updateQuantity env itemId delta m).cart.items =
            m.cart.items.eraseIdx i) ∧
        (1 ≤ line.quantity + delta → line.quantity + delta ≤ 10 →
          (updateQuantity env itemId delta m).cart.items =
            m.cart.items.set i { line with quantity := line.quantity + delta }) ∧
        (10 < line.quantity + delta →
          (updateQuantity env itemId delta m).cart.items = m.cart.items)) ∧
      (updateQuantity env itemId (-line.quantity) m).cart.items =
        m.cart.items.eraseIdx i ∧
      (line.quantity = 10 →
        (updateQuantity env itemId 1 m).cart.items = m.cart.items)) := by
  constructor
  · intro hnone delta
    have hidx : findIndex (fun item => item.id == itemId) m.cart.items = none := by
      rw [findIndex_eq_none_iff]
      intro c hc
      simpa using hnone c hc
    simp only [updateQuantity, hidx]
  · intro i line hline hid hfirst
    have key := fun change =>
      updateQuantity_of_first env itemId change m i line hline hid hfirst
    refine ⟨fun delta => ⟨?_, ?_, ?_⟩, ?_, ?_⟩
    · intro h; rw [key, if_pos h]
    · intro h1 h2; rw [key, if_neg (by omega), if_pos h2]
    · intro h; rw [key, if_neg (by omega), if_neg (by omega)]
    · rw [key, if_pos (by omega)]
    · intro h10; rw [key, if_neg (by omega), if_neg (by omega)]

/-- Witness for C2: in a cart holding `p2` and then `p1` at quantity 10, a
change of `-10` on `p1` removes its line and a change of `+1` leaves the
items as they are. -/
theorem updateQuantity_contract_witness :
    (updateQuantity sampleEnv "p1" (-10)
        (managerOf [otherLine 1, sampleLine 10])).cart.items = [otherLine 1] ∧
    (updateQuantity sampleEnv "p1" 1
        (managerOf [otherLine 1, sampleLine 10])).cart.items =
      [otherLine 1, sampleLine 10] ∧
    updateQuantity sampleEnv "p3" 1 (managerOf [otherLine 1, sampleLine 10]) =
      managerOf [otherLine 1, sampleLine 10] := by
  obtain ⟨habsent, hpresent⟩ :=
    updateQuantity_contract sampleEnv "p1" (managerOf [otherLine 1, sampleLine 10])
  obtain ⟨-, hneg, hcap⟩ := hpresent 1 (sampleLine 10) rfl rfl (by
    intro j c hj hc
    have hj0 : j = 0 := by omega
    subst hj0
    simp [managerOf] at hc
    subst hc
    simp [otherLine])
  refine ⟨?_, hcap rfl, ?_⟩
  · have h := hneg
    simp only [sampleLine] at h ⊢
    rw [h]
    simp [managerOf]
  · exact (updateQuantity_contract sampleEnv "p3"
      (managerOf [otherLine 1, sampleLine 10])).1
      (by simp [managerOf, otherLine, sampleLine]) 1

/-- C3, behaviour of the code at the failing input: the cart holds product
`p1` at quantity 10 (every quantity is in [1,10]); `addItem` with the item
`addProductToCart` builds (quantity 1) raises the line to 11, outside the
range. -/
theorem addItem_exceeds_quantity_cap :
    (∀ c ∈ (managerOf [sampleLine 10]).cart.items, quantityInRange c) ∧
    (addItem sampleEnv (sampleItem (some 1))
        (managerOf [sampleLine 10])).cart.items = [sampleLine 11] ∧
    ¬ (∀ c ∈ (addItem sampleEnv (sampleItem (some 1))
        (managerOf [sampleLine 10])).cart.items, quantityInRange c) := by
  have h : (addItem sampleEnv (sampleItem (some 1))
      (managerOf [sampleLine 10])).cart.items = [sampleLine 11] := by
    simp [addItem, managerOf, findIndex, saveCart, sampleItem, sampleLine,
      quantityOrOne, List.modify, List.modifyTailIdx]
  refine ⟨?_, h, ?_⟩
  · simp [managerOf, sampleLine, quantityInRange]
  · rw [h]
    simp [sampleLine, quantityInRange]

/-- The range [1,10] is kept by the three operations other than `addItem`:
`removeItem`, `updateQuantity` (every change) and `clearCart`. -/
theorem quantity_range_kept_without_addItem (env : Env) (m : CartManager)
    (h : ∀ c ∈ m.cart.items, quantityInRange c) :
    (∀ itemId, ∀ c ∈ (removeItem env itemId m).cart.items, quantityInRange c) ∧
    (∀ itemId change, ∀ c ∈ (updateQuantity env itemId change m).cart.items,
      quantityInRange c) ∧
    (∀ c ∈ (clearCart env m).cart.items, quantityInRange c) := by
  refine ⟨?_, ?_, ?_⟩
  · intro itemId c hc
    simp only [removeItem, saveCart_items, List.mem_filter] at hc
    exact h c hc.1
  · intro itemId change c hc
    unfold updateQuantity at hc
    split at hc
    · split at hc
      · next itemIndex line hline =>
        simp only [saveCart_items] at hc
        split_ifs at hc with h1 h2
        · exact h c (List.mem_of_mem_eraseIdx hc)
        · rcases List.mem_or_eq_of_mem_set hc with hmem | heq
          · exact h c hmem
          · subst heq
            exact ⟨by simpa using not_lt.mp h1, h2⟩
        · exact h c hc
      · exact h c hc
    · exact h c hc
  · intro c hc
    simp [clearCart, saveCart_items] at hc

theorem addItem_on_single_matching_line (env : Env) (item : NewItem)
    (m : CartManager) (line : CartItem) (hm : m.cart.items = [line])
    (hsame : sameLine line item) :
    (addItem env item m).cart.items =
      [{ line with quantity := line.quantity + countedQuantity item.quantity }] := by
  obtain ⟨h1, h2, h3⟩ := hsame
  have hq : quantityOrOne item.quantity = countedQuantity item.quantity := by
    cases hk : item.quantity with
    | none => rfl
    | some k =>
      by_cases h0 : k = 0
      · subst h0; rfl
      · simp only [quantityOrOne, h0, if_false]
        unfold countedQuantity
        split <;> simp_all
  simp [addItem, hm, findIndex, h1, h2, h3, saveCart, List.modify,
    List.modifyTailIdx, hq]

theorem addItem_on_empty (env : Env) (item : NewItem) (m : CartManager)
    (hm : m.cart.items = []) :
    ∃ line : CartItem, (addItem env item m).cart.items = [line] ∧
      sameLine line item ∧ line.quantity = countedQuantity item.quantity := by
  have hq : quantityOrOne item.quantity = countedQuantity item.quantity := by
    cases hk : item.quantity with
    | none => rfl
    | some k =>
      by_cases h0 : k = 0
      · subst h0; rfl
      · simp only [quantityOrOne, h0, if_false]
        unfold countedQuantity
        split <;> simp_all
  refine ⟨{ id := item.id, name := item.name, price := item.price,
             image := item.image, size := item.size, color := item.color,
             quantity := quantityOrOne item.quantity, addedAt := env.now },
    ?_, ⟨rfl, rfl, rfl⟩, hq⟩
  simp [addItem, hm, findIndex, saveCart]

theorem addItems_on_single_matching_line (calls : List (Env × NewItem)) :
    ∀ (m : CartManager) (line : CartItem), m.cart.items = [line] →
      (∀ call ∈ calls, sameLine line call.2) →
      (addItems calls m).cart.items =
        [{ line with quantity := line.quantity +
          (calls.map (fun call => countedQuantity call.2.quantity)).sum }] := by
  induction calls with
  | nil =>
    intro m line hm _
    simp [addItems, hm]
  | cons call rest ih =>
    intro m line hm hall
    have hstep := addItem_on_single_matching_line call.1 call.2 m line hm
      (hall call (by simp))
    have hrest := ih (addItem call.1 call.2 m) _ hstep (by
      intro c hc
      exact hall c (List.mem_cons_of_mem _ hc))
    simp only [addItems, hrest, List.map_cons, List.sum_cons, add_assoc]

/-- C4, the claim as worded, fails: from the empty cart, two `addItem` calls
for the same (id, size, color), the first carrying quantity 2 and the second
carrying quantity 0, leave one line of quantity 3, while the sum of the
carried quantities (1 counted only for an absent quantity) is 2. -/
theorem addItems_quantity_zero_counterexample :
    (addItems [(sampleEnv, sampleItem (some 2)), (sampleEnv, sampleItem (some 0))]
        (managerOf [])).cart.items = [{ sampleLine 3 with addedAt := sampleEnv.now }] ∧
    ([sampleItem (some 2), sampleItem (some 0)].map
        (fun item => statedQuantity item.quantity)).sum = 2 := by
  constructor
  · simp [addItems, addItem, managerOf, findIndex, saveCart, sampleItem, sampleLine,
      quantityOrOne, List.modify, List.modifyTailIdx]
  · simp [sampleItem, statedQuantity]

/-- C4 (amended): starting from an empty cart, after a non-empty sequence of
`addItem` calls whose items all carry the same (id, size, color), the cart has
exactly one line, it carries that triple, and its quantity is the sum of the
items' quantities, counting 1 for an item whose quantity is absent or 0. -/
theorem addItems_same_key_sums (calls : List (Env × NewItem)) (m : CartManager)
    (hempty : m.cart.items = []) (hne : calls ≠ [])
    (hkey : ∀ a ∈ calls, ∀ b ∈ calls,
      a.2.id = b.2.id ∧ a.2.size = b.2.size ∧ a.2.color = b.2.color) :
    ∃ line : CartItem, (addItems calls m).cart.items = [line] ∧
      (∀ a ∈ calls, sameLine line a.2) ∧
      line.quantity = (calls.map (fun call => countedQuantity call.2.quantity)).sum := by
  cases calls with
  | nil => exact absurd rfl hne
  | cons call rest =>
    obtain ⟨line, hline, hsame, hq⟩ := addItem_on_empty call.1 call.2 m hempty
    have hall : ∀ a ∈ call :: rest, sameLine line a.2 := by
      intro a ha
      obtain ⟨k1, k2, k3⟩ := hkey call (by simp) a ha
      obtain ⟨s1, s2, s3⟩ := hsame
      exact ⟨s1.trans k1, s2.trans k2, s3.trans k3⟩
    have hrest := addItems_on_single_matching_line rest
      (addItem call.1 call.2 m) line hline (by
        intro c hc
        exact hall c (List.mem_cons_of_mem _ hc))
    refine ⟨_, hrest, ?_, ?_⟩
    · intro a ha
      exact hall a ha
    · simp [hq]

/-- Witness for C4: from the empty cart, adding product `p1` once without a
quantity and once with quantity 3 leaves one line of quantity 4. -/
theorem addItems_same_key_sums_witness :
    (managerOf []).cart.items = [] ∧
    ∃ line : CartItem,
      (addItems [(sampleEnv, sampleItem none), (sampleEnv, sampleItem (some 3))]
        (managerOf [])).cart.items = [line] ∧ line.quantity = 4 := by
  refine ⟨rfl, ?_⟩
  obtain ⟨line, hline, -, hq⟩ := addItems_same_key_sums
    [(sampleEnv, sampleItem none), (sampleEnv, sampleItem (some 3))]
    (managerOf []) rfl (by simp) (by
      intro a ha b hb
      simp only [List.mem_cons, List.mem_singleton, List.not_mem_nil, or_false] at ha hb
      rcases ha with rfl | rfl <;> rcases hb with rfl | rfl <;>
        exact ⟨rfl, rfl, rfl⟩)
  refine ⟨line, hline, ?_⟩
  rw [hq]
  simp [sampleItem, countedQuantity]

/-- C5: after `removeItem(id)` no line has that id; the remaining sequence is
the prior lines whose id differs, in their prior order (it is the prior
sequence filtered, hence a subsequence of it that keeps every line with
another id); when no line has the id the sequence is unchanged; the call
always returns; and a second `removeItem(id)` changes nothing more. -/
theorem removeItem_contract (env env2 : Env) (itemId : String) (m : CartManager) :
    (∀ c ∈ (removeItem env itemId m).cart.items, c.id ≠ itemId) ∧
    (removeItem env itemId m).cart.items =
      m.cart.items.filter (fun c => decide (c.id ≠ itemId)) ∧
    List.Sublist (removeItem env itemId m).cart.items m.cart.items ∧
    (∀ c : CartItem, c.id ≠ itemId →
      (removeItem env itemId m).cart.items.count c = m.cart.items.count c) ∧
    ((∀ c ∈ m.cart.items, c.id ≠ itemId) →
      (removeItem env itemId m).cart.items = m.cart.items) ∧
    (removeItem env2 itemId (removeItem env itemId m)).cart.items =
      (removeItem env itemId m).cart.items := by
  have hfilter : (removeItem env itemId m).cart.items =
      m.cart.items.filter (fun c => decide (c.id ≠ itemId)) := by
    simp only [removeItem, saveCart_items]
    apply List.filter_congr
    intro c _
    by_cases h : c.id = itemId <;> simp [h]
  refine ⟨?_, hfilter, ?_, ?_, ?_, ?_⟩
  · intro c hc
    rw [hfilter, List.mem_filter] at hc
    simpa using hc.2
  · rw [hfilter]
    exact List.filter_sublist _
  · intro c hc
    rw [hfilter, List.count_filter]
    simpa using hc
  · intro hnone
    rw [hfilter, List.filter_eq_self]
    intro c hc
    simpa using hnone c hc
  · have h2 : (removeItem env2 itemId (removeItem env itemId m)).cart.items =
        (removeItem env itemId m).cart.items.filter (fun c => decide (c.id ≠ itemId)) := by
      simp only [removeItem, saveCart_items]
      apply List.filter_congr
      intro c _
      by_cases h : c.id = itemId <;> simp [h]
    rw [h2, hfilter, List.filter_filter]
    congr 1
    funext c
    simp

/-- Witness for C5: removing `p1` from a cart holding `p1`, `p2`, `p1` leaves
the `p2` line alone, and removing the absent `p3` leaves all three lines. -/
theorem removeItem_contract_witness :
    (removeItem sampleEnv "p1"
        (managerOf [sampleLine 1, otherLine 2, sampleLine 3])).cart.items =
      [otherLine 2] ∧
    (removeItem sampleEnv "p3"
        (managerOf [sampleLine 1, otherLine 2, sampleLine 3])).cart.items =
      [sampleLine 1, otherLine 2, sampleLine 3] := by
  obtain ⟨-, hfilter, -, -, -, -⟩ := removeItem_contract sampleEnv sampleEnv "p1"
    (managerOf [sampleLine 1, otherLine 2, sampleLine 3])
  obtain ⟨-, -, -, -, habsent, -⟩ := removeItem_contract sampleEnv sampleEnv "p3"
    (managerOf [sampleLine 1, otherLine 2, sampleLine 3])
  refine ⟨?_, habsent (by simp [managerOf, sampleLine, otherLine])⟩
  rw [hfilter]
  simp [managerOf, sampleLine, otherLine, List.filter]

/-! ## Derived amounts -/

theorem JsNumber.mul_symm (a b : JsNumber) : a.mul b = b.mul a := by
  cases a <;> cases b <;> simp [JsNumber.mul, mul_comm]

/-- C6, the claim as worded, fails: for the subtotal 0.1 (not above 150) the
code computes `(0.1 + 15) + 0.1 * 0.08` in doubles, which is
15.107999999999999, while `1.08 * 0.1 + 15` is 15.108, both evaluated in
doubles and evaluated exactly and then rounded; for the subtotal 299.99 (above
150) the code gives 323.9892 and `1.08 * 299.99` is 323.98920000000004. -/
theorem calculateTotal_closed_form_counterexample :
    (JsNumber.ofRat 0.1).gt (.finite 150) = false ∧
    calculateTotal (JsNumber.ofRat 0.1) = JsNumber.ofRat 15.107999999999999 ∧
    ((JsNumber.ofRat 1.08).mul (JsNumber.ofRat 0.1)).add (.finite 15) =
      JsNumber.ofRat 15.108 ∧
    JsNumber.ofRat (1.08 * 0.1 + 15) = JsNumber.ofRat 15.108 ∧
    JsNumber.ofRat 15.107999999999999 ≠ JsNumber.ofRat 15.108 ∧
    (JsNumber.ofRat 299.99).gt (.finite 150) = true ∧
    calculateTotal (JsNumber.ofRat 299.99) = JsNumber.ofRat 323.9892 ∧
    (JsNumber.ofRat 1.08).mul (JsNumber.ofRat 299.99) =
      JsNumber.ofRat 323.98920000000004 ∧
    JsNumber.ofRat 323.9892 ≠ JsNumber.ofRat 323.98920000000004 := by
  refine ⟨?_, ?_, ?_, ?_, ?_, ?_, ?_, ?_, ?_⟩ <;> decide!

/-- C6 (amended): for every subtotal `s`, `calculateShipping(s)` is 0 when
`s > 150` and 15 otherwise (so exactly 150 still pays 15), `calculateTax(s)`
is the double product `0.08 * s`, and `calculateTotal(s)` is the double sum
`(s + calculateShipping(s)) + calculateTax(s)`, each operation rounded to the
nearest double. In particular `calculateShipping(150) = 15`,
`calculateShipping(150.01) = 0`, `calculateTax(100) = 8` and
`calculateTotal(100) = 123`. -/
theorem pricing_contract :
    (∀ s : JsNumber, s.gt (.finite 150) = true → calculateShipping s = .finite 0) ∧
    (∀ s : JsNumber, s.gt (.finite 150) = false → calculateShipping s = .finite 15) ∧
    (∀ x : ℚ, (JsNumber.finite x).gt (.finite 150) = true ↔ 150 < x) ∧
    (∀ s : JsNumber, calculateTax s = (JsNumber.ofRat 0.08).mul s) ∧
    (∀ s : JsNumber,
      calculateTotal s = (s.add (calculateShipping s)).add (calculateTax s)) ∧
    calculateShipping (.finite 150) = .finite 15 ∧
    calculateShipping (JsNumber.ofRat 150.01) = .finite 0 ∧
    calculateTax (.finite 100) = .finite 8 ∧
    calculateTotal (.finite 100) = .finite 123 := by
  refine ⟨?_, ?_, ?_, ?_, ?_, ?_, ?_, ?_, ?_⟩
  · intro s h; simp [calculateShipping, h]
  · intro s h; simp [calculateShipping, h]
  · intro x; simp [JsNumber.gt]
  · intro s; rw [calculateTax, JsNumber.mul_symm]
  · intro s; rfl
  · decide!
  · decide!
  · decide!
  · decide!

/-! ## The pattern matcher -/

theorem mem_run_cls (p : Char → Bool) (s t : List Char) :
    t ∈ (Pattern.cls p).run s ↔ ∃ c, p c = true ∧ s = c :: t := by
  cases s with
  | nil => simp [Pattern.run]
  | cons c rest =>
    by_cases hc : p c = true
    · simp only [Pattern.run, hc, if_true, List.mem_singleton, List.cons.injEq]
      constructor
      · rintro rfl
        exact ⟨c, hc, rfl, rfl⟩
      · rintro ⟨d, -, -, h⟩
        exact h.symm
    · simp only [Pattern.run, hc, Bool.false_eq_true, if_false, List.not_mem_nil,
        List.cons.injEq, false_iff, not_exists, not_and]
      rintro d hd rfl
      exact absurd hd hc

theorem mem_exactly_cls (p : Char → Bool) (n : Nat) (s t : List Char) :
    t ∈ exactly (Pattern.cls p).run n s ↔
      ∃ pre, pre.length = n ∧ (∀ c ∈ pre, p c = true) ∧ s = pre ++ t := by
  induction n generalizing s with
  | zero =>
    simp only [exactly, List.mem_singleton, List.length_eq_zero]
    constructor
    · rintro rfl
      exact ⟨[], rfl, by simp, rfl⟩
    · rintro ⟨pre, rfl, -, h⟩
      simpa using h.symm
  | succ n ih =>
    simp only [exactly, List.mem_flatMap, mem_run_cls, ih]
    constructor
    · rintro ⟨u, ⟨c, hc, rfl⟩, pre, hlen, hall, rfl⟩
      refine ⟨c :: pre, by simp [hlen], ?_, rfl⟩
      intro d hd
      rcases List.mem_cons.1 hd with rfl | hd
      · exact hc
      · exact hall d hd
    · rintro ⟨pre, hlen, hall, rfl⟩
      cases pre with
      | nil => simp at hlen
      | cons c pre =>
        refine ⟨pre ++ t, ⟨c, hall c (by simp), rfl⟩, pre, by simpa using hlen, ?_, rfl⟩
        intro d hd
        exact hall d (List.mem_cons_of_mem _ hd)

theorem mem_atMost_cls (p : Char → Bool) (n : Nat) (s t : List Char) :
    t ∈ atMost (Pattern.cls p).run n s ↔
      ∃ pre, pre.length ≤ n ∧ (∀ c ∈ pre, p c = true) ∧ s = pre ++ t := by
  induction n generalizing s with
  | zero =>
    simp only [atMost, List.mem_singleton, Nat.le_zero, List.length_eq_zero]
    constructor
    · rintro rfl
      exact ⟨[], rfl, by simp, rfl⟩
    · rintro ⟨pre, rfl, -, h⟩
      simpa using h.symm
  | succ n ih =>
    simp only [atMost, List.mem_append, List.mem_flatMap, mem_run_cls, ih,
      List.mem_singleton]
    constructor
    · rintro (⟨u, ⟨c, hc, rfl⟩, pre, hlen, hall, rfl⟩ | rfl)
      · refine ⟨c :: pre, by simp [hlen], ?_, rfl⟩
        intro d hd
        rcases List.mem_cons.1 hd with rfl | hd
        · exact hc
        · exact hall d hd
      · exact ⟨[], by simp, by simp, rfl⟩
    · rintro ⟨pre, hlen, hall, rfl⟩
      cases pre with
      | nil => right; rfl
      | cons c pre =>
        left
        refine ⟨pre ++ t, ⟨c, hall c (by simp), rfl⟩, pre, ?_, ?_, rfl⟩
        · simp at hlen; omega
        · intro d hd
          exact hall d (List.mem_cons_of_mem _ hd)

theorem run_plus (a : Pattern) (s : List Char) :
    (Pattern.plus a).run s = (a.run s).flatMap (atMost a.run s.length) := rfl

theorem run_rep (a : Pattern) (lo hi : Nat) (s : List Char) :
    (Pattern.rep a lo hi).run s =
      (exactly a.run lo s).flatMap (atMost a.run (hi - lo)) := rfl

theorem mem_run_plus_cls (p : Char → Bool) (s t : List Char) :
    t ∈ (Pattern.plus (Pattern.cls p)).run s ↔
      ∃ pre, pre ≠ [] ∧ (∀ c ∈ pre, p c = true) ∧ s = pre ++ t := by
  simp only [run_plus, List.mem_flatMap, mem_run_cls, mem_atMost_cls]
  constructor
  · rintro ⟨u, ⟨c, hc, rfl⟩, pre, -, hall, rfl⟩
    refine ⟨c :: pre, by simp, ?_, rfl⟩
    intro d hd
    rcases List.mem_cons.1 hd with rfl | hd
    · exact hc
    · exact hall d hd
  · rintro ⟨pre, hne, hall, rfl⟩
    cases pre with
    | nil => exact absurd rfl hne
    | cons c pre =>
      refine ⟨pre ++ t, ⟨c, hall c (by simp), rfl⟩, pre, ?_, ?_, rfl⟩
      · simp; omega
      · intro d hd
        exact hall d (List.mem_cons_of_mem _ hd)

theorem mem_run_rep_cls (p : Char → Bool) (lo hi : Nat) (hle : lo ≤ hi)
    (s t : List Char) :
    t ∈ (Pattern.rep (Pattern.cls p) lo hi).run s ↔
      ∃ pre, lo ≤ pre.length ∧ pre.length ≤ hi ∧ (∀ c ∈ pre, p c = true) ∧
        s = pre ++ t := by
  simp only [run_rep, List.mem_flatMap, mem_exactly_cls, mem_atMost_cls]
  constructor
  · rintro ⟨u, ⟨pre1, hlen1, hall1, rfl⟩, pre2, hlen2, hall2, rfl⟩
    refine ⟨pre1 ++ pre2, by simp; omega, by simp; omega, ?_, by simp⟩
    intro d hd
    rcases List.mem_append.1 hd with hd | hd
    · exact hall1 d hd
    · exact hall2 d hd
  · rintro ⟨pre, hlo, hhi, hall, rfl⟩
    refine ⟨pre.drop lo ++ t, ⟨pre.take lo, ?_, ?_, ?_⟩, pre.drop lo, ?_, ?_, rfl⟩
    · simp; omega
    · intro d hd
      exact hall d (List.mem_of_mem_take hd)
    · rw [← List.append_assoc, List.take_append_drop]
    · simp; omega
    · intro d hd
      exact hall d (List.mem_of_mem_drop hd)

theorem mem_run_seq (a b : Pattern) (s t : List Char) :
    t ∈ (Pattern.seq a b).run s ↔ ∃ u, u ∈ a.run s ∧ t ∈ b.run u := by
  simp [Pattern.run, List.mem_flatMap]

theorem mem_run_opt (a : Pattern) (s t : List Char) :
    t ∈ (Pattern.opt a).run s ↔ t ∈ a.run s ∨ t = s := by
  simp [Pattern.run]

theorem test_iff (body : Pattern) (s : List Char) :
    body.test s = true ↔ [] ∈ body.run s := by
  simp only [Pattern.test, List.any_eq_true]
  constructor
  · rintro ⟨t, ht, hempty⟩
    have : t = [] := by simpa using hempty
    exact this ▸ ht
  · intro h
    exact ⟨[], h, rfl⟩

/-! ## Field validation -/

theorem validationRules_of_mem (id : String) (hid : id ∈ ruleKeys) :
    ∃ rules, validationRules id = some rules ∧ rules.required = true := by
  simp only [ruleKeys, List.mem_cons, List.mem_singleton, List.not_mem_nil,
    or_false] at hid
  rcases hid with rfl | rfl | rfl | rfl | rfl | rfl | rfl <;>
    exact ⟨_, rfl, rfl⟩

theorem validateField_eq (id : String) (rules : Rule)
    (hrules : validationRules id = some rules) (hreq : rules.required = true)
    (input errorElement : Element) :
    validateField id input errorElement =
      if trim input.value.toList = [] then
        some { valid := false
               input := { input with errorClass := true }
               errorElement :=
                 { errorElement with textContent := "This field is required" } }
      else if (match rules.pattern with
          | some pattern => !pattern.test (trim input.value.toList)
          | none => false) = true then
        some { valid := false
               input := { input with errorClass := true }
               errorElement := { errorElement with textContent := rules.message } }
      else
        some { valid := true
               input := { input with errorClass := false }
               errorElement := { errorElement with textContent := "" } } := by
  unfold validateField
  simp only [hrules, hreq, Bool.true_and]
  generalize trim input.value.toList = v
  cases v with
  | nil => simp
  | cons c rest => simp

/-- C7: for each of the seven rule fields and every input value, with `v` the
value stripped of leading and trailing whitespace: if `v` is empty,
`validateField` returns false and sets the error text to 'This field is
required' (the `state` field included); if `v` is not empty and the field has
a pattern that `v` does not match, it returns false and sets the error text to
the message of the field's rule; in every other case it returns true and the
error text is empty, whatever it was before the call. -/
theorem validateField_contract (id : String) (hid : id ∈ ruleKeys)
    (input errorElement : Element) :
    ∃ rules : Rule, validationRules id = some rules ∧
      (trim input.value.toList = [] →
        validateField id input errorElement = some
          { valid := false
            input := { input with errorClass := true }
            errorElement :=
              { errorElement with textContent := "This field is required" } }) ∧
      (trim input.value.toList ≠ [] →
        ∀ pattern : Pattern, rules.pattern = some pattern →
          pattern.test (trim input.value.toList) = false →
          validateField id input errorElement = some
            { valid := false
              input := { input with errorClass := true }
              errorElement := { errorElement with textContent := rules.message } }) ∧
      (trim input.value.toList ≠ [] →
        (rules.pattern = none ∨ ∃ pattern : Pattern, rules.pattern = some pattern ∧
          pattern.test (trim input.value.toList) = true) →
        validateField id input errorElement = some
          { valid := true
            input := { input with errorClass := false }
            errorElement := { errorElement with textContent := "" } }) ∧
      (id = "state" → rules.pattern = none) := by
  obtain ⟨rules, hrules, hreq⟩ := validationRules_of_mem id hid
  have key := validateField_eq id rules hrules hreq input errorElement
  refine ⟨rules, hrules, ?_, ?_, ?_, ?_⟩
  · intro hv
    rw [key, if_pos hv]
  · intro hv pattern hp htest
    have hfail : (match rules.pattern with
        | some pattern => !pattern.test (trim input.value.toList)
        | none => false) = true := by
      rw [hp]
      show (!pattern.test (trim input.value.toList)) = true
      rw [htest]
      rfl
    rw [key, if_neg hv, if_pos hfail]
  · intro hv hok
    rw [key, if_neg hv, if_neg]
    rcases hok with hnone | ⟨pattern, hp, htest⟩
    · rw [hnone]
      exact Bool.false_ne_true
    · rw [hp]
      show ¬ (!pattern.test (trim input.value.toList)) = true
      rw [htest]
      exact Bool.false_ne_true
  · rintro rfl
    have hstate : validationRules "state" = some ⟨true, none, "Please select a state"⟩ :=
      rfl
    rw [hstate] at hrules
    cases hrules
    rfl

/-- Witness for C7: a blank `state` asks for the required field, the ZIP
value `1234` gets the ZIP message, and a chosen state passes and clears the
earlier error text. -/
theorem validateField_contract_witness :
    validateField "state" ⟨"  ", "", false⟩ ⟨"", "", false⟩ =
      some ⟨false, ⟨"  ", "", true⟩, ⟨"", "This field is required", false⟩⟩ ∧
    validateField "zip" ⟨"1234", "", false⟩ ⟨"", "", false⟩ =
      some ⟨false, ⟨"1234", "", true⟩, ⟨"", "Please enter a valid ZIP code", false⟩⟩ ∧
    validateField "state" ⟨"CA", "", true⟩ ⟨"", "Please select a state", false⟩ =
      some ⟨true, ⟨"CA", "", false⟩, ⟨"", "", false⟩⟩ := by
  refine ⟨?_, ?_, ?_⟩
  · obtain ⟨rules, -, h, -, -, -⟩ := validateField_contract "state" (by decide)
      ⟨"  ", "", false⟩ ⟨"", "", false⟩
    exact h (by decide)
  · obtain ⟨rules, hrules, -, h, -, -⟩ := validateField_contract "zip" (by decide)
      ⟨"1234", "", false⟩ ⟨"", "", false⟩
    have hz : validationRules "zip" =
        some ⟨true, some zipPattern, "Please enter a valid ZIP code"⟩ := rfl
    rw [hz] at hrules
    cases hrules
    exact h (by decide) zipPattern rfl (by decide)
  · obtain ⟨rules, hrules, -, -, h, hstate⟩ := validateField_contract "state" (by decide)
      ⟨"CA", "", true⟩ ⟨"", "Please select a state", false⟩
    exact h (by decide) (Or.inl (hstate rfl))

theorem accepted_iff (id : String) (rules : Rule) (pattern : Pattern)
    (hrules : validationRules id = some rules) (hreq : rules.required = true)
    (hp : rules.pattern = some pattern) (input errorElement : Element) :
    accepted id input errorElement ↔
      trim input.value.toList ≠ [] ∧ pattern.test (trim input.value.toList) = true := by
  unfold accepted
  rw [validateField_eq id rules hrules hreq input errorElement, hp]
  by_cases hv : trim input.value.toList = []
  · rw [if_pos hv]
    constructor
    · rintro ⟨r, hr, hvalid⟩
      cases hr
      cases hvalid
    · rintro ⟨h, -⟩
      exact absurd hv h
  · rw [if_neg hv]
    cases htest : pattern.test (trim input.value.toList) with
    | true =>
      have hcond : ¬ ((match some pattern with
          | some pattern => !pattern.test (trim input.value.toList)
          | none => false) = true) := by
        show ¬ (!pattern.test (trim input.value.toList)) = true
        rw [htest]
        exact Bool.false_ne_true
      rw [if_neg hcond]
      exact ⟨fun _ => ⟨hv, rfl⟩, fun _ => ⟨_, rfl, rfl⟩⟩
    | false =>
      have hcond : (match some pattern with
          | some pattern => !pattern.test (trim input.value.toList)
          | none => false) = true := by
        show (!pattern.test (trim input.value.toList)) = true
        rw [htest]
        rfl
      rw [if_pos hcond]
      constructor
      · rintro ⟨r, hr, hvalid⟩
        cases hr
        cases hvalid
      · rintro ⟨-, h⟩
        cases h

/-! ### The email pattern -/

theorem afterAt_append (pre rest : List Char) (hpre : ∀ c ∈ pre, c ≠ '@') :
    afterAt (pre ++ '@' :: rest) = rest := by
  induction pre with
  | nil => simp [afterAt, List.dropWhile]
  | cons x xs ih =>
    have hx : x ≠ '@' := hpre x (by simp)
    have hxs : ∀ c ∈ xs, c ≠ '@' := fun c hc => hpre c (List.mem_cons_of_mem _ hc)
    have := ih hxs
    have hb : (x != '@') = true := by simpa using hx
    simp only [afterAt] at this ⊢
    rw [List.cons_append, List.dropWhile_cons, if_pos hb]
    exact this

theorem split_at_first_at (v : List Char) (h : '@' ∈ v) :
    ∃ pre rest, v = pre ++ '@' :: rest ∧ ∀ c ∈ pre, c ≠ '@' := by
  induction v with
  | nil => simp at h
  | cons x xs ih =>
    by_cases hx : x = '@'
    · exact ⟨[], xs, by simp [hx], by simp⟩
    · have hxs : '@' ∈ xs := by
        rcases List.mem_cons.1 h with h | h
        · exact absurd h.symm hx
        · exact h
      obtain ⟨pre, rest, hv, hpre⟩ := ih hxs
      refine ⟨x :: pre, rest, by simp [hv], ?_⟩
      intro c hc
      rcases List.mem_cons.1 hc with rfl | hc
      · exact hx
      · exact hpre c hc

theorem notSpaceNorAt_iff (c : Char) :
    notSpaceNorAt c = true ↔ isWhiteSpace c = false ∧ c ≠ '@' := by
  simp [notSpaceNorAt]

theorem emailPattern_test_iff (v : List Char) :
    emailPattern.test v = true ↔
      ∃ l a b : List Char, l ≠ [] ∧ a ≠ [] ∧ b ≠ [] ∧
        (∀ c ∈ l, notSpaceNorAt c = true) ∧ (∀ c ∈ a, notSpaceNorAt c = true) ∧
        (∀ c ∈ b, notSpaceNorAt c = true) ∧ v = l ++ '@' :: (a ++ '.' :: b) := by
  rw [test_iff]
  simp only [emailPattern, mem_run_seq, mem_run_plus_cls, mem_run_cls]
  constructor
  · rintro ⟨u1, ⟨l, hl, hlall, rfl⟩, u2, ⟨c1, hc1, rfl⟩, u3, ⟨a, ha, haall, rfl⟩,
      u4, ⟨c2, hc2, rfl⟩, b, hb, hball, rfl⟩
    have e1 : c1 = '@' := by simpa using hc1
    have e2 : c2 = '.' := by simpa using hc2
    subst e1 e2
    exact ⟨l, a, b, hl, ha, hb, hlall, haall, hball, by simp⟩
  · rintro ⟨l, a, b, hl, ha, hb, hlall, haall, hball, rfl⟩
    exact ⟨_, ⟨l, hl, hlall, rfl⟩, _, ⟨'@', by simp, rfl⟩, _, ⟨a, ha, haall, rfl⟩,
      _, ⟨'.', by simp, rfl⟩, b, hb, hball, by simp⟩

theorem emailPattern_test_iff_shape (v : List Char) :
    emailPattern.test v = true ↔ emailShape v := by
  rw [emailPattern_test_iff]
  constructor
  · rintro ⟨l, a, b, hl, ha, hb, hlall, haall, hball, rfl⟩
    have hl2 := fun c hc => (notSpaceNorAt_iff c).1 (hlall c hc)
    have ha2 := fun c hc => (notSpaceNorAt_iff c).1 (haall c hc)
    have hb2 := fun c hc => (notSpaceNorAt_iff c).1 (hball c hc)
    have hafter : afterAt (l ++ '@' :: (a ++ '.' :: b)) = a ++ '.' :: b :=
      afterAt_append l _ (fun c hc => (hl2 c hc).2)
    refine ⟨?_, ?_, ?_, a.length, ?_, ?_, ?_⟩
    · intro c hc
      simp only [List.mem_append, List.mem_cons] at hc
      rcases hc with hc | rfl | hc | rfl | hc
      · exact (hl2 c hc).1
      · decide
      · exact (ha2 c hc).1
      · decide
      · exact (hb2 c hc).1
    · have c1 : l.count '@' = 0 := List.count_eq_zero.2 (fun h => (hl2 _ h).2 rfl)
      have c2 : a.count '@' = 0 := List.count_eq_zero.2 (fun h => (ha2 _ h).2 rfl)
      have c3 : b.count '@' = 0 := List.count_eq_zero.2 (fun h => (hb2 _ h).2 rfl)
      have c4 : ('.' == '@') = false := by decide
      simp [List.count_append, List.count_cons, c1, c2, c3, c4]
    · cases l with
      | nil => exact absurd rfl hl
      | cons x xs =>
        simp only [List.cons_append, List.head?_cons, ne_eq, Option.some.injEq]
        exact (hl2 x (by simp)).2
    · exact List.length_pos.2 ha
    · rw [hafter]
      have : 0 < b.length := List.length_pos.2 hb
      simp
      omega
    · rw [hafter, List.getElem?_append_right (le_refl _)]
      simp
  · rintro ⟨hws, hcount, hhead, i, hi0, hilen, hdot⟩
    have hmem : '@' ∈ v := by
      rw [← List.count_pos_iff]
      omega
    obtain ⟨l, d, rfl, hl⟩ := split_at_first_at v hmem
    have hafter : afterAt (l ++ '@' :: d) = d := afterAt_append l d hl
    rw [hafter] at hilen hdot
    have hd : d.count '@' = 0 := by
      have c1 : l.count '@' = 0 := List.count_eq_zero.2 (fun h => hl _ h rfl)
      simp [List.count_append, List.count_cons, c1] at hcount
      exact hcount
    have hdnot : ∀ c ∈ d, c ≠ '@' := by
      intro c hc hcat
      subst hcat
      exact List.count_eq_zero.1 hd hc
    have hilt : i < d.length := by omega
    have hget : d[i] = '.' := by
      rw [List.getElem?_eq_getElem hilt] at hdot
      exact Option.some.inj hdot
    have hsplit : d = d.take i ++ '.' :: d.drop (i + 1) := by
      conv_lhs => rw [← List.take_append_drop i d, List.drop_eq_getElem_cons hilt, hget]
    refine ⟨l, d.take i, d.drop (i + 1), ?_, ?_, ?_, ?_, ?_, ?_, ?_⟩
    · intro hnil
      subst hnil
      exact hhead (by simp)
    · intro hnil
      have h1 : (d.take i).length = min i d.length := by simp
      rw [hnil] at h1
      simp only [List.length_nil] at h1
      omega
    · intro hnil
      have h1 : (d.drop (i + 1)).length = d.length - (i + 1) := by simp
      rw [hnil] at h1
      simp only [List.length_nil] at h1
      omega
    · intro c hc
      exact (notSpaceNorAt_iff c).2 ⟨hws c (by simp [hc]), hl c hc⟩
    · intro c hc
      have hcd : c ∈ d := List.mem_of_mem_take hc
      exact (notSpaceNorAt_iff c).2 ⟨hws c (by simp [hcd]), hdnot c hcd⟩
    · intro c hc
      have hcd : c ∈ d := List.mem_of_mem_drop hc
      exact (notSpaceNorAt_iff c).2 ⟨hws c (by simp [hcd]), hdnot c hcd⟩
    · rw [← hsplit]

/-- C8: `validateField` accepts an email value exactly when, after trimming,
it contains no whitespace, contains exactly one `@`, which is not its first
character, and the part after the `@` contains a `.` that is neither the first
nor the last character of that part. So `a@b` is rejected and `a@b.com` is
accepted. -/
theorem validateField_email_iff_shape :
    (∀ input errorElement : Element,
      accepted "email" input errorElement ↔ emailShape (trim input.value.toList)) ∧
    (∀ input errorElement : Element, input.value = "a@b" →
      ¬ accepted "email" input errorElement) ∧
    (∀ input errorElement : Element, input.value = "a@b.com" →
      accepted "email" input errorElement) := by
  have key : ∀ input errorElement : Element,
      accepted "email" input errorElement ↔ emailShape (trim input.value.toList) := by
    intro input errorElement
    rw [accepted_iff "email" ⟨true, some emailPattern, "Please enter a valid email address"⟩
      emailPattern rfl rfl rfl input errorElement, emailPattern_test_iff_shape]
    constructor
    · exact fun h => h.2
    · intro h
      refine ⟨?_, h⟩
      intro hnil
      have hc := h.2.1
      rw [hnil] at hc
      simp at hc
  refine ⟨key, ?_, ?_⟩
  · intro input errorElement hval
    rw [key, hval, ← emailPattern_test_iff_shape]
    decide
  · intro input errorElement hval
    rw [key, hval, ← emailPattern_test_iff_shape]
    decide

/-! ### The other patterns -/

theorem namePattern_test_iff (v : List Char) :
    namePattern.test v = true ↔ nameShape v := by
  rw [test_iff, namePattern, mem_run_rep_cls _ 2 50 (by decide)]
  constructor
  · rintro ⟨pre, hlo, hhi, hall, rfl⟩
    refine ⟨by simpa using hlo, by simpa using hhi, ?_⟩
    intro c hc
    have := hall c (by simpa using hc)
    simpa using this
  · rintro ⟨hlo, hhi, hall⟩
    refine ⟨v, hlo, hhi, ?_, by simp⟩
    intro c hc
    simpa using hall c hc

theorem addressPattern_test_iff (v : List Char) :
    addressPattern.test v = true ↔ addressShape v := by
  rw [test_iff, addressPattern, mem_run_rep_cls _ 5 100 (by decide)]
  constructor
  · rintro ⟨pre, hlo, hhi, hall, rfl⟩
    refine ⟨by simpa using hlo, by simpa using hhi, ?_⟩
    intro c hc
    have := hall c (by simpa using hc)
    simpa [or_assoc] using this
  · rintro ⟨hlo, hhi, hall⟩
    refine ⟨v, hlo, hhi, ?_, by simp⟩
    intro c hc
    simpa [or_assoc] using hall c hc

theorem zipPattern_test_iff (v : List Char) :
    zipPattern.test v = true ↔ zipShape v := by
  rw [test_iff, zipPattern]
  simp only [mem_run_seq, mem_run_opt, mem_run_cls,
    mem_run_rep_cls _ 5 5 (le_refl 5), mem_run_rep_cls _ 4 4 (le_refl 4)]
  constructor
  · rintro ⟨u, ⟨a, ha1, ha2, haall, rfl⟩, (⟨u2, ⟨c, hc, rfl⟩, b, hb1, hb2, hball, rfl⟩ | hnil)⟩
    · have hdash : c = '-' := by simpa using hc
      subst hdash
      exact ⟨a, by omega, haall, Or.inr ⟨b, by omega, hball, by simp⟩⟩
    · subst hnil
      exact ⟨a, by omega, haall, Or.inl (by simp)⟩
  · rintro ⟨a, halen, haall, (rfl | ⟨b, hblen, hball, rfl⟩)⟩
    · exact ⟨[], ⟨v, by omega, by omega, haall, by simp⟩, Or.inr rfl⟩
    · exact ⟨'-' :: b, ⟨a, by omega, by omega, haall, rfl⟩,
        Or.inl ⟨b, ⟨'-', by simp, rfl⟩, b, by omega, by omega, hball, by simp⟩⟩

theorem nonzero_digit_iff (c : Char) :
    (decide (0x31 ≤ c.toNat) && decide (c.toNat ≤ 0x39)) = true ↔
      isDigit c = true ∧ c ≠ '0' := by
  have hzero : c = '0' ↔ c.toNat = 0x30 := by
    constructor
    · rintro rfl
      rfl
    · intro h
      have h2 : Char.ofNat c.toNat = c := Char.ofNat_toNat c
      rw [h] at h2
      exact h2.symm
  rw [Ne, hzero]
  simp only [isDigit, Bool.and_eq_true, decide_eq_true_eq]
  omega

theorem phonePattern_test_iff (v : List Char) :
    phonePattern.test v = true ↔ phoneShape v := by
  rw [test_iff, phonePattern]
  simp only [mem_run_seq, mem_run_opt, mem_run_cls,
    mem_run_rep_cls _ 0 15 (by decide), nonzero_digit_iff]
  constructor
  · rintro ⟨u, hu, u2, ⟨c, ⟨hcd, hc0⟩, rfl⟩, pre, -, hhi, hall, rfl⟩
    have hshape : 1 ≤ (c :: (pre ++ [])).length ∧ (c :: (pre ++ [])).length ≤ 16 ∧
        (∀ x ∈ c :: (pre ++ []), isDigit x = true) ∧
        (c :: (pre ++ [])).head? ≠ some '0' := by
      refine ⟨by simp, by simp; omega, ?_, by simpa using hc0⟩
      intro x hx
      simp only [List.append_nil, List.mem_cons] at hx
      rcases hx with rfl | hx
      · exact hcd
      · exact hall x hx
    rcases hu with ⟨p, hp, rfl⟩ | rfl
    · have hplus : p = '+' := by simpa using hp
      subst hplus
      exact ⟨_, Or.inr rfl, hshape⟩
    · exact ⟨_, Or.inl rfl, hshape⟩
  · rintro ⟨d, hv, hlo, hhi, hall, hhead⟩
    cases d with
    | nil => simp at hlo
    | cons c pre =>
      have hc : isDigit c = true ∧ c ≠ '0' :=
        ⟨hall c (by simp), by simpa using hhead⟩
      have hpre : ∀ x ∈ pre, isDigit x = true :=
        fun x hx => hall x (List.mem_cons_of_mem _ hx)
      have hlen : pre.length ≤ 15 := by simp at hhi; omega
      refine ⟨c :: pre, ?_, pre, ⟨c, hc, rfl⟩, pre, by omega, hlen, hpre, by simp⟩
      rcases hv with rfl | rfl
      · exact Or.inr rfl
      · exact Or.inl ⟨'+', by simp, rfl⟩

theorem accepted_iff_shape (id : String) (rules : Rule) (pattern : Pattern)
    (shape : List Char → Prop)
    (hrules : validationRules id = some rules) (hreq : rules.required = true)
    (hp : rules.pattern = some pattern)
    (hshape : ∀ v, pattern.test v = true ↔ shape v) (hne : ¬ shape [])
    (input errorElement : Element) :
    accepted id input errorElement ↔ shape (trim input.value.toList) := by
  rw [accepted_iff id rules pattern hrules hreq hp input errorElement, hshape]
  constructor
  · exact fun h => h.2
  · intro h
    refine ⟨?_, h⟩
    intro hnil
    rw [hnil] at h
    exact hne h

/-- C9, the claim as worded, fails: the full name `a`, tab, `b` is its own
trimmed value, it is not made of letters and spaces only (the tab is
neither), and `validateField` accepts it, since the class `\s` of the pattern
matches every whitespace character; likewise for the address `12`, tab,
`Main`. -/
theorem validateField_name_tab_counterexample :
    trim "a\tb".toList = "a\tb".toList ∧
    "a\tb".toList ≠ [] ∧
    ¬ statedNameShape (trim "a\tb".toList) ∧
    accepted "full-name" ⟨"a\tb", "", false⟩ ⟨"", "", false⟩ ∧
    ¬ statedAddressShape (trim "12\tMain".toList) ∧
    accepted "address" ⟨"12\tMain", "", false⟩ ⟨"", "", false⟩ := by
  refine ⟨by decide, by decide, ?_, ?_, ?_, ?_⟩
  · rintro ⟨-, -, hall⟩
    have h := hall '\t' (by decide)
    rcases h with h | h
    · exact absurd h (by decide)
    · exact absurd h (by decide)
  · exact ⟨⟨true, ⟨"a\tb", "", false⟩, ⟨"", "", false⟩⟩, by decide, rfl⟩
  · rintro ⟨-, -, hall⟩
    have h := hall '\t' (by decide)
    rcases h with h | h | h | h | h | h <;> exact absurd h (by decide)
  · exact ⟨⟨true, ⟨"12\tMain", "", false⟩, ⟨"", "", false⟩⟩, by decide, rfl⟩

/-- C9 (amended): `validateField` accepts a value exactly when its trimmed form
meets the constraint of its field: zip iff it is exactly 5 decimal digits,
optionally followed by `-` and exactly 4 decimal digits (`12345` and
`12345-6789` pass, `1234` fails); phone iff it is an optional leading `+`
followed by 1 to 16 decimal digits whose first digit is not 0; full-name and
city iff it is 2 to 50 characters, each a letter (A-Z, a-z) or a whitespace
character; address iff it is 5 to 100 characters, each a letter, a digit, a
whitespace character, `,`, `.` or `-`. -/
theorem validateField_patterns_iff_shape :
    (∀ input errorElement : Element,
      accepted "zip" input errorElement ↔ zipShape (trim input.value.toList)) ∧
    (∀ input errorElement : Element,
      accepted "phone" input errorElement ↔ phoneShape (trim input.value.toList)) ∧
    (∀ input errorElement : Element,
      accepted "full-name" input errorElement ↔ nameShape (trim input.value.toList)) ∧
    (∀ input errorElement : Element,
      accepted "city" input errorElement ↔ nameShape (trim input.value.toList)) ∧
    (∀ input errorElement : Element,
      accepted "address" input errorElement ↔
        addressShape (trim input.value.toList)) ∧
    (∀ input errorElement : Element, input.value = "12345" →
      accepted "zip" input errorElement) ∧
    (∀ input errorElement : Element, input.value = "12345-6789" →
      accepted "zip" input errorElement) ∧
    (∀ input errorElement : Element, input.value = "1234" →
      ¬ accepted "zip" input errorElement) := by
  have hzip : ∀ input errorElement : Element,
      accepted "zip" input errorElement ↔ zipShape (trim input.value.toList) :=
    accepted_iff_shape "zip" ⟨true, some zipPattern, "Please enter a valid ZIP code"⟩
      zipPattern zipShape rfl rfl rfl zipPattern_test_iff (by
        rintro ⟨a, hlen, -, (h | ⟨b, -, -, h⟩)⟩
        · subst h; simp at hlen
        · simp at h)
  refine ⟨hzip, ?_, ?_, ?_, ?_, ?_, ?_, ?_⟩
  · exact accepted_iff_shape "phone" ⟨true, some phonePattern, "Please enter a valid phone number"⟩
      phonePattern phoneShape rfl rfl rfl phonePattern_test_iff (by
        rintro ⟨d, (h | h), hlo, -⟩
        · subst h; simp at hlo
        · simp at h)
  · exact accepted_iff_shape "full-name"
      ⟨true, some namePattern, "Please enter a valid full name (2-50 characters)"⟩
      namePattern nameShape rfl rfl rfl namePattern_test_iff (by
        rintro ⟨hlo, -⟩
        simp at hlo)
  · exact accepted_iff_shape "city" ⟨true, some namePattern, "Please enter a valid city name"⟩
      namePattern nameShape rfl rfl rfl namePattern_test_iff (by
        rintro ⟨hlo, -⟩
        simp at hlo)
  · exact accepted_iff_shape "address" ⟨true, some addressPattern, "Please enter a valid address"⟩
      addressPattern addressShape rfl rfl rfl addressPattern_test_iff (by
        rintro ⟨hlo, -⟩
        simp at hlo)
  · intro input errorElement hval
    rw [hzip, hval, ← zipPattern_test_iff]
    decide
  · intro input errorElement hval
    rw [hzip, hval, ← zipPattern_test_iff]
    decide
  · intro input errorElement hval
    rw [hzip, hval, ← zipPattern_test_iff]
    decide

/-- Witness for C9: the phone value `+14155550123`, the name `Ada Lovelace`
and the address `12 Main St., Apt 4-B` are accepted, and the phone value
`0123` is not. -/
theorem validateField_patterns_iff_shape_witness :
    phoneShape (trim "+14155550123".toList) ∧
    nameShape (trim " Ada Lovelace ".toList) ∧
    addressShape (trim "12 Main St., Apt 4-B".toList) ∧
    ¬ phoneShape (trim "0123".toList) := by
  obtain ⟨-, hphone, hname, -, haddress, -, -, -⟩ := validateField_patterns_iff_shape
  refine ⟨?_, ?_, ?_, ?_⟩
  · exact (hphone ⟨"+14155550123", "", false⟩ ⟨"", "", false⟩).1
      ⟨⟨true, ⟨"+14155550123", "", false⟩, ⟨"", "", false⟩⟩, by decide, rfl⟩
  · exact (hname ⟨" Ada Lovelace ", "", false⟩ ⟨"", "", false⟩).1
      ⟨⟨true, ⟨" Ada Lovelace ", "", false⟩, ⟨"", "", false⟩⟩, by decide, rfl⟩
  · exact (haddress ⟨"12 Main St., Apt 4-B", "", false⟩ ⟨"", "", false⟩).1
      ⟨⟨true, ⟨"12 Main St., Apt 4-B", "", false⟩, ⟨"", "", false⟩⟩, by decide, rfl⟩
  · intro hshape
    obtain ⟨r, hr, hvalid⟩ := (hphone ⟨"0123", "", false⟩ ⟨"", "", false⟩).2 hshape
    have hfalse : validateField "phone" ⟨"0123", "", false⟩ ⟨"", "", false⟩ =
        some ⟨false, ⟨"0123", "", true⟩, ⟨"", "Please enter a valid phone number", false⟩⟩ := by
      decide
    rw [hfalse] at hr
    cases hr
    cases hvalid

/-! ## Form validation -/

theorem validateField_some (id : String) (hid : id ∈ ruleKeys)
    (input errorElement : Element) :
    ∃ r : FieldResult, validateField id input errorElement = some r := by
  obtain ⟨rules, hrules, hreq⟩ := validationRules_of_mem id hid
  rw [validateField_eq id rules hrules hreq input errorElement]
  split_ifs
  · exact ⟨_, rfl⟩
  · exact ⟨_, rfl⟩
  · exact ⟨_, rfl⟩

theorem ruleKeys_error_names :
    ∀ k ∈ ruleKeys, ∀ k2 ∈ ruleKeys,
      k ≠ k2 ++ "-error" ∧ (k ++ "-error" = k2 ++ "-error" → k = k2) := by
  decide

theorem validateFormStep_cases (b : Bool) (d : Document) (k : String)
    (hk : k ∈ ruleKeys) :
    (∃ i e r, d k = some i ∧ d (k ++ "-error") = some e ∧
      validateField k i e = some r ∧
      validateFormStep (b, d) k = some (b && r.valid,
        Function.update (Function.update d k (some r.input))
          (k ++ "-error") (some r.errorElement))) ∨
    ((d k = none ∨ d (k ++ "-error") = none) ∧
      validateFormStep (b, d) k = some (b, d)) := by
  cases hi : d k with
  | none =>
    right
    refine ⟨Or.inl rfl, ?_⟩
    simp only [validateFormStep, hi]
  | some i =>
    cases he : d (k ++ "-error") with
    | none =>
      right
      refine ⟨Or.inr rfl, ?_⟩
      simp only [validateFormStep, hi, he]
    | some e =>
      left
      obtain ⟨r, hr⟩ := validateField_some k hk i e
      refine ⟨i, e, r, rfl, rfl, hr, ?_⟩
      simp only [validateFormStep, hi, he, hr]

theorem foldlM_validateFormStep (ks : List String) :
    ∀ (b : Bool) (d : Document), (∀ k ∈ ks, k ∈ ruleKeys) → ks.Nodup →
      ∃ (b2 : Bool) (d2 : Document),
        ks.foldlM validateFormStep (b, d) = some (b2, d2) ∧
        (b2 = true ↔ b = true ∧ ∀ k ∈ ks, ∀ i e, d k = some i →
          d (k ++ "-error") = some e → accepted k i e) ∧
        (∀ k ∈ ks, ∀ i e r, d k = some i → d (k ++ "-error") = some e →
          validateField k i e = some r →
          d2 k = some r.input ∧ d2 (k ++ "-error") = some r.errorElement) ∧
        (∀ k ∈ ks, (d k = none ∨ d (k ++ "-error") = none) →
          d2 k = d k ∧ d2 (k ++ "-error") = d (k ++ "-error")) ∧
        (∀ x, (∀ k ∈ ks, x ≠ k ∧ x ≠ k ++ "-error") → d2 x = d x) := by
  induction ks with
  | nil =>
    intro b d _ _
    exact ⟨b, d, rfl, by simp, by simp, by simp, fun _ _ => rfl⟩
  | cons k rest ih =>
    intro b d hsub hnd
    have hk : k ∈ ruleKeys := hsub k (by simp)
    have hrest : ∀ k2 ∈ rest, k2 ∈ ruleKeys :=
      fun k2 h2 => hsub k2 (List.mem_cons_of_mem _ h2)
    have hnotin : k ∉ rest := (List.nodup_cons.1 hnd).1
    have hnd2 : rest.Nodup := (List.nodup_cons.1 hnd).2
    -- how the keys of `rest` relate to the two names touched by this round
    have hsep : ∀ k2 ∈ rest, k2 ≠ k ∧ k2 ≠ k ++ "-error" ∧
        k2 ++ "-error" ≠ k ∧ k2 ++ "-error" ≠ k ++ "-error" := by
      intro k2 h2
      have hne : k2 ≠ k := fun h => hnotin (h ▸ h2)
      have h21 := ruleKeys_error_names k2 (hrest k2 h2) k hk
      have h12 := ruleKeys_error_names k hk k2 (hrest k2 h2)
      exact ⟨hne, h21.1, fun h => h12.1 h.symm, fun h => hne (h21.2 h)⟩
    have hkerr : k ≠ k ++ "-error" := (ruleKeys_error_names k hk k hk).1
    have hself : ∀ k2 ∈ rest, k ≠ k2 ∧ k ≠ k2 ++ "-error" :=
      fun k2 h2 => ⟨fun h => (hsep k2 h2).1 h.symm, fun h => (hsep k2 h2).2.2.1 h.symm⟩
    have hselfErr : ∀ k2 ∈ rest, k ++ "-error" ≠ k2 ∧ k ++ "-error" ≠ k2 ++ "-error" :=
      fun k2 h2 => ⟨fun h => (hsep k2 h2).2.1 h.symm, fun h => (hsep k2 h2).2.2.2 h.symm⟩
    rcases validateFormStep_cases b d k hk with
      ⟨i, e, r, hi, he, hr, hstep⟩ | ⟨habsent, hstep⟩
    · -- the field is validated
      obtain ⟨b2, d2, hfold, hvalid, hset, hskip, hframe⟩ :=
        ih (b && r.valid)
          (Function.update (Function.update d k (some r.input))
            (k ++ "-error") (some r.errorElement)) hrest hnd2
      have hd1 : ∀ k2 ∈ rest,
          Function.update (Function.update d k (some r.input))
            (k ++ "-error") (some r.errorElement) k2 = d k2 ∧
          Function.update (Function.update d k (some r.input))
            (k ++ "-error") (some r.errorElement) (k2 ++ "-error") =
              d (k2 ++ "-error") := by
        intro k2 h2
        obtain ⟨s1, s2, s3, s4⟩ := hsep k2 h2
        constructor
        · rw [Function.update_noteq s2, Function.update_noteq s1]
        · rw [Function.update_noteq s4, Function.update_noteq s3]
      refine ⟨b2, d2, ?_, ?_, ?_, ?_, ?_⟩
      · simp only [List.foldlM_cons, hstep, Option.bind_eq_bind, Option.some_bind]
        exact hfold
      · rw [hvalid]
        constructor
        · rintro ⟨hb, hall⟩
          have hb1 : b = true ∧ r.valid = true := by simpa using hb
          refine ⟨hb1.1, ?_⟩
          intro k2 h2 i2 e2 hi2 he2
          rcases List.mem_cons.1 h2 with rfl | h2
          · rw [hi] at hi2
            rw [he] at he2
            cases hi2
            cases he2
            exact ⟨r, hr, hb1.2⟩
          · exact hall k2 h2 i2 e2 (by rw [(hd1 k2 h2).1]; exact hi2)
              (by rw [(hd1 k2 h2).2]; exact he2)
        · rintro ⟨hb, hall⟩
          obtain ⟨r2, hr2, hv2⟩ := hall k (by simp) i e hi he
          rw [hr] at hr2
          cases hr2
          refine ⟨by simp [hb, hv2], ?_⟩
          intro k2 h2 i2 e2 hi2 he2
          exact hall k2 (List.mem_cons_of_mem _ h2) i2 e2
            (by rw [← (hd1 k2 h2).1]; exact hi2) (by rw [← (hd1 k2 h2).2]; exact he2)
      · intro k2 h2 i2 e2 r2 hi2 he2 hr2
        rcases List.mem_cons.1 h2 with rfl | h2
        · rw [hi] at hi2
          rw [he] at he2
          cases hi2
          cases he2
          rw [hr] at hr2
          cases hr2
          constructor
          · rw [hframe k2 hself, Function.update_noteq hkerr, Function.update_same]
          · rw [hframe (k2 ++ "-error") hselfErr, Function.update_same]
        · exact hset k2 h2 i2 e2 r2 (by rw [(hd1 k2 h2).1]; exact hi2)
            (by rw [(hd1 k2 h2).2]; exact he2) hr2
      · intro k2 h2 hnone
        rcases List.mem_cons.1 h2 with rfl | h2
        · rcases hnone with hnone | hnone
          · rw [hi] at hnone; cases hnone
          · rw [he] at hnone; cases hnone
        · have := hskip k2 h2 (by rw [(hd1 k2 h2).1, (hd1 k2 h2).2]; exact hnone)
          rw [(hd1 k2 h2).1, (hd1 k2 h2).2] at this
          exact this
      · intro x hx
        have hxk := hx k (by simp)
        rw [hframe x (fun k2 h2 => hx k2 (List.mem_cons_of_mem _ h2)),
          Function.update_noteq hxk.2, Function.update_noteq hxk.1]
    · -- the field is skipped
      obtain ⟨b2, d2, hfold, hvalid, hset, hskip, hframe⟩ := ih b d hrest hnd2
      refine ⟨b2, d2, ?_, ?_, ?_, ?_, ?_⟩
      · simp only [List.foldlM_cons, hstep, Option.bind_eq_bind, Option.some_bind]
        exact hfold
      · rw [hvalid]
        constructor
        · rintro ⟨hb, hall⟩
          refine ⟨hb, ?_⟩
          intro k2 h2 i2 e2 hi2 he2
          rcases List.mem_cons.1 h2 with rfl | h2
          · rcases habsent with hnone | hnone
            · rw [hnone] at hi2; cases hi2
            · rw [hnone] at he2; cases he2
          · exact hall k2 h2 i2 e2 hi2 he2
        · rintro ⟨hb, hall⟩
          exact ⟨hb, fun k2 h2 => hall k2 (List.mem_cons_of_mem _ h2)⟩
      · intro k2 h2 i2 e2 r2 hi2 he2 hr2
        rcases List.mem_cons.1 h2 with rfl | h2
        · rcases habsent with hnone | hnone
          · rw [hnone] at hi2; cases hi2
          · rw [hnone] at he2; cases he2
        · exact hset k2 h2 i2 e2 r2 hi2 he2 hr2
      · intro k2 h2 hnone
        rcases List.mem_cons.1 h2 with rfl | h2
        · exact ⟨hframe k2 hself, hframe (k2 ++ "-error") hselfErr⟩
        · exact hskip k2 h2 hnone
      · intro x hx
        exact hframe x (fun k2 h2 => hx k2 (List.mem_cons_of_mem _ h2))

theorem validateField_failure_text (id : String) (hid : id ∈ ruleKeys)
    (input errorElement : Element) (r : FieldResult)
    (hr : validateField id input errorElement = some r) (hvalid : r.valid = false) :
    r.errorElement.textContent ≠ "" := by
  have hall : ∀ k ∈ ruleKeys,
      (validationRules k).map (fun rules => decide (rules.message ≠ "")) = some true := by
    decide
  have hmsg : ∀ rules, validationRules id = some rules → rules.message ≠ "" := by
    intro rules hrules
    have h := hall id hid
    rw [hrules] at h
    simpa using h
  obtain ⟨rules, hrules, hreq⟩ := validationRules_of_mem id hid
  rw [validateField_eq id rules hrules hreq input errorElement] at hr
  split_ifs at hr
  · cases hr
    show "This field is required" ≠ ""
    decide
  · cases hr
    exact hmsg rules hrules
  · cases hr
    cases hvalid

/-- C10, the claim as worded, fails: on a page that has the seven inputs but
no element `zip-error`, with the ZIP value `bad`, `validateForm` returns true
although the ZIP value does not pass `validateField`, whatever error element
it is given: the key is skipped. -/
theorem validateForm_missing_element_counterexample :
    (validateForm (samplePageWithoutZipError "ada@example.com" "bad")).map
      (fun result => result.1) = some true ∧
    samplePageWithoutZipError "ada@example.com" "bad" "zip" = some (inputWith "bad") ∧
    samplePageWithoutZipError "ada@example.com" "bad" "zip-error" = none ∧
    ∀ errorElement : Element, ¬ accepted "zip" (inputWith "bad") errorElement := by
  refine ⟨by decide, by decide, by decide, ?_⟩
  intro errorElement hacc
  rw [accepted_iff "zip" ⟨true, some zipPattern, "Please enter a valid ZIP code"⟩
    zipPattern rfl rfl rfl] at hacc
  exact absurd hacc.2 (by decide)

/-- C10 (amended): `validateForm` always returns, and it returns true if and
only if `validateField` passes for every one of the seven rule keys whose
input element and error element both exist in the page; a key lacking either
element is skipped and its elements are left as they are. It does not stop at
the first failure: after the call every such key whose value fails
`validateField` has its error message set (a non-empty text, the one
`validateField` writes). -/
theorem validateForm_contract (doc : Document) :
    ∃ (isValid : Bool) (doc2 : Document),
      validateForm doc = some (isValid, doc2) ∧
      (isValid = true ↔ ∀ k ∈ ruleKeys, ∀ input errorElement,
        doc k = some input → doc (k ++ "-error") = some errorElement →
        accepted k input errorElement) ∧
      (∀ k ∈ ruleKeys, ∀ input errorElement,
        doc k = some input → doc (k ++ "-error") = some errorElement →
        ¬ accepted k input errorElement →
        ∃ r : FieldResult, validateField k input errorElement = some r ∧
          r.valid = false ∧ doc2 (k ++ "-error") = some r.errorElement ∧
          r.errorElement.textContent ≠ "") ∧
      (∀ k ∈ ruleKeys, (doc k = none ∨ doc (k ++ "-error") = none) →
        doc2 k = doc k ∧ doc2 (k ++ "-error") = doc (k ++ "-error")) := by
  obtain ⟨b2, d2, hfold, hvalid, hset, hskip, -⟩ :=
    foldlM_validateFormStep ruleKeys true doc (fun _ h => h) (by decide)
  refine ⟨b2, d2, hfold, ?_, ?_, hskip⟩
  · rw [hvalid]
    exact ⟨fun h => h.2, fun h => ⟨rfl, h⟩⟩
  · intro k hk input errorElement hi he hnot
    obtain ⟨r, hr⟩ := validateField_some k hk input errorElement
    have hfalse : r.valid = false := by
      cases hv : r.valid with
      | false => rfl
      | true => exact absurd ⟨r, hr, hv⟩ hnot
    exact ⟨r, hr, hfalse, (hset k hk input errorElement r hi he hr).2,
      validateField_failure_text k hk input errorElement r hr hfalse⟩

/-- Witness for C10: on the full page with the email `ada@example` and the ZIP
value `bad`, `validateForm` returns false and both fields, the second and the
last of the table, have their message set. -/
theorem validateForm_contract_witness :
    ∃ doc2 : Document,
      validateForm (samplePage "ada@example" "bad") = some (false, doc2) ∧
      doc2 "email-error" = some (errorWith "Please enter a valid email address") ∧
      doc2 "zip-error" = some (errorWith "Please enter a valid ZIP code") := by
  obtain ⟨isValid, doc2, hform, hiff, hfail, -⟩ :=
    validateForm_contract (samplePage "ada@example" "bad")
  have hemail : ¬ accepted "email" (inputWith "ada@example") (errorWith "") := by
    rw [accepted_iff "email" ⟨true, some emailPattern, "Please enter a valid email address"⟩
      emailPattern rfl rfl rfl]
    intro h
    exact absurd h.2 (by decide)
  have hzip : ¬ accepted "zip" (inputWith "bad") (errorWith "") := by
    rw [accepted_iff "zip" ⟨true, some zipPattern, "Please enter a valid ZIP code"⟩
      zipPattern rfl rfl rfl]
    intro h
    exact absurd h.2 (by decide)
  have hvalid : isValid = false := by
    cases hv : isValid with
    | false => rfl
    | true =>
      exact absurd ((hiff.1 hv) "email" (by decide) (inputWith "ada@example")
        (errorWith "") (by decide) (by decide)) hemail
  subst hvalid
  refine ⟨doc2, hform, ?_, ?_⟩
  · obtain ⟨r, hr, -, hdoc, -⟩ := hfail "email" (by decide) (inputWith "ada@example")
      (errorWith "") (by decide) (by decide) hemail
    have hres : validateField "email" (inputWith "ada@example") (errorWith "") =
        some ⟨false, ⟨"ada@example", "", true⟩,
          errorWith "Please enter a valid email address"⟩ := by decide
    rw [hres] at hr
    cases hr
    exact hdoc
  · obtain ⟨r, hr, -, hdoc, -⟩ := hfail "zip" (by decide) (inputWith "bad")
      (errorWith "") (by decide) (by decide) hzip
    have hres : validateField "zip" (inputWith "bad") (errorWith "") =
        some ⟨false, ⟨"bad", "", true⟩, errorWith "Please enter a valid ZIP code"⟩ := by
      decide
    rw [hres] at hr
    cases hr
    exact hdoc

/-! ## The order id -/

theorem toDigitsCore_eq_append (n : Nat) :
    ∀ (fuel : Nat) (ds : List Char), n < fuel →
      Nat.toDigitsCore 10 fuel n ds = Nat.toDigits 10 n ++ ds := by
  induction n using Nat.strong_induction_on with
  | _ n ih =>
    intro fuel ds hfuel
    cases fuel with
    | zero => omega
    | succ f =>
      by_cases h0 : n / 10 = 0
      · simp [Nat.toDigits, Nat.toDigitsCore, h0]
      · have hlt : n / 10 < n := by omega
        have h1 := ih (n / 10) hlt f (Nat.digitChar (n % 10) :: ds) (by omega)
        have h2 := ih (n / 10) hlt n [Nat.digitChar (n % 10)] hlt
        simp only [Nat.toDigits, Nat.toDigitsCore, h0, if_false] at h1 h2 ⊢
        rw [h1, h2]
        simp

theorem toDigits_of_lt_ten (n : Nat) (h : n < 10) :
    Nat.toDigits 10 n = [Nat.digitChar n] := by
  have h0 : n / 10 = 0 := by omega
  have hmod : n % 10 = n := by omega
  simp [Nat.toDigits, Nat.toDigitsCore, h0, hmod]

theorem toDigits_of_ten_le (n : Nat) (h : 10 ≤ n) :
    Nat.toDigits 10 n = Nat.toDigits 10 (n / 10) ++ [Nat.digitChar (n % 10)] := by
  have h0 : ¬ n / 10 = 0 := by omega
  have hlt : n / 10 < n := by omega
  have h2 := toDigitsCore_eq_append (n / 10) n [Nat.digitChar (n % 10)] hlt
  conv_lhs => simp only [Nat.toDigits, Nat.toDigitsCore, h0, if_false]
  exact h2

theorem length_lastDigits (k n : Nat) : (lastDigits k n).length = k := by
  induction k generalizing n with
  | zero => rfl
  | succ k ih => simp [lastDigits, ih]

theorem toDigits_ends_with_lastDigits (k : Nat) :
    ∀ n : Nat, 10 ^ k ≤ n →
      ∃ pre : List Char, Nat.toDigits 10 n = pre ++ lastDigits (k + 1) n := by
  induction k with
  | zero =>
    intro n _
    by_cases h : n < 10
    · refine ⟨[], ?_⟩
      have hmod : n % 10 = n := by omega
      simp [toDigits_of_lt_ten n h, lastDigits, hmod]
    · refine ⟨Nat.toDigits 10 (n / 10), ?_⟩
      simp [toDigits_of_ten_le n (by omega), lastDigits]
  | succ k ih =>
    intro n hn
    have hpow : 10 ^ (k + 1) = 10 * 10 ^ k := by ring
    have hpos : 0 < 10 ^ k := Nat.pow_pos (by decide)
    have h10 : 10 ≤ n := by omega
    have hdiv : 10 ^ k ≤ n / 10 := by
      rw [Nat.le_div_iff_mul_le (by decide)]
      omega
    obtain ⟨pre, hpre⟩ := ih (n / 10) hdiv
    refine ⟨pre, ?_⟩
    rw [toDigits_of_ten_le n h10, hpre]
    conv_rhs => rw [lastDigits]
    simp

theorem sliceLast_toDigits (k n : Nat) (hn : 10 ^ k ≤ n) :
    sliceLast (k + 1) (Nat.toDigits 10 n) = lastDigits (k + 1) n := by
  obtain ⟨pre, hpre⟩ := toDigits_ends_with_lastDigits k n hn
  rw [hpre, sliceLast]
  have hlen : (pre ++ lastDigits (k + 1) n).length - (k + 1) = pre.length := by
    simp [length_lastDigits]
  rw [hlen, List.drop_left]

theorem lastDigits_zero (k : Nat) : lastDigits k 0 = List.replicate k '0' := by
  induction k with
  | zero => rfl
  | succ k ih =>
    have h : Nat.digitChar 0 = '0' := rfl
    simp only [lastDigits, Nat.zero_div, Nat.zero_mod, ih, h]
    exact (List.replicate_succ' k '0').symm

theorem length_toDigits_le (k : Nat) :
    ∀ n : Nat, n < 10 ^ (k + 1) → (Nat.toDigits 10 n).length ≤ k + 1 := by
  induction k with
  | zero =>
    intro n hn
    rw [toDigits_of_lt_ten n (by simpa using hn)]
    simp
  | succ k ih =>
    intro n hn
    by_cases h : n < 10
    · rw [toDigits_of_lt_ten n h]
      simp
    · have hpow : 10 ^ (k + 1 + 1) = 10 * 10 ^ (k + 1) := by ring
      have hdiv : n / 10 < 10 ^ (k + 1) := by
        rw [Nat.div_lt_iff_lt_mul (by decide)]
        omega
      rw [toDigits_of_ten_le n (by omega)]
      have := ih (n / 10) hdiv
      simp
      omega

theorem zeroPad_toDigits (k : Nat) :
    ∀ n : Nat, n < 10 ^ (k + 1) →
      zeroPad (k + 1) (Nat.toDigits 10 n) = lastDigits (k + 1) n := by
  induction k with
  | zero =>
    intro n hn
    have h : n < 10 := by simpa using hn
    have hmod : n % 10 = n := by omega
    simp [toDigits_of_lt_ten n h, zeroPad, lastDigits, hmod]
  | succ k ih =>
    intro n hn
    by_cases h : n < 10
    · have hmod : n % 10 = n := by omega
      have hdiv : n / 10 = 0 := by omega
      rw [toDigits_of_lt_ten n h]
      conv_rhs => rw [lastDigits, hdiv, hmod, lastDigits_zero]
      simp [zeroPad]
    · have hpow : 10 ^ (k + 1 + 1) = 10 * 10 ^ (k + 1) := by ring
      have hdiv : n / 10 < 10 ^ (k + 1) := by
        rw [Nat.div_lt_iff_lt_mul (by decide)]
        omega
      have hlen := length_toDigits_le k (n / 10) hdiv
      have hrec := ih (n / 10) hdiv
      rw [toDigits_of_ten_le n (by omega)]
      conv_rhs => rw [lastDigits, ← hrec]
      simp only [zeroPad, List.length_append, List.length_singleton, List.append_assoc]
      have hsub : k + 1 + 1 - ((Nat.toDigits 10 (n / 10)).length + 1) =
          k + 1 - (Nat.toDigits 10 (n / 10)).length := by omega
      rw [hsub]

theorem lastDigits_mod (k : Nat) :
    ∀ n : Nat, lastDigits k (n % 10 ^ k) = lastDigits k n := by
  induction k with
  | zero => intro n; rfl
  | succ k ih =>
    intro n
    have hpow : 10 ^ (k + 1) = 10 * 10 ^ k := by ring
    have h1 : n % 10 ^ (k + 1) / 10 = n / 10 % 10 ^ k := by
      rw [hpow, Nat.mod_mul_right_div_self]
    have h2 : n % 10 ^ (k + 1) % 10 = n % 10 := by
      rw [hpow]
      exact Nat.mod_mul_right_mod n 10 (10 ^ k)
    simp only [lastDigits, h1, h2, ih]

/-! ## Order assembly -/

theorem prepareOrderData_ok (env : CheckoutEnv) (page : CheckoutPage) (m : CartManager)
    (order : Order) (h : prepareOrderData env page m = .ok order) :
    ∃ (formData : FormData) (paymentMethod : String),
      getFormData env page.doc = .ok formData ∧
      getSelectedPaymentMethod env page = .ok paymentMethod ∧
      order =
        { orderId := makeOrderId env.nowMillis
          customer := { fullName := formData.fullName, email := formData.email,
                        phone := formData.phone }
          shipping := { address := formData.address, city := formData.city,
                        state := formData.state, zipCode := formData.zip }
          items := m.cart.items.map (fun item =>
            { productId := item.id, name := item.name, price := item.price,
              quantity := item.quantity, size := item.size, color := item.color })
          subtotal := getTotal m
          shippingCost := calculateShipping (getTotal m)
          tax := calculateTax (getTotal m)
          total := calculateTotal (getTotal m)
          paymentMethod := paymentMethod
          orderDate := env.now
          status := "processing" } := by
  unfold prepareOrderData at h
  cases hf : getFormData env page.doc with
  | error e => simp [hf, bind, Except.bind] at h
  | ok formData =>
    cases hp : getSelectedPaymentMethod env page with
    | error e => simp [hf, hp, bind, Except.bind] at h
    | ok paymentMethod =>
      simp only [hf, hp, bind, Except.bind, pure, Except.pure, Except.ok.injEq] at h
      exact ⟨formData, paymentMethod, rfl, rfl, h.symm⟩

theorem getFormData_ok_of_present (env : CheckoutEnv) (doc : Document)
    (hpresent : ∀ k ∈ ruleKeys, (doc k).isSome = true) :
    ∃ formData : FormData, getFormData env doc = .ok formData := by
  have h := fun k hk => Option.isSome_iff_exists.1 (hpresent k hk)
  obtain ⟨e1, h1⟩ := h "full-name" (by decide)
  obtain ⟨e2, h2⟩ := h "email" (by decide)
  obtain ⟨e3, h3⟩ := h "phone" (by decide)
  obtain ⟨e4, h4⟩ := h "address" (by decide)
  obtain ⟨e5, h5⟩ := h "city" (by decide)
  obtain ⟨e6, h6⟩ := h "state" (by decide)
  obtain ⟨e7, h7⟩ := h "zip" (by decide)
  unfold getFormData
  simp only [trimmedValueOf, valueOf, h1, h2, h3, h4, h5, h6, h7, bind,
    Except.bind, pure, Except.pure]
  exact ⟨_, rfl⟩

theorem prepareOrderData_builds (env : CheckoutEnv) (page : CheckoutPage)
    (m : CartManager) (hpresent : ∀ k ∈ ruleKeys, (page.doc k).isSome = true)
    (hpay : page.activePayment ≠ some none) :
    ∃ order : Order, prepareOrderData env page m = .ok order := by
  obtain ⟨formData, hf⟩ := getFormData_ok_of_present env page.doc hpresent
  have hp : ∃ paymentMethod, getSelectedPaymentMethod env page = .ok paymentMethod := by
    unfold getSelectedPaymentMethod
    cases hact : page.activePayment with
    | none => exact ⟨_, rfl⟩
    | some label =>
      cases label with
      | none => exact absurd hact hpay
      | some text => exact ⟨_, rfl⟩
  obtain ⟨paymentMethod, hp⟩ := hp
  unfold prepareOrderData
  simp only [hf, hp, bind, Except.bind, pure, Except.pure]
  exact ⟨_, rfl⟩

/-- C13, the claim as worded, fails: for the cart of three items at 5.05 and
three at 44.95 the order's subtotal is 150.00000000000003, not the sum of
price times quantity over its line items (that sum is 150 to the nearest
double), so its shipping cost is 0 where the shipping cost of the sum is 15.
And for the cart of one item each at 0.1, 0.2 and 0.3 the subtotal is
0.6000000000000001, while the same products added in doubles from the last
line item to the first give 0.6: in doubles the sum depends on the order of
the additions. -/
theorem prepareOrderData_rounded_subtotal_counterexample :
    (∃ order : Order,
      prepareOrderData sampleCheckoutEnv validPage roundingCart = .ok order ∧
      order.subtotal = JsNumber.ofRat 150.00000000000003 ∧
      JsNumber.ofRat (exactSubtotal order.items) = .finite 150 ∧
      order.subtotal ≠ JsNumber.ofRat (exactSubtotal order.items) ∧
      order.shippingCost = .finite 0 ∧
      calculateShipping (JsNumber.ofRat (exactSubtotal order.items)) = .finite 15 ∧
      order.tax = JsNumber.ofRat 12.000000000000002 ∧
      order.total = JsNumber.ofRat 162.00000000000003) ∧
    (∃ order : Order,
      prepareOrderData sampleCheckoutEnv validPage orderCart = .ok order ∧
      order.subtotal = JsNumber.ofRat 0.6000000000000001 ∧
      sumFromLast order.items = JsNumber.ofRat 0.6 ∧
      order.subtotal ≠ sumFromLast order.items) := by
  constructor
  · obtain ⟨order, horder⟩ := prepareOrderData_builds sampleCheckoutEnv validPage
      roundingCart (by decide) (by decide)
    refine ⟨order, horder, ?_⟩
    obtain ⟨formData, paymentMethod, -, -, rfl⟩ :=
      prepareOrderData_ok sampleCheckoutEnv validPage roundingCart order horder
    have hsub : getTotal roundingCart = JsNumber.ofRat 150.00000000000003 := by decide!
    have hexact : JsNumber.ofRat (exactSubtotal (roundingCart.cart.items.map (fun item =>
        (⟨item.id, item.name, item.price, item.quantity, item.size, item.color⟩ :
          OrderItem)))) = .finite 150 := by decide!
    refine ⟨hsub, hexact, ?_, ?_, ?_, ?_, ?_⟩
    · show getTotal roundingCart ≠ _
      rw [hsub]
      show JsNumber.ofRat 150.00000000000003 ≠ JsNumber.ofRat (exactSubtotal _)
      rw [hexact]
      decide!
    · show calculateShipping (getTotal roundingCart) = _
      rw [hsub]
      decide!
    · show calculateShipping (JsNumber.ofRat (exactSubtotal _)) = _
      rw [hexact]
      decide!
    · show calculateTax (getTotal roundingCart) = _
      rw [hsub]
      decide!
    · show calculateTotal (getTotal roundingCart) = _
      rw [hsub]
      decide!
  · obtain ⟨order, horder⟩ := prepareOrderData_builds sampleCheckoutEnv validPage
      orderCart (by decide) (by decide)
    refine ⟨order, horder, ?_⟩
    obtain ⟨formData, paymentMethod, -, -, rfl⟩ :=
      prepareOrderData_ok sampleCheckoutEnv validPage orderCart order horder
    have hsub : getTotal orderCart = JsNumber.ofRat 0.6000000000000001 := by decide!
    have hlast : sumFromLast (orderCart.cart.items.map (fun item =>
        (⟨item.id, item.name, item.price, item.quantity, item.size, item.color⟩ :
          OrderItem))) = JsNumber.ofRat 0.6 := by decide!
    refine ⟨hsub, hlast, ?_⟩
    show getTotal orderCart ≠ sumFromLast _
    rw [hsub, hlast]
    decide!

/-- C13 (amended): whenever `prepareOrderData` builds an order, it has exactly
one line item per cart line, in the same order, each copying that line's id
(as `productId`), name, price, quantity, size and color; its subtotal is the
sum of price times quantity over those line items as the code computes it:
starting from 0 and taking the line items in order, each product and each
addition rounded to the nearest double (0 for none); its shipping cost and tax
are `calculateShipping` and `calculateTax` of that subtotal; its total is
subtotal plus shipping cost plus tax, added in that order in doubles; and its
status is 'processing'. It builds an order whenever the page has the seven
inputs and the active payment method, if any, has its label. -/
theorem prepareOrderData_contract (env : CheckoutEnv) (page : CheckoutPage)
    (m : CartManager) :
    (∀ order : Order, prepareOrderData env page m = .ok order →
      order.items.length = m.cart.items.length ∧
      (∀ (i : Nat) (line : CartItem), m.cart.items[i]? = some line →
        order.items[i]? = some
          ⟨line.id, line.name, line.price, line.quantity, line.size, line.color⟩) ∧
      order.subtotal =
        order.items.foldl
          (fun total item =>
            total.add ((JsNumber.ofRat item.price).mul (JsNumber.ofRat item.quantity)))
          (.finite 0) ∧
      (order.items = [] → order.subtotal = .finite 0) ∧
      order.shippingCost = calculateShipping order.subtotal ∧
      order.tax = calculateTax order.subtotal ∧
      order.total = (order.subtotal.add order.shippingCost).add order.tax ∧
      order.status = "processing") ∧
    ((∀ k ∈ ruleKeys, (page.doc k).isSome = true) → page.activePayment ≠ some none →
      ∃ order : Order, prepareOrderData env page m = .ok order) := by
  constructor
  · intro order h
    obtain ⟨formData, paymentMethod, -, -, rfl⟩ := prepareOrderData_ok env page m order h
    refine ⟨by simp, ?_, ?_, ?_, rfl, rfl, rfl, rfl⟩
    · intro i line hline
      simp [List.getElem?_map, hline]
    · show getTotal m = _
      rw [getTotal, List.foldl_map]
    · intro hnil
      have hitems : m.cart.items = [] := by simpa using hnil
      show getTotal m = _
      rw [getTotal, hitems]
      rfl
  · intro hpresent hpay
    exact prepareOrderData_builds env page m hpresent hpay

/-- Witness for C13: for the cart with one line of price 50 and quantity 2 on
the valid sample page, the order has one line item copying it, subtotal 100,
shipping cost 15, tax 8, total 123 and status 'processing'. -/
theorem prepareOrderData_contract_witness :
    ∃ order : Order,
      prepareOrderData sampleCheckoutEnv validPage (managerOf [sampleLine 2]) = .ok order ∧
      order.items = [⟨"p1", "Captain Jacket", 50, 2, none, none⟩] ∧
      order.subtotal = .finite 100 ∧ order.shippingCost = .finite 15 ∧
      order.tax = .finite 8 ∧ order.total = .finite 123 ∧
      order.status = "processing" := by
  obtain ⟨hprops, hbuilds⟩ :=
    prepareOrderData_contract sampleCheckoutEnv validPage (managerOf [sampleLine 2])
  obtain ⟨order, horder⟩ := hbuilds (by decide) (by decide)
  obtain ⟨hlen, hline, hsub, -, hship, htax, htotal, hstatus⟩ := hprops order horder
  have h0 := hline 0 (sampleLine 2) rfl
  have hitems : order.items = [⟨"p1", "Captain Jacket", 50, 2, none, none⟩] := by
    have hl : order.items.length = 1 := hlen
    match hi : order.items, hl, h0 with
    | [x], _, h0 =>
      simp only [hi, List.getElem?_cons_zero, Option.some.injEq] at h0
      rw [h0]
      rfl
  have hsubtotal : order.subtotal = .finite 100 := by
    rw [hsub, hitems]
    decide!
  have hshipping : order.shippingCost = .finite 15 := by
    rw [hship, hsubtotal]
    decide!
  have htaxed : order.tax = .finite 8 := by
    rw [htax, hsubtotal]
    decide!
  refine ⟨order, horder, hitems, hsubtotal, hshipping, htaxed, ?_, hstatus⟩
  rw [htotal, hsubtotal, hshipping, htaxed]
  decide!

/-- C17: for every clock value `t ≥ 10^7` (epoch milliseconds), the order id
`prepareOrderData` generates is the 11-character string `CS-` followed by the
last 8 decimal digits of `t`, that is `t mod 10^8` written in decimal and
padded with zeros on the left to 8 digits. -/
theorem orderId_last_eight_digits (env : CheckoutEnv) (page : CheckoutPage)
    (m : CartManager) (order : Order)
    (hclock : 10 ^ 7 ≤ env.nowMillis)
    (horder : prepareOrderData env page m = .ok order) :
    order.orderId =
      "CS-" ++ String.mk (zeroPad 8 (Nat.toDigits 10 (env.nowMillis % 10 ^ 8))) ∧
    order.orderId = "CS-" ++ String.mk (lastDigits 8 env.nowMillis) ∧
    order.orderId.length = 11 := by
  obtain ⟨formData, paymentMethod, -, -, rfl⟩ := prepareOrderData_ok env page m order horder
  have hslice : sliceLast 8 (Nat.toDigits 10 env.nowMillis) = lastDigits 8 env.nowMillis :=
    sliceLast_toDigits 7 env.nowMillis hclock
  have hpad : zeroPad 8 (Nat.toDigits 10 (env.nowMillis % 10 ^ 8)) =
      lastDigits 8 env.nowMillis := by
    rw [zeroPad_toDigits 7 _ (Nat.mod_lt _ (by norm_num)), lastDigits_mod 8]
  refine ⟨?_, ?_, ?_⟩
  · show makeOrderId env.nowMillis = _
    rw [makeOrderId, hslice, hpad]
  · show makeOrderId env.nowMillis = _
    rw [makeOrderId, hslice]
  · show (makeOrderId env.nowMillis).length = 11
    have h3 : "CS-".length = 3 := by decide
    have h8 : (String.mk (lastDigits 8 env.nowMillis)).length = 8 :=
      length_lastDigits 8 env.nowMillis
    rw [makeOrderId, hslice, String.length_append, h3, h8]

/-- Witness for C17: at the clock value 1700000000005 the order id generated
for the sample checkout is `CS-00000005`. -/
theorem orderId_last_eight_digits_witness :
    ∃ order : Order,
      prepareOrderData { sampleCheckoutEnv with nowMillis := 1700000000005 } validPage
        (managerOf [sampleLine 2]) = .ok order ∧
      order.orderId = "CS-00000005" := by
  obtain ⟨order, horder⟩ :=
    prepareOrderData_builds { sampleCheckoutEnv with nowMillis := 1700000000005 }
      validPage (managerOf [sampleLine 2]) (by decide) (by decide)
  obtain ⟨-, hid, -⟩ := orderId_last_eight_digits
    { sampleCheckoutEnv with nowMillis := 1700000000005 } validPage
    (managerOf [sampleLine 2]) order (by decide) horder
  refine ⟨order, horder, ?_⟩
  rw [hid]
  decide

/-! ## The checkout flow -/

theorem validateForm_some (doc : Document) :
    ∃ (isValid : Bool) (doc2 : Document), validateForm doc = some (isValid, doc2) := by
  obtain ⟨b2, d2, hfold, -⟩ :=
    foldlM_validateFormStep ruleKeys true doc (fun _ h => h) (by decide)
  exact ⟨b2, d2, hfold⟩

theorem storeShippingAddress_of_prepareOrderData (env : CheckoutEnv)
    (page : CheckoutPage) (m : CartManager) (order : Order)
    (h : prepareOrderData env page m = .ok order) :
    ∃ address : String, storeShippingAddress env page.doc =
      match env.sessionWriteError with
      | some message => .error message
      | none => .ok address := by
  obtain ⟨formData, -, hf, -, -⟩ := prepareOrderData_ok env page m order h
  unfold storeShippingAddress
  simp only [hf, bind, Except.bind, pure, Except.pure]
  exact ⟨_, rfl⟩

/-- The ways a call of `handleCheckout` can go. -/
theorem handleCheckout_cases (env : CheckoutEnv) (submit : Order → SubmitOutcome)
    (page : CheckoutPage) (m : CartManager) :
    ∃ (isValid : Bool) (doc : Document) (outcome : CheckoutOutcome),
      validateForm page.doc = some (isValid, doc) ∧
      handleCheckout env submit page m = some outcome ∧
      ((isValid = false ∧ outcome.manager = m ∧ outcome.submitted = [] ∧
          outcome.notifications = [⟨"Please fix the errors in the form", "error"⟩]) ∨
       (isValid = true ∧ isEmpty m = true ∧ outcome.manager = m ∧
          outcome.submitted = [] ∧
          outcome.notifications = [⟨"Your cart is empty", "error"⟩]) ∨
       (isValid = true ∧ isEmpty m = false ∧
          (∃ message, prepareOrderData env { page with doc := doc } m = .error message) ∧
          outcome.manager = m ∧ outcome.submitted = []) ∨
       (isValid = true ∧ isEmpty m = false ∧
          ∃ order, prepareOrderData env { page with doc := doc } m = .ok order ∧
            outcome.submitted = [order] ∧
            ((∃ message, submit order = .threw message ∧ outcome.manager = m ∧
                outcome.notifications =
                  [⟨textOr (some message) "Failed to process order. Please try again.",
                    "error"⟩]) ∨
             (∃ result, submit order = .returned result ∧
                result.success.truthy = false ∧ outcome.manager = m ∧
                outcome.notifications =
                  [⟨textOr (some (textOr result.message "Order submission failed"))
                      "Failed to process order. Please try again.", "error"⟩]) ∨
             (∃ result, submit order = .returned result ∧
                result.success.truthy = true ∧ env.sessionWriteError = none ∧
                outcome.manager = clearCart env.cartEnv m ∧
                outcome.notifications = []) ∨
             (∃ result message, submit order = .returned result ∧
                result.success.truthy = true ∧ env.sessionWriteError = some message ∧
                outcome.manager = m ∧
                outcome.notifications =
                  [⟨textOr (some message) "Failed to process order. Please try again.",
                    "error"⟩])))) := by
  obtain ⟨isValid, doc, hform⟩ := validateForm_some page.doc
  cases isValid with
  | false =>
    have hc : handleCheckout env submit page m = some
        { doc := doc
          manager := m
          notifications := [⟨"Please fix the errors in the form", "error"⟩]
          submitted := []
          shippingAddress := none
          loading := []
          redirect := false } := by
      simp only [handleCheckout, hform, Bool.not_false, if_true]
    exact ⟨false, doc, _, hform, hc, Or.inl ⟨rfl, rfl, rfl, rfl⟩⟩
  | true =>
    cases hempty : isEmpty m with
    | true =>
      have hc : handleCheckout env submit page m = some
          { doc := doc
            manager := m
            notifications := [⟨"Your cart is empty", "error"⟩]
            submitted := []
            shippingAddress := none
            loading := []
            redirect := false } := by
        simp only [handleCheckout, hform, hempty, Bool.not_true, Bool.false_eq_true,
          if_false, if_true]
      exact ⟨true, doc, _, hform, hc, Or.inr (Or.inl ⟨rfl, rfl, rfl, rfl, rfl⟩)⟩
    | false =>
      cases hprep : prepareOrderData env { page with doc := doc } m with
      | error message =>
        have hc : handleCheckout env submit page m =
            some (checkoutFailed doc m [] message) := by
          simp only [handleCheckout, hform, hempty, hprep, Bool.not_true,
            Bool.false_eq_true, if_false]
        exact ⟨true, doc, _, hform, hc,
          Or.inr (Or.inr (Or.inl ⟨rfl, rfl, ⟨message, hprep⟩, rfl, rfl⟩))⟩
      | ok order =>
        cases hsubmit : submit order with
        | threw message =>
          have hc : handleCheckout env submit page m =
              some (checkoutFailed doc m [order] message) := by
            simp only [handleCheckout, hform, hempty, hprep, hsubmit, Bool.not_true,
              Bool.false_eq_true, if_false]
          exact ⟨true, doc, _, hform, hc,
            Or.inr (Or.inr (Or.inr ⟨rfl, rfl, order, hprep, rfl,
              Or.inl ⟨message, hsubmit, rfl, rfl⟩⟩))⟩
        | returned result =>
          cases hsuccess : result.success.truthy with
          | false =>
            have hc : handleCheckout env submit page m =
                some (checkoutFailed doc m [order]
                  (textOr result.message "Order submission failed")) := by
              simp only [handleCheckout, hform, hempty, hprep, hsubmit, hsuccess,
                Bool.not_true, Bool.false_eq_true, if_false]
            exact ⟨true, doc, _, hform, hc,
              Or.inr (Or.inr (Or.inr ⟨rfl, rfl, order, hprep, rfl,
                Or.inr (Or.inl ⟨result, hsubmit, hsuccess, rfl, rfl⟩)⟩))⟩
          | true =>
            obtain ⟨address, haddress⟩ :=
              storeShippingAddress_of_prepareOrderData env { page with doc := doc } m
                order hprep
            cases hwrite : env.sessionWriteError with
            | none =>
              have haddress2 : storeShippingAddress env doc = .ok address := by
                rw [hwrite] at haddress
                exact haddress
              have hc : handleCheckout env submit page m = some
                  { doc := doc
                    manager := clearCart env.cartEnv m
                    notifications := []
                    submitted := [order]
                    shippingAddress := some address
                    loading := [true, false]
                    redirect := true } := by
                simp only [handleCheckout, hform, hempty, hprep, hsubmit, hsuccess,
                  haddress2, Bool.not_true, Bool.false_eq_true, if_false, if_true]
              exact ⟨true, doc, _, hform, hc,
                Or.inr (Or.inr (Or.inr ⟨rfl, rfl, order, hprep, rfl,
                  Or.inr (Or.inr (Or.inl ⟨result, hsubmit, hsuccess, rfl, rfl, rfl⟩))⟩))⟩
            | some message =>
              have haddress2 : storeShippingAddress env doc = .error message := by
                rw [hwrite] at haddress
                exact haddress
              have hc : handleCheckout env submit page m =
                  some (checkoutFailed doc m [order] message) := by
                simp only [handleCheckout, hform, hempty, hprep, hsubmit, hsuccess,
                  haddress2, Bool.not_true, Bool.false_eq_true, if_false, if_true]
              exact ⟨true, doc, _, hform, hc,
                Or.inr (Or.inr (Or.inr ⟨rfl, rfl, order, hprep, rfl,
                  Or.inr (Or.inr (Or.inr ⟨result, message, hsubmit, hsuccess, rfl, rfl,
                    rfl⟩))⟩))⟩

theorem textOr_of_ne_empty (text fallback : String) (h : text ≠ "") :
    textOr (some text) fallback = text := by
  simp [textOr, h]

theorem textOr_ne_empty (text : Option String) (fallback : String)
    (h : fallback ≠ "") : textOr text fallback ≠ "" := by
  unfold textOr
  split
  · split_ifs with h2
    · exact h
    · exact h2
  · exact h

/-- C11, the claim as worded, fails: with the valid form and the cart of one
line, a submission returning `{ success: 'no' }`, which is not `true`, leaves
the cart cleared, because the code tests the truthiness of `success`; and a
submission returning `{ success: true }` leaves the cart as it was when the
write to session storage throws, because the address is stored before the
cart is cleared. -/
theorem handleCheckout_truthy_success_counterexample :
    (handleCheckout sampleCheckoutEnv stringStub validPage (managerOf [sampleLine 2])).map
      (fun outcome => (outcome.manager.cart.items, outcome.submitted.length)) =
      some ([], 1) ∧
    (∀ order : Order, ∃ result : SubmitResult,
      stringStub order = .returned result ∧ result.success ≠ .bool true) ∧
    (handleCheckout fullSessionEnv acceptingStub validPage (managerOf [sampleLine 2])).map
      (fun outcome => (outcome.manager.cart.items, outcome.submitted.length)) =
      some ([sampleLine 2], 1) ∧
    (∀ order : Order, ∃ result : SubmitResult,
      acceptingStub order = .returned result ∧ result.success = .bool true) := by
  refine ⟨by decide!, ?_, by decide!, ?_⟩
  · intro order
    exact ⟨_, rfl, by decide⟩
  · intro order
    exact ⟨_, rfl, rfl⟩

/-- C11 (amended): `handleCheckout` always returns; it invokes the order
submission only when `validateForm` passed and the cart is not empty. It
clears the cart only when that submission returned a truthy `success` (`true`
or any other value that passes an `if` test), and it does clear it then
whenever the shipping address could be written to session storage. When the
form is invalid, the cart is empty, the submission throws, or it returns a
falsy `success`, the manager, and so the item sequence, is the one before the
call. -/
theorem handleCheckout_cart_effect (env : CheckoutEnv) (submit : Order → SubmitOutcome)
    (page : CheckoutPage) (m : CartManager) :
    ∃ outcome : CheckoutOutcome,
      handleCheckout env submit page m = some outcome ∧
      (∀ order ∈ outcome.submitted,
        (∃ doc, validateForm page.doc = some (true, doc)) ∧ isEmpty m = false) ∧
      (∀ order ∈ outcome.submitted, ∀ result, submit order = .returned result →
        result.success.truthy = true → env.sessionWriteError = none →
        outcome.manager = clearCart env.cartEnv m ∧ outcome.manager.cart.items = []) ∧
      (¬ (∃ order result, order ∈ outcome.submitted ∧ submit order = .returned result ∧
          result.success.truthy = true) →
        outcome.manager = m) ∧
      ((∀ doc, validateForm page.doc ≠ some (true, doc)) →
        outcome.manager.cart.items = m.cart.items) ∧
      (isEmpty m = true → outcome.manager.cart.items = m.cart.items) ∧
      (∀ order ∈ outcome.submitted, ∀ message, submit order = .threw message →
        outcome.manager.cart.items = m.cart.items) ∧
      (∀ order ∈ outcome.submitted, ∀ result, submit order = .returned result →
        result.success.truthy = false → outcome.manager.cart.items = m.cart.items) := by
  obtain ⟨isValid, doc, outcome, hform, hc, hcases⟩ := handleCheckout_cases env submit page m
  refine ⟨outcome, hc, ?_⟩
  rcases hcases with ⟨rfl, hm, hsub, -⟩ | ⟨rfl, hempty, hm, hsub, -⟩ |
    ⟨rfl, hempty, -, hm, hsub⟩ | ⟨rfl, hempty, order, hprep, hsub, hrest⟩
  · refine ⟨?_, ?_, ?_, ?_, ?_, ?_, ?_⟩
    · intro order ho; rw [hsub] at ho; cases ho
    · intro order ho; rw [hsub] at ho; cases ho
    · intro _; exact hm
    · intro _; rw [hm]
    · intro _; rw [hm]
    · intro order ho; rw [hsub] at ho; cases ho
    · intro order ho; rw [hsub] at ho; cases ho
  · refine ⟨?_, ?_, ?_, ?_, ?_, ?_, ?_⟩
    · intro order ho; rw [hsub] at ho; cases ho
    · intro order ho; rw [hsub] at ho; cases ho
    · intro _; exact hm
    · intro _; rw [hm]
    · intro _; rw [hm]
    · intro order ho; rw [hsub] at ho; cases ho
    · intro order ho; rw [hsub] at ho; cases ho
  · refine ⟨?_, ?_, ?_, ?_, ?_, ?_, ?_⟩
    · intro order ho; rw [hsub] at ho; cases ho
    · intro order ho; rw [hsub] at ho; cases ho
    · intro _; exact hm
    · intro _; rw [hm]
    · intro _; rw [hm]
    · intro order ho; rw [hsub] at ho; cases ho
    · intro order ho; rw [hsub] at ho; cases ho
  · have hvalid : (∃ doc, validateForm page.doc = some (true, doc)) ∧ isEmpty m = false :=
      ⟨⟨doc, hform⟩, hempty⟩
    have hmem : ∀ o ∈ outcome.submitted, o = order := by
      intro o ho
      rw [hsub] at ho
      simpa using ho
    rcases hrest with ⟨message, hsubmit, hm, -⟩ | ⟨result, hsubmit, hsuccess, hm, -⟩ |
      ⟨result, hsubmit, hsuccess, hwrite, hm, -⟩ |
      ⟨result, message, hsubmit, hsuccess, hwrite, hm, -⟩
    · refine ⟨fun _ _ => hvalid, ?_, fun _ => hm, ?_, ?_, ?_, ?_⟩
      · intro o ho r hr
        rw [hmem o ho, hsubmit] at hr
        cases hr
      · intro _; rw [hm]
      · intro _; rw [hm]
      · intro _ _ _ _; rw [hm]
      · intro _ _ _ _ _; rw [hm]
    · refine ⟨fun _ _ => hvalid, ?_, fun _ => hm, ?_, ?_, ?_, ?_⟩
      · intro o ho r hr hs
        rw [hmem o ho, hsubmit] at hr
        cases hr
        rw [hsuccess] at hs
        cases hs
      · intro _; rw [hm]
      · intro _; rw [hm]
      · intro _ _ _ _; rw [hm]
      · intro _ _ _ _ _; rw [hm]
    · have hcleared : outcome.manager.cart.items = [] := by
        rw [hm]
        rfl
      refine ⟨fun _ _ => hvalid, fun _ _ _ _ _ _ => ⟨hm, hcleared⟩, ?_, ?_, ?_, ?_, ?_⟩
      · intro hnot
        exact absurd ⟨order, result, by rw [hsub]; simp, hsubmit, hsuccess⟩ hnot
      · intro hno
        exact absurd hform (hno doc)
      · intro he
        rw [hempty] at he
        cases he
      · intro o ho message hthrew
        rw [hmem o ho, hsubmit] at hthrew
        cases hthrew
      · intro o ho r hr hs
        rw [hmem o ho, hsubmit] at hr
        cases hr
        rw [hsuccess] at hs
        cases hs
    · refine ⟨fun _ _ => hvalid, ?_, fun _ => hm, ?_, ?_, ?_, ?_⟩
      · intro o ho r hr hs hnone
        rw [hwrite] at hnone
        cases hnone
      · intro _; rw [hm]
      · intro _; rw [hm]
      · intro _ _ _ _; rw [hm]
      · intro _ _ _ _ _; rw [hm]

/-- Witness for C11: the cart with one line (price 50, quantity 2) and a valid
form ends empty under the stub returning `{ success: true }`, and unchanged
under the stub returning `{ success: false, message: 'declined' }`. -/
theorem handleCheckout_cart_effect_witness :
    (∃ outcome : CheckoutOutcome,
      handleCheckout sampleCheckoutEnv acceptingStub validPage
        (managerOf [sampleLine 2]) = some outcome ∧
      outcome.manager.cart.items = []) ∧
    (∃ outcome : CheckoutOutcome,
      handleCheckout sampleCheckoutEnv decliningStub validPage
        (managerOf [sampleLine 2]) = some outcome ∧
      outcome.manager.cart.items = [sampleLine 2]) := by
  constructor
  · obtain ⟨outcome, hc, -, hclear, -⟩ := handleCheckout_cart_effect sampleCheckoutEnv
      acceptingStub validPage (managerOf [sampleLine 2])
    have hlen : (handleCheckout sampleCheckoutEnv acceptingStub validPage
        (managerOf [sampleLine 2])).map (fun r => r.submitted.length) = some 1 := by
      decide
    rw [hc] at hlen
    have hone : outcome.submitted.length = 1 := by simpa using hlen
    obtain ⟨order, horder⟩ := List.length_eq_one.1 hone
    exact ⟨outcome, hc,
      (hclear order (by rw [horder]; simp) _ rfl rfl rfl).2⟩
  · obtain ⟨outcome, hc, -, -, hkeep, -⟩ := handleCheckout_cart_effect sampleCheckoutEnv
      decliningStub validPage (managerOf [sampleLine 2])
    refine ⟨outcome, hc, ?_⟩
    rw [hkeep ?_]
    · rfl
    · rintro ⟨order, result, -, hr, hs⟩
      cases hr
      cases hs

/-- C12, the claim as worded, fails: with the valid form and the cart of one
line, a submission returning `{ success: true }` is followed by an error
notification when the write to session storage throws: the error is caught by
the same `catch` and its message is shown. -/
theorem handleCheckout_session_write_counterexample :
    (handleCheckout fullSessionEnv acceptingStub validPage (managerOf [sampleLine 2])).map
      (fun outcome => (outcome.notifications, outcome.submitted.length)) =
      some ([⟨"The quota has been exceeded.", "error"⟩], 1) ∧
    (∀ order : Order, ∃ result : SubmitResult,
      acceptingStub order = .returned result ∧ result.success = .bool true) := by
  refine ⟨by decide!, ?_⟩
  intro order
  exact ⟨_, rfl, rfl⟩

/-- C12 (amended): after a submission failure `handleCheckout` has shown
exactly one notification, of type error, carrying the failure message: the
message `m` when the submission returns `success` false (or any falsy value)
with a non-empty message `m`; 'Order submission failed' when it returns such a
`success` with no message (or an empty one); the message `m` when the
submission throws an error with a non-empty message `m`, and 'Failed to
process order. Please try again.' when that message is empty. After a
successful submission it has shown no notification, provided the shipping
address could be written to session storage. `APIService.submitOrder` passes a
failure of the request on to its caller. -/
theorem handleCheckout_failure_notification (env : CheckoutEnv)
    (submit : Order → SubmitOutcome) (page : CheckoutPage) (m : CartManager) :
    (∃ outcome : CheckoutOutcome,
      handleCheckout env submit page m = some outcome ∧
      ∀ order ∈ outcome.submitted,
        (∀ result text, submit order = .returned result →
          result.success.truthy = false →
          result.message = some text → text ≠ "" →
          outcome.notifications = [⟨text, "error"⟩]) ∧
        (∀ result, submit order = .returned result → result.success.truthy = false →
          (result.message = none ∨ result.message = some "") →
          outcome.notifications = [⟨"Order submission failed", "error"⟩]) ∧
        (∀ text, submit order = .threw text → text ≠ "" →
          outcome.notifications = [⟨text, "error"⟩]) ∧
        (submit order = .threw "" →
          outcome.notifications =
            [⟨"Failed to process order. Please try again.", "error"⟩]) ∧
        (∀ result, submit order = .returned result → result.success.truthy = true →
          env.sessionWriteError = none → outcome.notifications = [])) ∧
    (JsValue.truthy (.bool false) = false ∧ JsValue.truthy (.bool true) = true) ∧
    (∀ (fetch : Order → FetchOutcome) (order : Order) (text : String),
      fetch order = .rejected text → submitOrder false env fetch order = .threw text) ∧
    (∀ (fetch : Order → FetchOutcome) (order : Order) (status : Nat)
        (json : Except String SubmitResult),
      fetch order = .responded false status json →
      submitOrder false env fetch order =
        .threw ("HTTP error! status: " ++ toString status)) := by
  refine ⟨?_, ⟨rfl, rfl⟩, ?_, ?_⟩
  · obtain ⟨isValid, doc, outcome, hform, hc, hcases⟩ :=
      handleCheckout_cases env submit page m
    refine ⟨outcome, hc, ?_⟩
    intro o ho
    rcases hcases with ⟨-, -, hsub, -⟩ | ⟨-, -, -, hsub, -⟩ |
      ⟨-, -, -, -, hsub⟩ | ⟨-, -, order, -, hsub, hrest⟩
    · rw [hsub] at ho; cases ho
    · rw [hsub] at ho; cases ho
    · rw [hsub] at ho; cases ho
    · have hmem : o = order := by
        rw [hsub] at ho
        simpa using ho
      subst hmem
      rcases hrest with ⟨message, hsubmit, -, hnote⟩ | ⟨result, hsubmit, hsuccess, -, hnote⟩ |
        ⟨result, hsubmit, hsuccess, hwrite, -, hnote⟩ |
        ⟨result, message, hsubmit, hsuccess, hwrite, -, hnote⟩
      · refine ⟨?_, ?_, ?_, ?_, ?_⟩
        · intro r text hr; rw [hsubmit] at hr; cases hr
        · intro r hr; rw [hsubmit] at hr; cases hr
        · intro text ht hne
          rw [hsubmit] at ht
          cases ht
          rw [hnote, textOr_of_ne_empty _ _ hne]
        · intro ht
          rw [hsubmit] at ht
          cases ht
          rw [hnote]
          rfl
        · intro r hr; rw [hsubmit] at hr; cases hr
      · have hgen : ∀ fallback, textOr (some (textOr result.message "Order submission failed"))
            fallback = textOr result.message "Order submission failed" :=
          fun fallback => textOr_of_ne_empty _ _ (textOr_ne_empty _ _ (by decide))
        refine ⟨?_, ?_, ?_, ?_, ?_⟩
        · intro r text hr _ hmsg hne
          rw [hsubmit] at hr
          cases hr
          rw [hnote, hgen, hmsg, textOr_of_ne_empty _ _ hne]
        · intro r hr _ hmsg
          rw [hsubmit] at hr
          cases hr
          rw [hnote, hgen]
          rcases hmsg with hmsg | hmsg <;> rw [hmsg] <;> rfl
        · intro text ht; rw [hsubmit] at ht; cases ht
        · intro ht; rw [hsubmit] at ht; cases ht
        · intro r hr hs
          rw [hsubmit] at hr
          cases hr
          rw [hsuccess] at hs
          cases hs
      · refine ⟨?_, ?_, ?_, ?_, ?_⟩
        · intro r text hr hs
          rw [hsubmit] at hr
          cases hr
          rw [hsuccess] at hs
          cases hs
        · intro r hr hs
          rw [hsubmit] at hr
          cases hr
          rw [hsuccess] at hs
          cases hs
        · intro text ht; rw [hsubmit] at ht; cases ht
        · intro ht; rw [hsubmit] at ht; cases ht
        · intro r _ _ _
          exact hnote
      · refine ⟨?_, ?_, ?_, ?_, ?_⟩
        · intro r text hr hs
          rw [hsubmit] at hr
          cases hr
          rw [hsuccess] at hs
          cases hs
        · intro r hr hs
          rw [hsubmit] at hr
          cases hr
          rw [hsuccess] at hs
          cases hs
        · intro text ht; rw [hsubmit] at ht; cases ht
        · intro ht; rw [hsubmit] at ht; cases ht
        · intro r _ _ hnone
          rw [hwrite] at hnone
          cases hnone
  · intro fetch order text hfetch
    simp [submitOrder, hfetch]
  · intro fetch order status json hfetch
    simp [submitOrder, hfetch]

/-- Witness for C12: with the valid form and the cart of one line, the stub
returning `{ success: false, message: 'declined' }` makes `handleCheckout`
show the single error notification 'declined'. -/
theorem handleCheckout_failure_notification_witness :
    ∃ outcome : CheckoutOutcome,
      handleCheckout sampleCheckoutEnv decliningStub validPage
        (managerOf [sampleLine 2]) = some outcome ∧
      outcome.notifications = [⟨"declined", "error"⟩] := by
  obtain ⟨⟨outcome, hc, hnote⟩, -, -, -⟩ := handleCheckout_failure_notification
    sampleCheckoutEnv decliningStub validPage (managerOf [sampleLine 2])
  have hlen : (handleCheckout sampleCheckoutEnv decliningStub validPage
      (managerOf [sampleLine 2])).map (fun r => r.submitted.length) = some 1 := by
    decide
  rw [hc] at hlen
  have hone : outcome.submitted.length = 1 := by simpa using hlen
  obtain ⟨order, horder⟩ := List.length_eq_one.1 hone
  exact ⟨outcome, hc,
    (hnote order (by rw [horder]; simp)).1 _ "declined" rfl rfl rfl (by decide)⟩

/-! ## Persistence -/

theorem findIndex_of_exists {α : Type} (p : α → Bool) (l : List α)
    (h : ∃ x ∈ l, p x = true) :
    ∃ (i : Nat) (x : α), findIndex p l = some i ∧ l[i]? = some x ∧ p x = true := by
  cases hidx : findIndex p l with
  | none =>
    obtain ⟨x, hx, hpx⟩ := h
    have := (findIndex_eq_none_iff p l).1 hidx x hx
    rw [this] at hpx
    cases hpx
  | some i =>
    obtain ⟨x, hx, hpx, -⟩ := (findIndex_eq_some_iff p l i).1 hidx
    exact ⟨i, x, rfl, hx, hpx⟩

/-- C14, the claim as worded, fails: on a cart holding `p1` at quantity 10
with nothing stored yet, `updateQuantity('p1', +1)` is ignored (the items stay
as they are), yet `updatedAt` is refreshed and the record is written. -/
theorem updateQuantity_ignored_still_saves_counterexample :
    (updateQuantity sampleEnv "p1" 1 (managerOf [sampleLine 10])).cart.items =
      (managerOf [sampleLine 10]).cart.items ∧
    (updateQuantity sampleEnv "p1" 1 (managerOf [sampleLine 10])).cart.updatedAt ≠
      (managerOf [sampleLine 10]).cart.updatedAt ∧
    (updateQuantity sampleEnv "p1" 1 (managerOf [sampleLine 10])).stored ≠
      (managerOf [sampleLine 10]).stored ∧
    (updateQuantity sampleEnv "p1" 1 (managerOf [sampleLine 10])).stored =
      some { items := [sampleLine 10], updatedAt := sampleEnv.now } := by
  have h : updateQuantity sampleEnv "p1" 1 (managerOf [sampleLine 10]) =
      { cart := { items := [sampleLine 10], updatedAt := sampleEnv.now },
        stored := some { items := [sampleLine 10], updatedAt := sampleEnv.now } } := by
    simp [updateQuantity, managerOf, findIndex, sampleLine, saveCart, sampleEnv]
  rw [h]
  refine ⟨?_, ?_, ?_, ?_⟩
  · simp [managerOf]
  · simp [managerOf, sampleEnv]
  · simp [managerOf]
  · simp

/-- C14 (amended): `updateQuantity` leaves the persisted record and
`updatedAt` as they were when no line has the id. When some line has the id it
always saves, whether or not the item sequence changed: `updatedAt` becomes
the current time and, when the write succeeds, the persisted record becomes
the cart after the call; in particular, when the new quantity would exceed 10
the items stay as they are while `updatedAt` is refreshed and the record is
written again. -/
theorem updateQuantity_persistence (env : Env) (itemId : String) (delta : Int)
    (m : CartManager) :
    ((∀ c ∈ m.cart.items, c.id ≠ itemId) →
      (updateQuantity env itemId delta m).stored = m.stored ∧
      (updateQuantity env itemId delta m).cart.updatedAt = m.cart.updatedAt) ∧
    ((∃ c ∈ m.cart.items, c.id = itemId) →
      (updateQuantity env itemId delta m).cart.updatedAt = env.now ∧
      (env.setItemOk = true →
        (updateQuantity env itemId delta m).stored =
          some (updateQuantity env itemId delta m).cart) ∧
      (env.setItemOk = false →
        (updateQuantity env itemId delta m).stored = m.stored)) ∧
    (∀ (i : Nat) (line : CartItem), m.cart.items[i]? = some line → line.id = itemId →
      (∀ (j : Nat) (c : CartItem), j < i → m.cart.items[j]? = some c → c.id ≠ itemId) →
      10 < line.quantity + delta →
      (updateQuantity env itemId delta m).cart =
        { items := m.cart.items, updatedAt := env.now }) := by
  refine ⟨?_, ?_, ?_⟩
  · intro hnone
    have hidx : findIndex (fun item => item.id == itemId) m.cart.items = none := by
      rw [findIndex_eq_none_iff]
      intro c hc
      simpa using hnone c hc
    simp only [updateQuantity, hidx, and_self]
  · rintro ⟨c, hc, hid⟩
    obtain ⟨i, line, hidx, hline, -⟩ :=
      findIndex_of_exists (fun item => item.id == itemId) m.cart.items
        ⟨c, hc, by simp [hid]⟩
    obtain ⟨items2, hu⟩ : ∃ items2 : List CartItem,
        updateQuantity env itemId delta m =
          saveCart env { m with cart := { m.cart with items := items2 } } :=
      ⟨if line.quantity + delta < 1 then m.cart.items.eraseIdx i
        else if line.quantity + delta ≤ 10 then
          m.cart.items.set i { line with quantity := line.quantity + delta }
        else m.cart.items, by simp only [updateQuantity, hidx, hline]⟩
    rw [hu]
    refine ⟨rfl, ?_, ?_⟩
    · intro hok; simp [saveCart, hok]
    · intro hok; simp [saveCart, hok]
  · intro i line hline hid hfirst hbig
    have hidx : findIndex (fun item => item.id == itemId) m.cart.items = some i := by
      rw [findIndex_eq_some_iff]
      refine ⟨line, hline, by simp [hid], ?_⟩
      intro j c hj hc
      simpa using hfirst j c hj hc
    have h1 : ¬ line.quantity + delta < 1 := by omega
    have h2 : ¬ line.quantity + delta ≤ 10 := by omega
    simp only [updateQuantity, hidx, hline, saveCart, h1, h2, if_false]

/-- Witness for C14: on a cart holding `p1` at quantity 10, an ignored `+1`
sets `updatedAt` to the current time, and an update of the absent `p3` leaves
the stored record as it was. -/
theorem updateQuantity_persistence_witness :
    (updateQuantity sampleEnv "p1" 1 (managerOf [sampleLine 10])).cart.updatedAt =
      sampleEnv.now ∧
    (updateQuantity sampleEnv "p3" 1 (managerOf [sampleLine 10])).stored = none := by
  constructor
  · exact ((updateQuantity_persistence sampleEnv "p1" 1 (managerOf [sampleLine 10])).2.1
      ⟨sampleLine 10, by simp [managerOf], rfl⟩).1
  · exact ((updateQuantity_persistence sampleEnv "p3" 1 (managerOf [sampleLine 10])).1
      (by simp [managerOf, sampleLine])).1

theorem asCartItem_toJson (item : CartItem) : item.toJson.asCartItem = some item := by
  obtain ⟨id, name, price, image, size, color, quantity, addedAt⟩ := item
  cases size <;> cases color <;>
    simp [CartItem.toJson, Json.asCartItem, optionalProperty, Json.stringProperty,
      Json.numberProperty, Json.optionalStringProperty, Json.property, List.lookup]

theorem cartItemsOf_toJson (items : List CartItem) :
    cartItemsOf (items.map CartItem.toJson) = some items := by
  induction items with
  | nil => rfl
  | cons x xs ih =>
    simp only [List.map_cons, cartItemsOf, asCartItem_toJson, ih]

theorem asCart_toJson (cart : Cart) : cart.toJson.asCart = some cart := by
  obtain ⟨items, updatedAt⟩ := cart
  simp [Cart.toJson, Json.asCart, Json.asItems, Json.stringProperty, Json.property,
    List.lookup, cartItemsOf_toJson]

/-- C15, the claim as worded, fails: when the stored text is `{}`, which is
valid JSON but not a cart record, `loadCart` returns the parsed object as it
is; it has no item sequence, so it is not a fresh cart with an empty one. -/
theorem loadCart_wrong_shape_counterexample :
    loadCart sampleEnv (.text (.json (.obj []))) = .obj [] ∧
    (loadCart sampleEnv (.text (.json (.obj [])))).asItems = none ∧
    (loadCart sampleEnv (.text (.json (.obj [])))).asCart = none ∧
    (freshCart sampleEnv).toJson.asItems = some [] := by
  refine ⟨rfl, rfl, rfl, ?_⟩
  have h := asCart_toJson (freshCart sampleEnv)
  simp [Cart.toJson, Json.asItems, Json.property, List.lookup, freshCart, cartItemsOf]

/-- C15 (amended): `loadCart` never surfaces an error to its caller. When the
storage key is absent, when reading storage fails, when the stored text is
empty or when it is not valid JSON, it returns a fresh cart whose item
sequence is empty (stamped with the current time). When the stored text is the
JSON of a well-formed cart record, it returns that record. -/
theorem loadCart_contract (env : Env) :
    (∀ read : GetItem,
      (read = .throws ∨ read = .absent ∨ read = .text .empty ∨ read = .text .invalid) →
      loadCart env read = (freshCart env).toJson ∧
      (loadCart env read).asCart = some { items := [], updatedAt := env.now } ∧
      (loadCart env read).asItems = some []) ∧
    (∀ (value : Json) (cart : Cart), value.asCart = some cart →
      (loadCart env (.text (.json value))).asCart = some cart) := by
  constructor
  · intro read hread
    have hfresh : loadCart env read = (freshCart env).toJson := by
      rcases hread with rfl | rfl | rfl | rfl <;> rfl
    rw [hfresh]
    refine ⟨rfl, asCart_toJson (freshCart env), ?_⟩
    simp [Cart.toJson, Json.asItems, Json.property, List.lookup, freshCart, cartItemsOf]
  · intro value cart h
    exact h

/-- Witness for C15: with an absent key the loaded cart is the fresh empty
one, and a stored well-formed record is returned as it is. -/
theorem loadCart_contract_witness :
    (loadCart sampleEnv .absent).asItems = some [] ∧
    (loadCart sampleEnv
      (.text (.json (Cart.toJson { items := [sampleLine 2], updatedAt := "t" })))).asCart =
      some { items := [sampleLine 2], updatedAt := "t" } := by
  constructor
  · exact ((loadCart_contract sampleEnv).1 .absent (Or.inr (Or.inl rfl))).2.2
  · exact (loadCart_contract sampleEnv).2 _ _ (asCart_toJson _)

/-! ## Decimal texts -/

theorem takeWhile_append_stop {α : Type} (p : α → Bool) (a : List α) (b : α) (r : List α)
    (ha : ∀ x ∈ a, p x = true) (hb : p b = false) :
    (a ++ b :: r).takeWhile p = a := by
  induction a with
  | nil => simp [List.takeWhile, hb]
  | cons x xs ih =>
    have hx : p x = true := ha x (List.mem_cons_self _ _)
    have h := ih (fun y hy => ha y (List.mem_cons_of_mem _ hy))
    simp [List.takeWhile, hx, h]

theorem dropWhile_append_stop {α : Type} (p : α → Bool) (a : List α) (b : α) (r : List α)
    (ha : ∀ x ∈ a, p x = true) (hb : p b = false) :
    (a ++ b :: r).dropWhile p = b :: r := by
  induction a with
  | nil => simp [List.dropWhile, hb]
  | cons x xs ih =>
    have hx : p x = true := ha x (List.mem_cons_self _ _)
    have h := ih (fun y hy => ha y (List.mem_cons_of_mem _ hy))
    simp [List.dropWhile, hx, h]

theorem isDigit_digitChar (d : Nat) (h : d < 10) : isDigit (Nat.digitChar d) = true := by
  interval_cases d <;> decide

theorem digitChar_value (d : Nat) (h : d < 10) : (Nat.digitChar d).toNat - 48 = d := by
  interval_cases d <;> decide

theorem digitChar_ne_zero (d : Nat) (h : d < 10) (h0 : 0 < d) : Nat.digitChar d ≠ '0' := by
  interval_cases d <;> decide

theorem toDigits_all_isDigit (n : Nat) : ∀ c ∈ Nat.toDigits 10 n, isDigit c = true := by
  induction n using Nat.strong_induction_on with
  | _ n ih =>
    intro c hc
    by_cases h : n < 10
    · rw [toDigits_of_lt_ten n h] at hc
      simp only [List.mem_singleton] at hc
      rw [hc]
      exact isDigit_digitChar n h
    · rw [toDigits_of_ten_le n (by omega)] at hc
      rcases List.mem_append.1 hc with hc | hc
      · exact ih (n / 10) (by omega) c hc
      · simp only [List.mem_singleton] at hc
        rw [hc]
        exact isDigit_digitChar _ (Nat.mod_lt _ (by decide))

theorem digitsValue_append_singleton (a : List Char) (c : Char) :
    digitsValue (a ++ [c]) = 10 * digitsValue a + (c.toNat - 48) := by
  simp [digitsValue, List.foldl_append]

theorem digitsValue_append (a b : List Char) :
    digitsValue (a ++ b) = digitsValue a * 10 ^ b.length + digitsValue b := by
  induction b using List.reverseRecOn with
  | nil => simp [digitsValue]
  | append_singleton b c ih =>
    rw [← List.append_assoc, digitsValue_append_singleton, ih, digitsValue_append_singleton]
    simp only [List.length_append, List.length_singleton, pow_succ]
    ring

theorem digitsValue_toDigits (n : Nat) : digitsValue (Nat.toDigits 10 n) = n := by
  induction n using Nat.strong_induction_on with
  | _ n ih =>
    by_cases h : n < 10
    · rw [toDigits_of_lt_ten n h]
      simp [digitsValue, digitChar_value n h]
    · rw [toDigits_of_ten_le n (by omega), digitsValue_append_singleton,
        ih (n / 10) (by omega), digitChar_value _ (Nat.mod_lt _ (by decide))]
      omega

theorem digitsValue_replicate_zero (k : Nat) : digitsValue (List.replicate k '0') = 0 := by
  induction k with
  | zero => rfl
  | succ k ih =>
    rw [List.replicate_succ', digitsValue_append_singleton, ih]
    decide

theorem toDigits_head (n : Nat) (h : 0 < n) :
    ∃ (c : Char) (rest : List Char),
      Nat.toDigits 10 n = c :: rest ∧ c ≠ '0' ∧ isDigit c = true := by
  induction n using Nat.strong_induction_on with
  | _ n ih =>
    by_cases h10 : n < 10
    · exact ⟨Nat.digitChar n, [], toDigits_of_lt_ten n h10, digitChar_ne_zero n h10 h,
        isDigit_digitChar n h10⟩
    · obtain ⟨c, rest, hc, hne, hd⟩ := ih (n / 10) (by omega) (by omega)
      refine ⟨c, rest ++ [Nat.digitChar (n % 10)], ?_, hne, hd⟩
      rw [toDigits_of_ten_le n (by omega), hc]
      rfl

theorem decimalValue_eq (s : Nat) (e : Int) : decimalValue s e = (s : ℚ) * (10 : ℚ) ^ e := by
  unfold decimalValue
  split_ifs with h
  · obtain ⟨k, rfl⟩ := Int.eq_ofNat_of_zero_le h
    simp
  · obtain ⟨k, hk⟩ := Int.exists_eq_neg_ofNat (by omega : e ≤ 0)
    subst hk
    simp [div_eq_mul_inv]

theorem parseFraction_none (c : Char) (tail : List Char) (hc : c ≠ '.') :
    parseFraction (c :: tail) = some ([], c :: tail) := by
  simp [parseFraction, hc]

theorem parseFraction_digits (fs : List Char) (c : Char) (tail : List Char)
    (hfs : ∀ x ∈ fs, isDigit x = true) (hne : fs ≠ []) (hc : isDigit c = false) :
    parseFraction ('.' :: (fs ++ c :: tail)) = some (fs, c :: tail) := by
  simp [parseFraction, takeWhile_append_stop isDigit fs c tail hfs hc,
    dropWhile_append_stop isDigit fs c tail hfs hc, hne]

theorem parseExponent_none (c : Char) (tail : List Char) (hc : c ≠ 'e') (hc2 : c ≠ 'E') :
    parseExponent (c :: tail) = some (0, c :: tail) := by
  simp [parseExponent, hc, hc2]

theorem parseExponent_plus (m : Nat) (c : Char) (tail : List Char) (hc : isDigit c = false) :
    parseExponent ('e' :: '+' :: (Nat.toDigits 10 m ++ c :: tail)) =
      some ((m : Int), c :: tail) := by
  have hne : Nat.toDigits 10 m ≠ [] := by
    intro h
    have := digitsValue_toDigits m
    by_cases hm : m < 10
    · rw [toDigits_of_lt_ten m hm] at h
      cases h
    · rw [toDigits_of_ten_le m (by omega)] at h
      simp at h
  simp [parseExponent, takeWhile_append_stop isDigit _ c tail (toDigits_all_isDigit m) hc,
    dropWhile_append_stop isDigit _ c tail (toDigits_all_isDigit m) hc, hne,
    digitsValue_toDigits]

theorem parseExponent_minus (m : Nat) (c : Char) (tail : List Char) (hc : isDigit c = false) :
    parseExponent ('e' :: '-' :: (Nat.toDigits 10 m ++ c :: tail)) =
      some (-(m : Int), c :: tail) := by
  have hne : Nat.toDigits 10 m ≠ [] := by
    intro h
    by_cases hm : m < 10
    · rw [toDigits_of_lt_ten m hm] at h
      cases h
    · rw [toDigits_of_ten_le m (by omega)] at h
      simp at h
  simp [parseExponent, takeWhile_append_stop isDigit _ c tail (toDigits_all_isDigit m) hc,
    dropWhile_append_stop isDigit _ c tail (toDigits_all_isDigit m) hc, hne,
    digitsValue_toDigits]

/-- The integer part `ds`, followed by a text that holds the rest of the
number, is read as the integer part. -/
theorem parseUnsigned_of_parts (ds : List Char) (c : Char) (after : List Char)
    (fs : List Char) (afterFraction : List Char) (exponent : Int) (rest : List Char)
    (hds : ∀ x ∈ ds, isDigit x = true) (hne : ds ≠ [])
    (hzero : ds.head? = some '0' → ds.length = 1) (hc : isDigit c = false)
    (hfrac : parseFraction (c :: after) = some (fs, afterFraction))
    (hexp : parseExponent afterFraction = some (exponent, rest)) :
    parseUnsigned (ds ++ c :: after) =
      some (decimalValue (digitsValue (ds ++ fs)) (exponent - (fs.length : Int)), rest) := by
  unfold parseUnsigned
  simp only [takeWhile_append_stop isDigit ds c after hds hc,
    dropWhile_append_stop isDigit ds c after hds hc, hfrac, hexp]
  rw [if_neg]
  rintro (h | ⟨h1, h2⟩)
  · exact hne h
  · exact h2 (hzero h1)

theorem parseExponent_signed (n : Int) (c : Char) (tail : List Char)
    (hc : isDigit c = false) :
    parseExponent (exponentText n ++ c :: tail) = some (n, c :: tail) := by
  unfold exponentText
  by_cases h : n < 0
  · have hn : -((n.natAbs : Nat) : Int) = n := by omega
    simp only [h, if_true, List.cons_append]
    rw [parseExponent_minus _ c tail hc, hn]
  · have hn : ((n.natAbs : Nat) : Int) = n := by omega
    simp only [h, if_false, List.cons_append]
    rw [parseExponent_plus _ c tail hc, hn]

theorem exponentText_head (n : Int) : ∃ rest, exponentText n = 'e' :: rest :=
  ⟨_, rfl⟩

/-- The text `Number::toString` forms from digits and an exponent is read back
as their exact value. -/
theorem parseUnsigned_formatDecimal (s : Nat) (e : Int) (hs : 0 < s) (tail : List Char) :
    parseUnsigned (formatDecimal s e ++ ',' :: tail) =
      some (decimalValue s e, ',' :: tail) := by
  obtain ⟨c0, rest0, hd, hc0, hdig0⟩ := toDigits_head s hs
  have hall := toDigits_all_isDigit s
  have hval := digitsValue_toDigits s
  have hcomma : isDigit ',' = false := by decide
  have hlen : (Nat.toDigits 10 s).length = rest0.length + 1 := by rw [hd]; rfl
  simp only [formatDecimal]
  split_ifs with h1 h2 h3
  · -- the digits followed by zeros
    have he : 0 ≤ e := by omega
    obtain ⟨j, rfl⟩ := Int.eq_ofNat_of_zero_le he
    have hj : ((Nat.toDigits 10 s).length + (j : Int) - (Nat.toDigits 10 s).length).toNat = j := by
      omega
    rw [hj]
    have h := parseUnsigned_of_parts (Nat.toDigits 10 s ++ List.replicate j '0') ','
      tail [] (',' :: tail) 0 (',' :: tail)
      (by
        intro x hx
        rcases List.mem_append.1 hx with hx | hx
        · exact hall x hx
        · rw [List.eq_of_mem_replicate hx]; decide)
      (by rw [hd]; simp)
      (by
        intro h0
        rw [hd] at h0
        simp at h0
        exact absurd h0 hc0)
      hcomma (parseFraction_none _ _ (by decide))
      (parseExponent_none _ _ (by decide) (by decide))
    rw [h]
    congr 2
    rw [List.append_nil, digitsValue_append, hval, digitsValue_replicate_zero,
      List.length_replicate, decimalValue_eq, decimalValue_eq]
    simp
  · -- a point inside the digits
    have hn : (((Nat.toDigits 10 s).length : Int) + e).toNat < (Nat.toDigits 10 s).length := by
      omega
    have hpos : 0 < (((Nat.toDigits 10 s).length : Int) + e).toNat := by omega
    generalize hm : (((Nat.toDigits 10 s).length : Int) + e).toNat = m at hn hpos
    have htake : ∀ x ∈ (Nat.toDigits 10 s).take m, isDigit x = true :=
      fun x hx => hall x (List.mem_of_mem_take hx)
    have hdrop : ∀ x ∈ (Nat.toDigits 10 s).drop m, isDigit x = true :=
      fun x hx => hall x (List.mem_of_mem_drop hx)
    have hdropne : (Nat.toDigits 10 s).drop m ≠ [] := by
      intro h0
      have := congrArg List.length h0
      simp at this
      omega
    have htext : List.take m (Nat.toDigits 10 s) ++ '.' :: List.drop m (Nat.toDigits 10 s) ++
        ',' :: tail = List.take m (Nat.toDigits 10 s) ++
          '.' :: (List.drop m (Nat.toDigits 10 s) ++ ',' :: tail) := by simp
    rw [htext]
    have h := parseUnsigned_of_parts ((Nat.toDigits 10 s).take m) '.'
      ((Nat.toDigits 10 s).drop m ++ ',' :: tail) ((Nat.toDigits 10 s).drop m)
      (',' :: tail) 0 (',' :: tail) htake
      (by
        obtain ⟨m2, rfl⟩ : ∃ m2, m = m2 + 1 := ⟨m - 1, by omega⟩
        rw [hd]; simp)
      (by
        obtain ⟨m2, rfl⟩ : ∃ m2, m = m2 + 1 := ⟨m - 1, by omega⟩
        intro h0
        rw [hd] at h0
        simp at h0
        exact absurd h0 hc0)
      (by decide) (parseFraction_digits _ _ _ hdrop hdropne hcomma)
      (parseExponent_none _ _ (by decide) (by decide))
    rw [h, List.take_append_drop, hval]
    congr 3
    simp only [List.length_drop]
    omega
  · -- zeros between the point and the digits
    generalize hm : (-(((Nat.toDigits 10 s).length : Int) + e)).toNat = m
    have hfs : ∀ x ∈ List.replicate m '0' ++ Nat.toDigits 10 s, isDigit x = true := by
      intro x hx
      rcases List.mem_append.1 hx with hx | hx
      · rw [List.eq_of_mem_replicate hx]; decide
      · exact hall x hx
    have htext : '0' :: '.' :: (List.replicate m '0' ++ Nat.toDigits 10 s) ++ ',' :: tail =
        ['0'] ++ '.' :: ((List.replicate m '0' ++ Nat.toDigits 10 s) ++ ',' :: tail) := by
      simp
    rw [htext]
    have h := parseUnsigned_of_parts ['0'] '.'
      ((List.replicate m '0' ++ Nat.toDigits 10 s) ++ ',' :: tail)
      (List.replicate m '0' ++ Nat.toDigits 10 s) (',' :: tail) 0 (',' :: tail)
      (by decide) (by simp) (by simp) (by decide)
      (parseFraction_digits _ _ _ hfs (by rw [hd]; simp) hcomma)
      (parseExponent_none _ _ (by decide) (by decide))
    rw [h]
    have hv : digitsValue (['0'] ++ (List.replicate m '0' ++ Nat.toDigits 10 s)) = s := by
      rw [← List.append_assoc, digitsValue_append, hval]
      have : ['0'] ++ List.replicate m '0' = List.replicate (m + 1) '0' := by
        rw [List.replicate_succ]; rfl
      rw [this, digitsValue_replicate_zero]
      simp
    rw [hv]
    congr 3
    simp only [List.length_append, List.length_replicate]
    omega
  · -- the exponent form
    rw [hd]
    have hexp := parseExponent_signed (((Nat.toDigits 10 s).length : Int) + e - 1) ',' tail
      hcomma
    rw [hlen] at hexp
    obtain ⟨erest, herest⟩ := exponentText_head (((rest0.length + 1 : Nat) : Int) + e - 1)
    cases rest0 with
    | nil =>
      show parseUnsigned (([c0] ++ exponentText ((([c0].length : Nat) : Int) + e - 1)) ++
        ',' :: tail) = _
      rw [List.append_assoc]
      have hexp2 : parseExponent (exponentText ((([c0].length : Nat) : Int) + e - 1) ++
          ',' :: tail) = some ((([c0].length : Nat) : Int) + e - 1, ',' :: tail) := hexp
      have hhead : exponentText ((([c0].length : Nat) : Int) + e - 1) ++ ',' :: tail =
          'e' :: (erest ++ ',' :: tail) := by
        have : exponentText ((([c0].length : Nat) : Int) + e - 1) = 'e' :: erest := herest
        rw [this]; rfl
      rw [hhead] at hexp2 ⊢
      have h := parseUnsigned_of_parts [c0] 'e' _ [] _ _ (',' :: tail)
        (by simpa using hdig0) (by simp) (by simp) (by decide)
        (parseFraction_none _ _ (by decide)) hexp2
      rw [h]
      have hv : digitsValue ([c0] ++ []) = s := by
        rw [← hval, hd]; rfl
      rw [hv]
      congr 3
      simp only [List.length_nil, List.length_singleton]
      omega
    | cons r1 rs =>
      show parseUnsigned (([c0] ++ '.' :: ((r1 :: rs) ++
        exponentText ((((c0 :: r1 :: rs).length : Nat) : Int) + e - 1))) ++ ',' :: tail) = _
      have hexp2 : parseExponent (exponentText ((((c0 :: r1 :: rs).length : Nat) : Int) + e - 1) ++
          ',' :: tail) = some ((((c0 :: r1 :: rs).length : Nat) : Int) + e - 1, ',' :: tail) :=
        hexp
      have hhead : ([c0] ++ '.' :: ((r1 :: rs) ++
          exponentText ((((c0 :: r1 :: rs).length : Nat) : Int) + e - 1))) ++ ',' :: tail =
          [c0] ++ '.' :: ((r1 :: rs) ++ 'e' :: (erest ++ ',' :: tail)) := by
        have : exponentText ((((c0 :: r1 :: rs).length : Nat) : Int) + e - 1) = 'e' :: erest :=
          herest
        rw [this]; simp
      have hhead2 : exponentText ((((c0 :: r1 :: rs).length : Nat) : Int) + e - 1) ++
          ',' :: tail = 'e' :: (erest ++ ',' :: tail) := by
        have : exponentText ((((c0 :: r1 :: rs).length : Nat) : Int) + e - 1) = 'e' :: erest :=
          herest
        rw [this]; rfl
      rw [hhead2] at hexp2
      rw [hhead]
      have hrs : ∀ x ∈ r1 :: rs, isDigit x = true := by
        intro x hx
        exact hall x (by rw [hd]; exact List.mem_cons_of_mem _ hx)
      have h := parseUnsigned_of_parts [c0] '.' _ (r1 :: rs) _ _ (',' :: tail)
        (by simpa using hdig0) (by simp) (by simp) (by decide)
        (parseFraction_digits (r1 :: rs) 'e' _ hrs (by simp) (by decide)) hexp2
      rw [h]
      have hv : digitsValue ([c0] ++ r1 :: rs) = s := by
        rw [← hval, hd]; rfl
      rw [hv]
      congr 3
      simp only [List.length_cons]
      omega

theorem pickDecimal_spec (x : ℚ) (k : Nat) (c : Nat × Int)
    (h : pickDecimal x k = some c) : roundDouble (decimalValue c.1 c.2) = x := by
  unfold pickDecimal at h
  have hmem : ∀ a ∈ (candidates x k).filter
      (fun c => roundDouble (decimalValue c.1 c.2) = x),
      roundDouble (decimalValue a.1 a.2) = x := by
    intro a ha
    simpa using (List.mem_filter.1 ha).2
  generalize (candidates x k).filter
    (fun c => decide (roundDouble (decimalValue c.1 c.2) = x)) = valid at h hmem
  match valid, h, hmem with
  | [], h, _ => cases h
  | [a], h, hmem =>
    cases h
    exact hmem _ (List.mem_singleton_self _)
  | lo :: hi :: rest, h, hmem =>
    have hlo := hmem lo (List.mem_cons_self _ _)
    have hhi := hmem hi (List.mem_cons_of_mem _ (List.mem_cons_self _ _))
    simp only at h
    split_ifs at h <;> cases h <;> assumption

theorem halvings_two_pow (i : Nat) : ∀ fuel : Nat, i < fuel → halvings fuel (2 ^ i) = i := by
  induction i with
  | zero =>
    intro fuel h
    cases fuel with
    | zero => omega
    | succ f => simp [halvings]
  | succ i ih =>
    intro fuel h
    cases fuel with
    | zero => omega
    | succ f =>
      have h2 : ¬ 2 ^ (i + 1) < 2 := by
        have : 1 ≤ 2 ^ i := Nat.one_le_two_pow
        rw [pow_succ]; omega
      have hdiv : 2 ^ (i + 1) / 2 = 2 ^ i := by
        rw [pow_succ]; simp
      simp only [halvings, h2, if_false, hdiv]
      rw [ih f (by omega)]

theorem binaryLog_two_pow (i : Nat) : binaryLog (2 ^ i) = i :=
  halvings_two_pow i _ (Nat.lt_two_pow i)

theorem den_natCast_div_two_pow (N k : Nat) :
    ∃ i : Nat, ((N : ℚ) / ((2 ^ k : Nat) : ℚ)).den = 2 ^ i := by
  have h := Rat.den_dvd (N : ℤ) ((2 ^ k : Nat) : ℤ)
  rw [Rat.divInt_eq_div] at h
  have h2 : ((N : ℚ) / ((2 ^ k : Nat) : ℚ)).den ∣ 2 ^ k := by
    have h3 : ((((N : ℤ) : ℚ) / (((2 ^ k : Nat) : ℤ) : ℚ)).den : ℤ) ∣ ((2 ^ k : Nat) : ℤ) := h
    have h4 := Int.natCast_dvd_natCast.1 h3
    simpa using h4
  obtain ⟨i, -, hi⟩ := (Nat.dvd_prime_pow Nat.prime_two).1 h2
  exact ⟨i, hi⟩

/-- The denominator of a double is a power of two. -/
theorem den_roundDouble (x : ℚ) : ∃ i : Nat, (roundDouble x).den = 2 ^ i := by
  unfold roundDouble
  by_cases h0 : x = 0
  · exact ⟨0, by simp [h0]⟩
  · simp only [h0, if_false]
    split_ifs
    · rw [Rat.den_neg_eq_den]
      exact ⟨0, Rat.den_natCast _⟩
    · rw [Rat.den_neg_eq_den]
      exact den_natCast_div_two_pow _ _
    · exact ⟨0, Rat.den_natCast _⟩
    · exact den_natCast_div_two_pow _ _

theorem exactDecimal_value (x : ℚ) (hx : 0 < x) (hd : roundDouble x = x) :
    decimalValue (x.num.natAbs * 5 ^ binaryLog x.den) (-(binaryLog x.den : Int)) = x := by
  obtain ⟨i, hi⟩ := den_roundDouble x
  rw [hd] at hi
  rw [hi, binaryLog_two_pow, decimalValue_eq]
  have hnum : ((x.num.natAbs : Nat) : ℚ) = (x.num : ℚ) := by
    rw [← Int.cast_natCast, Int.natAbs_of_nonneg (Rat.num_nonneg.2 hx.le)]
  have hx2 : x = (x.num : ℚ) / ((2 : ℚ) ^ i) := by
    conv_lhs => rw [← Rat.num_div_den x, hi]
    push_cast
    rfl
  conv_rhs => rw [hx2]
  rw [← hnum]
  push_cast
  rw [zpow_neg, zpow_natCast]
  have h10 : (10 : ℚ) ^ i = 2 ^ i * 5 ^ i := by
    rw [← mul_pow]; norm_num
  rw [h10]
  field_simp
  ring

/-- The decimal `Number::toString` takes for a positive double has that
double as its Number value. -/
theorem shortestDecimal_spec (x : ℚ) (hx : 0 < x) (hd : roundDouble x = x) :
    roundDouble (decimalValue (shortestDecimal x).1 (shortestDecimal x).2) = x := by
  unfold shortestDecimal
  cases h : (List.range 17).findSome? (fun i => pickDecimal x (i + 1)) with
  | some c =>
    obtain ⟨i, -, hi⟩ := List.exists_of_findSome?_eq_some h
    exact pickDecimal_spec x (i + 1) c hi
  | none =>
    simp only
    rw [exactDecimal_value x hx hd, hd]

theorem roundDouble_neg (x : ℚ) : roundDouble (-x) = -roundDouble x := by
  unfold roundDouble
  by_cases h0 : x = 0
  · simp [h0]
  · have h1 : ¬ -x = 0 := by simpa using h0
    simp only [h0, h1, if_false, Rat.num_neg_eq_neg_num, Int.natAbs_neg, Rat.den_neg_eq_den]
    rcases lt_or_gt_of_ne h0 with hneg | hpos
    · have h2 : ¬ -x < 0 := by
        have : 0 < -x := by linarith
        exact not_lt.2 this.le
      simp only [hneg, h2, if_true, if_false, neg_neg]
    · have h2 : -x < 0 := by linarith
      have h3 : ¬ x < 0 := not_lt.2 hpos.le
      simp only [h2, h3, if_true, if_false]

theorem shortestDecimal_pos (x : ℚ) (hx : 0 < x) (hd : roundDouble x = x) :
    0 < (shortestDecimal x).1 := by
  rcases Nat.eq_zero_or_pos (shortestDecimal x).1 with h | h
  · have hs := shortestDecimal_spec x hx hd
    rw [h] at hs
    have hz : decimalValue 0 (shortestDecimal x).2 = 0 := by
      rw [decimalValue_eq]; simp
    rw [hz] at hs
    have : roundDouble 0 = 0 := by simp [roundDouble]
    rw [this] at hs
    exact absurd hs.symm (ne_of_gt hx)
  · exact h

theorem formatDecimal_head (s : Nat) (e : Int) (hs : 0 < s) :
    ∃ (c : Char) (rest : List Char), formatDecimal s e = c :: rest ∧ c ≠ '-' := by
  obtain ⟨c0, rest0, hd, hc0, hdig0⟩ := toDigits_head s hs
  have hc : c0 ≠ '-' := by
    intro h
    rw [h] at hdig0
    exact absurd hdig0 (by decide)
  simp only [formatDecimal]
  split_ifs with h1 h2 h3
  · rw [hd]; exact ⟨c0, _, rfl, hc⟩
  · have hpos : 0 < (((Nat.toDigits 10 s).length : Int) + e).toNat := by omega
    obtain ⟨m, hm⟩ : ∃ m, (((Nat.toDigits 10 s).length : Int) + e).toNat = m + 1 :=
      ⟨_, (Nat.succ_pred_eq_of_pos hpos).symm⟩
    rw [hm, hd]
    exact ⟨c0, _, rfl, hc⟩
  · exact ⟨'0', _, rfl, by decide⟩
  · rw [hd]
    cases rest0 with
    | nil => exact ⟨c0, _, rfl, hc⟩
    | cons r1 rs => exact ⟨c0, _, rfl, hc⟩

/-- A finite double written by `Number::toString` is read back as itself. -/
theorem parseNumber_numberToString (x : ℚ) (hd : roundDouble x = x) (tail : List Char) :
    parseNumber (numberToString x ++ ',' :: tail) = some (x, ',' :: tail) := by
  unfold numberToString
  split_ifs with h0 hneg
  · subst h0
    have h : parseUnsigned (['0'] ++ ',' :: tail) = _ :=
      parseUnsigned_of_parts ['0'] ',' tail [] (',' :: tail) 0 (',' :: tail)
        (by decide) (by simp) (by simp) (by decide)
        (parseFraction_none _ _ (by decide))
        (parseExponent_none _ _ (by decide) (by decide))
    have h2 : parseUnsigned ('0' :: ',' :: tail) = _ := h
    simp only [parseNumber, List.cons_append, List.nil_append, h2]
    simp [decimalValue, digitsValue, roundDouble]
  · have hpos : 0 < -x := by linarith
    have hd2 : roundDouble (-x) = -x := by rw [roundDouble_neg, hd]
    have hs := shortestDecimal_spec (-x) hpos hd2
    have hp := parseUnsigned_formatDecimal _ (shortestDecimal (-x)).2
      (shortestDecimal_pos (-x) hpos hd2) tail
    simp only [parseNumber, List.cons_append, if_true, hp]
    rw [roundDouble_neg, hs, neg_neg]
  · have hpos : 0 < x := lt_of_le_of_ne (not_lt.1 hneg) (Ne.symm h0)
    have hs := shortestDecimal_spec x hpos hd
    have hp := parseUnsigned_formatDecimal _ (shortestDecimal x).2
      (shortestDecimal_pos x hpos hd) tail
    obtain ⟨c, rest, hc, hne⟩ := formatDecimal_head _ (shortestDecimal x).2
      (shortestDecimal_pos x hpos hd)
    rw [hc] at hp ⊢
    simp only [parseNumber, List.cons_append, hne, if_false] at hp ⊢
    rw [hp]
    dsimp only
    rw [hs]

/-! ## The text of the persisted record -/

theorem char_not_surrogate (c : Char) : ¬ (0xD800 ≤ c.toNat ∧ c.toNat ≤ 0xDFFF) := by
  have h := c.valid
  have h2 : c.toNat < 0xD800 ∨ (0xDFFF < c.toNat ∧ c.toNat < 0x110000) := h
  omega

theorem unitChar_toNat (c : Char) : unitChar c.toNat = c := by
  unfold unitChar
  rw [if_neg (char_not_surrogate c)]
  exact Char.ofNat_toNat c

theorem decodeUnits_map_toNat (cs : List Char) :
    decodeUnits none (cs.map Char.toNat) = cs := by
  induction cs with
  | nil => rfl
  | cons c rest ih =>
    have h := char_not_surrogate c
    have h2 : ¬ (0xD800 ≤ c.toNat ∧ c.toNat ≤ 0xDBFF) := by omega
    simp only [List.map_cons, decodeUnits, if_neg h2, unitChar_toNat, ih]

theorem hexValue_hexDigit (n : Nat) (h : n < 16) : hexValue (hexDigit n) = some n := by
  interval_cases n <;> decide

theorem parseChars_quoteChar (c : Char) (rest : List Char) :
    parseChars .plain (quoteChar c ++ rest) = withUnit c.toNat (parseChars .plain rest) := by
  unfold quoteChar
  split_ifs with h1 h2 h3 h4 h5 h6 h7 h8
  · subst h1
    simp [parseChars, simpleEscape]
  · subst h2
    simp [parseChars, simpleEscape]
  · simp [parseChars, simpleEscape, h3]
  · simp [parseChars, simpleEscape, h4]
  · simp [parseChars, simpleEscape, h5]
  · simp [parseChars, simpleEscape, h6]
  · simp [parseChars, simpleEscape, h7]
  · have e1 : c.toNat / 4096 % 16 = 0 := by omega
    have e2 : c.toNat / 256 % 16 = 0 := by omega
    have e3 : (0 * 16 + 0) * 16 + c.toNat / 16 % 16 = c.toNat / 16 := by omega
    have e4 : c.toNat / 16 * 16 + c.toNat % 16 = c.toNat := by omega
    have v3 := hexValue_hexDigit (c.toNat / 16 % 16) (by omega)
    have v4 := hexValue_hexDigit (c.toNat % 16) (by omega)
    have v0 := hexValue_hexDigit 0 (by omega)
    simp only [unicodeEscape, e1, e2, List.cons_append, List.nil_append, parseChars,
      v0, v3, v4, e3, e4]
    simp
  · simp [parseChars, h1, h2, h8]

theorem parseChars_quoted (cs : List Char) (tail : List Char) :
    parseChars .plain (cs.flatMap quoteChar ++ '"' :: tail) =
      some (cs.map Char.toNat, tail) := by
  induction cs with
  | nil => simp [parseChars]
  | cons c rest ih =>
    rw [List.flatMap_cons, List.append_assoc, List.map_cons, parseChars_quoteChar, ih]
    rfl

/-- A string written by `QuoteJSONString` is read back as itself. -/
theorem parseString_quoted (s : String) (tail : List Char) :
    parseString (s.toList.flatMap quoteChar ++ '"' :: tail) = some (s, tail) := by
  unfold parseString
  rw [parseChars_quoted]
  simp only [decodeUnits_map_toNat]
  rfl

theorem quoteJSONString_append (s : String) (tail : List Char) :
    quoteJSONString s ++ tail = '"' :: (s.toList.flatMap quoteChar ++ '"' :: tail) := by
  simp [quoteJSONString]

theorem skipSpace_cons (c : Char) (rest : List Char) (h : isJsonSpace c = false) :
    skipSpace (c :: rest) = c :: rest := by
  simp [skipSpace, List.dropWhile, h]

theorem parseValue_string (fuel : Nat) (s : String) (tail : List Char) :
    parseValue (fuel + 1) (quoteJSONString s ++ tail) = some (.str s, tail) := by
  rw [quoteJSONString_append, parseValue, skipSpace_cons _ _ (by decide)]
  dsimp only
  rw [if_neg (by decide), if_neg (by decide), if_pos rfl, parseString_quoted]

theorem formatDecimal_head_digit (s : Nat) (e : Int) (hs : 0 < s) :
    ∃ (c : Char) (rest : List Char), formatDecimal s e = c :: rest ∧ isDigit c = true := by
  obtain ⟨c0, rest0, hd, hc0, hdig0⟩ := toDigits_head s hs
  simp only [formatDecimal]
  split_ifs with h1 h2 h3
  · rw [hd]; exact ⟨c0, _, rfl, hdig0⟩
  · have hpos : 0 < (((Nat.toDigits 10 s).length : Int) + e).toNat := by omega
    obtain ⟨m, hm⟩ : ∃ m, (((Nat.toDigits 10 s).length : Int) + e).toNat = m + 1 :=
      ⟨_, (Nat.succ_pred_eq_of_pos hpos).symm⟩
    rw [hm, hd]
    exact ⟨c0, _, rfl, hdig0⟩
  · exact ⟨'0', _, rfl, by decide⟩
  · rw [hd]
    cases rest0 with
    | nil => exact ⟨c0, _, rfl, hdig0⟩
    | cons r1 rs => exact ⟨c0, _, rfl, hdig0⟩

theorem numberToString_head (x : ℚ) (hd : roundDouble x = x) :
    ∃ (c : Char) (rest : List Char),
      numberToString x = c :: rest ∧ (isDigit c = true ∨ c = '-') := by
  unfold numberToString
  split_ifs with h0 hneg
  · exact ⟨'0', [], rfl, Or.inl (by decide)⟩
  · exact ⟨'-', _, rfl, Or.inr rfl⟩
  · have hpos : 0 < x := lt_of_le_of_ne (not_lt.1 hneg) (Ne.symm h0)
    obtain ⟨c, rest, hc, hdig⟩ := formatDecimal_head_digit _ (shortestDecimal x).2
      (shortestDecimal_pos x hpos hd)
    exact ⟨c, rest, hc, Or.inl hdig⟩

theorem roundDouble_of_finite (x : ℚ) (h : JsNumber.ofRat x = .finite x) :
    roundDouble x = x := by
  unfold JsNumber.ofRat at h
  split_ifs at h
  exact JsNumber.finite.inj h

theorem parseValue_number (fuel : Nat) (x : ℚ) (tail : List Char)
    (h : JsNumber.ofRat x = .finite x) :
    parseValue (fuel + 1) (stringifyNumber (JsNumber.ofRat x) ++ ',' :: tail) =
      some (.num x, ',' :: tail) := by
  have hd := roundDouble_of_finite x h
  have hp := parseNumber_numberToString x hd tail
  obtain ⟨c, rest, hc, hstart⟩ := numberToString_head x hd
  rw [h]
  simp only [stringifyNumber]
  rw [hc] at hp ⊢
  have hfacts : isJsonSpace c = false ∧ c ≠ '{' ∧ c ≠ '[' ∧ c ≠ '"' ∧ c ≠ 'n' ∧ c ≠ 't' ∧
      c ≠ 'f' := by
    rcases hstart with hdig | rfl
    · refine ⟨?_, ?_, ?_, ?_, ?_, ?_, ?_⟩
      · simp only [isDigit, Bool.and_eq_true, decide_eq_true_eq] at hdig
        simp only [isJsonSpace, Bool.or_eq_false_iff, beq_eq_false_iff_ne, ne_eq]
        omega
      all_goals
        rintro rfl
        exact absurd hdig (by decide)
    · decide
  obtain ⟨h1, h2, h3, h4, h5, h6, h7⟩ := hfacts
  rw [List.cons_append, parseValue, skipSpace_cons _ _ h1]
  rw [List.cons_append] at hp
  simp [h2, h3, h4, h5, h6, h7, hp]

theorem stringifyProperty_append (key : String) (valueText tail : List Char) :
    stringifyProperty key valueText ++ tail =
      '"' :: (key.toList.flatMap quoteChar ++ '"' :: ':' :: (valueText ++ tail)) := by
  simp [stringifyProperty, quoteJSONString]

/-- A member followed by a comma is read and the reading goes on with the next
one. -/
theorem parseMembers_comma (value : List Char → Option (Json × List Char)) (fuel : Nat)
    (properties : List (String × Json)) (key : String) (valueText : List Char) (v : Json)
    (rest : List Char) (hv : value (valueText ++ ',' :: rest) = some (v, ',' :: rest)) :
    parseMembers value (fuel + 1) properties (stringifyProperty key valueText ++ ',' :: rest) =
      parseMembers value fuel (setProperty properties key v) rest := by
  rw [stringifyProperty_append, parseMembers, skipSpace_cons _ _ (by decide)]
  simp only [if_true, parseString_quoted, skipSpace_cons ':' _ (by decide), hv,
    skipSpace_cons ',' _ (by decide)]

/-- The last member, followed by the closing brace, ends the object. -/
theorem parseMembers_end (value : List Char → Option (Json × List Char)) (fuel : Nat)
    (properties : List (String × Json)) (key : String) (valueText : List Char) (v : Json)
    (rest : List Char) (hv : value (valueText ++ '}' :: rest) = some (v, '}' :: rest)) :
    parseMembers value (fuel + 1) properties (stringifyProperty key valueText ++ '}' :: rest) =
      some (setProperty properties key v, rest) := by
  rw [stringifyProperty_append, parseMembers, skipSpace_cons _ _ (by decide)]
  simp only [if_true, parseString_quoted, skipSpace_cons ':' _ (by decide), hv,
    skipSpace_cons '}' _ (by decide)]
  simp

theorem parseValue_object (fuel : Nat) (body : List Char) (c : Char) (r : List Char)
    (hbody : body = c :: r) (hspace : isJsonSpace c = false) (hc : c ≠ '}') :
    parseValue (fuel + 1) ('{' :: body) =
      match parseMembers (parseValue fuel) body.length [] body with
      | some (properties, after) => some (.obj properties, after)
      | none => none := by
  rw [parseValue, skipSpace_cons _ _ (by decide)]
  dsimp only
  rw [if_pos rfl]
  subst hbody
  rw [skipSpace_cons _ _ hspace]
  dsimp only
  rw [if_neg hc]

theorem parseValue_array (fuel : Nat) (body : List Char) (c : Char) (r : List Char)
    (hbody : body = c :: r) (hspace : isJsonSpace c = false) (hc : c ≠ ']') :
    parseValue (fuel + 1) ('[' :: body) =
      match parseElements (parseValue fuel) body.length body with
      | some (elements, after) => some (.arr elements, after)
      | none => none := by
  rw [parseValue, skipSpace_cons _ _ (by decide)]
  dsimp only
  rw [if_neg (by decide), if_pos rfl]
  subst hbody
  rw [skipSpace_cons _ _ hspace]
  dsimp only
  rw [if_neg hc]

theorem parseValue_empty_array (fuel : Nat) (tail : List Char) :
    parseValue (fuel + 1) ('[' :: ']' :: tail) = some (.arr [], tail) := by
  rw [parseValue, skipSpace_cons _ _ (by decide)]
  dsimp only
  rw [if_neg (by decide), if_pos rfl, skipSpace_cons _ _ (by decide)]
  dsimp only
  rw [if_pos rfl]

theorem parseMembers_string_comma (g fuel : Nat) (properties : List (String × Json))
    (key s : String) (rest : List Char) :
    parseMembers (parseValue (g + 1)) (fuel + 1) properties
        (stringifyProperty key (quoteJSONString s) ++ ',' :: rest) =
      parseMembers (parseValue (g + 1)) fuel (setProperty properties key (.str s)) rest :=
  parseMembers_comma _ _ _ _ _ _ _ (parseValue_string g s _)

theorem parseMembers_string_end (g fuel : Nat) (properties : List (String × Json))
    (key s : String) (rest : List Char) :
    parseMembers (parseValue (g + 1)) (fuel + 1) properties
        (stringifyProperty key (quoteJSONString s) ++ '}' :: rest) =
      some (setProperty properties key (.str s), rest) :=
  parseMembers_end _ _ _ _ _ _ _ (parseValue_string g s _)

theorem parseMembers_number_comma (g fuel : Nat) (properties : List (String × Json))
    (key : String) (x : ℚ) (rest : List Char) (h : JsNumber.ofRat x = .finite x) :
    parseMembers (parseValue (g + 1)) (fuel + 1) properties
        (stringifyProperty key (stringifyNumber (JsNumber.ofRat x)) ++ ',' :: rest) =
      parseMembers (parseValue (g + 1)) fuel (setProperty properties key (.num x)) rest :=
  parseMembers_comma _ _ _ _ _ _ _ (parseValue_number g x _ h)

theorem stringifyProperty_length (key : String) (valueText : List Char) :
    3 ≤ (stringifyProperty key valueText).length := by
  simp [stringifyProperty, quoteJSONString]
  omega

/-- A cart line written by `JSON.stringify` is read back as its JSON value,
when its price and its quantity are finite doubles. -/
theorem parseValue_stringifyItem (g : Nat) (item : CartItem) (tail : List Char)
    (hp : JsNumber.ofRat item.price = .finite item.price)
    (hq : JsNumber.ofRat (item.quantity : ℚ) = .finite (item.quantity : ℚ)) :
    parseValue (g + 2) (stringifyItem item ++ tail) = some (item.toJson, tail) := by
  obtain ⟨id, name, price, image, size, color, quantity, addedAt⟩ := item
  simp only at hp hq
  unfold stringifyItem
  rw [List.cons_append]
  generalize hbody : (stringifyProperty "id" (quoteJSONString id) ++
    ',' :: (stringifyProperty "name" (quoteJSONString name) ++
    ',' :: (stringifyProperty "price" (stringifyNumber (JsNumber.ofRat price)) ++
    ',' :: (stringifyProperty "image" (quoteJSONString image) ++
    (stringifyOptional "size" size ++
    (stringifyOptional "color" color ++
    ',' :: (stringifyProperty "quantity" (stringifyNumber (JsNumber.ofRat (quantity : ℚ))) ++
    ',' :: (stringifyProperty "addedAt" (quoteJSONString addedAt) ++ ['}'])))))))) ++ tail =
    body
  have hhead : ∃ r, body = '"' :: r := by
    rw [← hbody, List.append_assoc, stringifyProperty_append]
    exact ⟨_, rfl⟩
  obtain ⟨r, hr⟩ := hhead
  rw [parseValue_object (g + 1) body '"' r hr (by decide) (by decide)]
  have hlen : 8 ≤ body.length := by
    rw [← hbody]
    have h1 := stringifyProperty_length "id" (quoteJSONString id)
    have h2 := stringifyProperty_length "name" (quoteJSONString name)
    have h3 := stringifyProperty_length "price" (stringifyNumber (JsNumber.ofRat price))
    simp only [List.length_append, List.length_cons]
    omega
  obtain ⟨f, hf⟩ := Nat.exists_eq_add_of_le hlen
  rw [hf, ← hbody]
  have h8 : 8 + f = f + 7 + 1 := by omega
  rw [h8]
  cases size <;> cases color <;>
    simp only [List.append_assoc, List.cons_append, List.nil_append, stringifyOptional,
      parseMembers_string_comma, parseMembers_number_comma _ _ _ _ _ _ hp,
      parseMembers_number_comma _ _ _ _ _ _ hq, parseMembers_string_end] <;>
    simp [setProperty, CartItem.toJson, optionalProperty]

theorem stringifyItem_head (item : CartItem) : ∃ r, stringifyItem item = '{' :: r :=
  ⟨_, rfl⟩

theorem stringifyItems_head (item : CartItem) (rest : List CartItem) :
    ∃ r, stringifyItems (item :: rest) = '{' :: r := by
  cases rest with
  | nil => exact ⟨_, rfl⟩
  | cons x xs => exact ⟨_, rfl⟩

theorem stringifyItems_length (items : List CartItem) :
    items.length ≤ (stringifyItems items).length := by
  induction items with
  | nil => simp
  | cons item rest ih =>
    cases rest with
    | nil => simp [stringifyItems, stringifyItem]
    | cons x xs =>
      simp only [stringifyItems, List.length_append, List.length_cons] at ih ⊢
      omega

/-- The cart lines written by `JSON.stringify`, followed by the closing
bracket, are read back as their JSON values. -/
theorem parseElements_stringifyItems (g : Nat) (items : List CartItem) :
    items ≠ [] →
    (∀ item ∈ items, JsNumber.ofRat item.price = .finite item.price ∧
      JsNumber.ofRat (item.quantity : ℚ) = .finite (item.quantity : ℚ)) →
    ∀ (fuel : Nat) (tail : List Char), items.length ≤ fuel →
      parseElements (parseValue (g + 2)) fuel (stringifyItems items ++ ']' :: tail) =
        some (items.map CartItem.toJson, tail) := by
  induction items with
  | nil => intro h; exact absurd rfl h
  | cons item rest ih =>
    intro _ hfinite fuel tail hfuel
    obtain ⟨f, rfl⟩ : ∃ f, fuel = f + 1 := ⟨fuel - 1, by simp at hfuel; omega⟩
    have hitem := hfinite item (List.mem_cons_self _ _)
    cases rest with
    | nil =>
      rw [parseElements]
      simp only [stringifyItems]
      rw [parseValue_stringifyItem g item _ hitem.1 hitem.2]
      dsimp only
      rw [skipSpace_cons _ _ (by decide)]
      dsimp only
      rw [if_neg (by decide), if_pos rfl]
      rfl
    | cons x xs =>
      have hrest := ih (by simp) (fun i hi => hfinite i (List.mem_cons_of_mem _ hi)) f tail
        (by simp at hfuel ⊢; omega)
      rw [parseElements]
      simp only [stringifyItems, List.append_assoc, List.cons_append] at hrest ⊢
      rw [parseValue_stringifyItem g item _ hitem.1 hitem.2]
      dsimp only
      rw [skipSpace_cons _ _ (by decide)]
      dsimp only
      rw [if_pos rfl, hrest]
      rfl

theorem parseValue_itemsArray (g : Nat) (items : List CartItem) (tail : List Char)
    (hfinite : ∀ item ∈ items, JsNumber.ofRat item.price = .finite item.price ∧
      JsNumber.ofRat (item.quantity : ℚ) = .finite (item.quantity : ℚ)) :
    parseValue (g + 3) (('[' :: (stringifyItems items ++ [']'])) ++ tail) =
      some (.arr (items.map CartItem.toJson), tail) := by
  cases items with
  | nil => exact parseValue_empty_array _ tail
  | cons item rest =>
    obtain ⟨r, hr⟩ := stringifyItems_head item rest
    have hbody : stringifyItems (item :: rest) ++ [']'] ++ tail = '{' :: (r ++ [']'] ++ tail) := by
      rw [hr]; rfl
    rw [List.cons_append, parseValue_array (g + 2) _ '{' _ hbody (by decide) (by decide)]
    have hlen : (item :: rest).length ≤ (stringifyItems (item :: rest) ++ [']'] ++ tail).length := by
      have := stringifyItems_length (item :: rest)
      simp only [List.length_append]
      omega
    have h := parseElements_stringifyItems g (item :: rest) (by simp) hfinite _ tail hlen
    rw [List.append_assoc]
    rw [List.append_assoc] at h
    have hcons : [']'] ++ tail = ']' :: tail := rfl
    rw [hcons] at h ⊢
    rw [h]

/-- The text `JSON.stringify` writes for a cart is read back by `JSON.parse`
as the JSON value of that cart, when the prices and quantities are finite
doubles. -/
theorem jsonParse_stringify (cart : Cart)
    (hfinite : ∀ item ∈ cart.items, JsNumber.ofRat item.price = .finite item.price ∧
      JsNumber.ofRat (item.quantity : ℚ) = .finite (item.quantity : ℚ)) :
    jsonParse (stringify cart) = some cart.toJson := by
  obtain ⟨items, updatedAt⟩ := cart
  unfold jsonParse stringify
  generalize hbody : stringifyProperty "items" ('[' :: (stringifyItems items ++ [']'])) ++
    ',' :: (stringifyProperty "updatedAt" (quoteJSONString updatedAt) ++ ['}']) = body
  have hhead : ∃ r, body = '"' :: r := by
    rw [← hbody, stringifyProperty_append]
    exact ⟨_, rfl⟩
  obtain ⟨r, hr⟩ := hhead
  have hlen : 3 ≤ body.length := by
    rw [← hbody]
    have h1 := stringifyProperty_length "items" ('[' :: (stringifyItems items ++ [']']))
    simp only [List.length_append, List.length_cons]
    omega
  obtain ⟨f, hf⟩ := Nat.exists_eq_add_of_le hlen
  have hfuel : ('{' :: body).length + 1 = f + 4 + 1 := by
    simp only [List.length_cons]; omega
  rw [hfuel, parseValue_object (f + 4) body '"' r hr (by decide) (by decide)]
  have hf2 : body.length = f + 1 + 1 + 1 := by omega
  rw [hf2, ← hbody]
  have hitems := parseValue_itemsArray (f + 1) items
    (',' :: (stringifyProperty "updatedAt" (quoteJSONString updatedAt) ++ ['}'])) hfinite
  rw [parseMembers_comma (parseValue (f + 4)) _ [] "items" _ _ _ hitems,
    parseMembers_string_end]
  simp [setProperty, Cart.toJson, skipSpace]

theorem stringify_ne_nil (cart : Cart) : stringify cart ≠ [] := by
  simp [stringify]

theorem storedText_stringify (cart : Cart)
    (hfinite : ∀ item ∈ cart.items, JsNumber.ofRat item.price = .finite item.price ∧
      JsNumber.ofRat (item.quantity : ℚ) = .finite (item.quantity : ℚ)) :
    storedText (stringify cart) = .json cart.toJson := by
  unfold storedText
  rw [if_neg (stringify_ne_nil cart), jsonParse_stringify cart hfinite]

/-- C16, the claim as worded, fails: a cart whose line has a price that is not
a finite number (here `2^1024`, the Number `Infinity`) is written with
`"price":null`, since `JSON.stringify` serializes a number that is not finite
as `null`; what `loadCart` reads back has `null` for the price, so the item
sequence is not the original one. -/
theorem saveCart_loadCart_infinite_price_counterexample :
    JsNumber.ofRat (2 ^ 1024) = .posInf ∧
    (saveCart sampleEnv infinitePriceCart).cart.items =
      [{ sampleLine 1 with price := 2 ^ 1024 }] ∧
    (saveCart sampleEnv infinitePriceCart).stored.map stringify =
      some ("\x7b\"items\":[\x7b\"id\":\"p1\",\"name\":\"Captain Jacket\",\"price\":null," ++
        "\"image\":\"jacket.jpg\",\"quantity\":1," ++
        "\"addedAt\":\"2024-04-30T09:00:00.000Z\"\x7d]," ++
        "\"updatedAt\":\"2024-05-01T10:00:00.000Z\"\x7d").toList ∧
    (loadCart sampleEnv (storageRead (saveCart sampleEnv infinitePriceCart))).asItems =
      none := by
  refine ⟨by decide!, by decide!, by decide!, by decide!⟩

/-- C16 (amended): for every cart whose prices and quantities are finite
numbers (each given by the value of its double), serializing it with
`JSON.stringify` as `saveCart` does and deserializing the text with
`JSON.parse` as `loadCart` does yields a cart whose item sequence equals the
original: the same lines, in the same order, each with the same id, name,
price, image, size, color, quantity and addedAt. -/
theorem saveCart_loadCart_roundtrip (cart : Cart)
    (hfinite : ∀ item ∈ cart.items, JsNumber.ofRat item.price = .finite item.price ∧
      JsNumber.ofRat (item.quantity : ℚ) = .finite (item.quantity : ℚ)) :
    (jsonParse (stringify cart)).bind Json.asCart = some cart ∧
    (∀ (env env2 : Env) (stored : Option Cart), env.setItemOk = true →
      (loadCart env2 (storageRead (saveCart env { cart := cart, stored := stored }))).asItems =
        some cart.items ∧
      (loadCart env2 (storageRead (saveCart env { cart := cart, stored := stored }))).asCart =
        some { items := cart.items, updatedAt := env.now }) := by
  constructor
  · rw [jsonParse_stringify cart hfinite]
    exact asCart_toJson cart
  · intro env env2 stored hok
    have hread : storageRead (saveCart env { cart := cart, stored := stored }) =
        .text (.json (Cart.toJson { items := cart.items, updatedAt := env.now })) := by
      simp only [storageRead, saveCart, hok, if_true]
      rw [storedText_stringify { items := cart.items, updatedAt := env.now } hfinite]
    rw [hread]
    have hcart := asCart_toJson { items := cart.items, updatedAt := env.now }
    refine ⟨?_, hcart⟩
    show (Cart.toJson { items := cart.items, updatedAt := env.now }).asItems = _
    simp [Cart.toJson, Json.asItems, Json.property, List.lookup, cartItemsOf_toJson]

/-- Witness for C16: a cart of two lines, one with size and color at the
price 19.99 (the value of its double) and one without at the price 50, is read
back line for line after a save. -/
theorem saveCart_loadCart_roundtrip_witness :
    (loadCart sampleEnv
      (storageRead (saveCart sampleEnv
        (managerOf [{ otherLine 1 with price := roundDouble 19.99 }, sampleLine 2])))).asItems =
      some [{ otherLine 1 with price := roundDouble 19.99 }, sampleLine 2] := by
  have hfinite : ∀ item ∈ [{ otherLine 1 with price := roundDouble 19.99 }, sampleLine 2],
      JsNumber.ofRat item.price = .finite item.price ∧
      JsNumber.ofRat (item.quantity : ℚ) = .finite (item.quantity : ℚ) := by
    intro item hitem
    simp only [List.mem_cons, List.mem_singleton, List.not_mem_nil, or_false] at hitem
    rcases hitem with rfl | rfl <;> decide!
  exact ((saveCart_loadCart_roundtrip
    { items := [{ otherLine 1 with price := roundDouble 19.99 }, sampleLine 2],
      updatedAt := "2024-04-30T09:00:00.000Z" }
    hfinite).2 sampleEnv sampleEnv none rfl).1

/-! ## Uniqueness of the merge key -/

theorem map_lineKey_modify (items : List CartItem) (i : Nat) (q : Int) :
    (items.modify (fun c => { c with quantity := c.quantity + q }) i).map lineKey =
      items.map lineKey := by
  induction items generalizing i with
  | nil => cases i <;> rfl
  | cons x xs ih =>
    cases i with
    | zero => rfl
    | succ k =>
      have hk := ih k
      simp only [List.modify] at hk ⊢
      simp only [List.modifyTailIdx, List.map_cons, hk]

theorem map_lineKey_set (items : List CartItem) (i : Nat) (line : CartItem) (q : Int)
    (hline : items[i]? = some line) :
    (items.set i { line with quantity := q }).map lineKey = items.map lineKey := by
  induction items generalizing i with
  | nil => rfl
  | cons x xs ih =>
    cases i with
    | zero =>
      simp only [List.getElem?_cons_zero, Option.some.injEq] at hline
      subst hline
      rfl
    | succ k =>
      simp only [List.getElem?_cons_succ] at hline
      simp only [List.set_cons_succ, List.map_cons, ih k hline]

theorem addItem_keeps_keys_distinct (env : Env) (item : NewItem) (m : CartManager)
    (h : (m.cart.items.map lineKey).Nodup) :
    ((addItem env item m).cart.items.map lineKey).Nodup := by
  simp only [addItem, saveCart_items]
  cases hidx : findIndex (fun cartItem => cartItem.id == item.id &&
      cartItem.size == item.size && cartItem.color == item.color) m.cart.items with
  | some i =>
    simp only
    rw [map_lineKey_modify]
    exact h
  | none =>
    simp only
    rw [List.map_append, List.map_singleton]
    have hnone := (findIndex_eq_none_iff _ _).1 hidx
    refine List.Nodup.append h (by simp) ?_
    intro key hkey hnew
    simp only [List.mem_singleton] at hnew
    obtain ⟨c, hc, hck⟩ := List.mem_map.1 hkey
    have hcf := hnone c hc
    rw [hnew] at hck
    simp only [lineKey, Prod.mk.injEq] at hck
    obtain ⟨h1, h2, h3⟩ := hck
    simp [h1, h2, h3] at hcf

theorem removeItem_keeps_keys_distinct (env : Env) (itemId : String) (m : CartManager)
    (h : (m.cart.items.map lineKey).Nodup) :
    ((removeItem env itemId m).cart.items.map lineKey).Nodup := by
  simp only [removeItem, saveCart_items]
  exact List.Nodup.sublist ((List.filter_sublist _).map lineKey) h

theorem updateQuantity_keeps_keys_distinct (env : Env) (itemId : String) (change : Int)
    (m : CartManager) (h : (m.cart.items.map lineKey).Nodup) :
    ((updateQuantity env itemId change m).cart.items.map lineKey).Nodup := by
  unfold updateQuantity
  split
  · split
    · next itemIndex line hline =>
      simp only [saveCart_items]
      split_ifs
      · exact List.Nodup.sublist ((List.eraseIdx_sublist _ _).map lineKey) h
      · rw [map_lineKey_set _ _ _ _ hline]
        exact h
      · exact h
    · exact h
  · exact h

theorem run_keeps_keys_distinct (call : CartCall) (m : CartManager)
    (h : (m.cart.items.map lineKey).Nodup) :
    ((call.run m).cart.items.map lineKey).Nodup := by
  cases call with
  | addItem env item => exact addItem_keeps_keys_distinct env item m h
  | removeItem env itemId => exact removeItem_keeps_keys_distinct env itemId m h
  | updateQuantity env itemId change =>
    exact updateQuantity_keeps_keys_distinct env itemId change m h
  | clearCart env => simp [CartCall.run, clearCart, saveCart_items]

theorem runCalls_keeps_keys_distinct (calls : List CartCall) :
    ∀ m : CartManager, (m.cart.items.map lineKey).Nodup →
      ((runCalls calls m).cart.items.map lineKey).Nodup := by
  induction calls with
  | nil => intro m h; exact h
  | cons call rest ih =>
    intro m h
    exact ih (call.run m) (run_keeps_keys_distinct call m h)

/-- C18: each of `addItem`, `removeItem`, `updateQuantity` and `clearCart`
preserves the uniqueness of the (id, size, color) triple among the lines, so,
starting from an empty cart, after any finite sequence of such calls no two
lines of the cart share the same triple. -/
theorem cart_keys_distinct :
    (∀ (call : CartCall) (m : CartManager), (m.cart.items.map lineKey).Nodup →
      ((call.run m).cart.items.map lineKey).Nodup) ∧
    (∀ (calls : List CartCall) (m : CartManager), m.cart.items = [] →
      ((runCalls calls m).cart.items.map lineKey).Nodup ∧
      ∀ (i j : Nat) (a b : CartItem), i < j →
        (runCalls calls m).cart.items[i]? = some a →
        (runCalls calls m).cart.items[j]? = some b →
        ¬ (a.id = b.id ∧ a.size = b.size ∧ a.color = b.color)) := by
  refine ⟨run_keeps_keys_distinct, ?_⟩
  intro calls m hempty
  have hnodup : ((runCalls calls m).cart.items.map lineKey).Nodup :=
    runCalls_keeps_keys_distinct calls m (by rw [hempty]; exact List.nodup_nil)
  refine ⟨hnodup, ?_⟩
  intro i j a b hij ha hb hsame
  obtain ⟨h1, h2, h3⟩ := hsame
  have hkey : lineKey a = lineKey b := by
    simp only [lineKey, h1, h2, h3]
  have hi : ((runCalls calls m).cart.items.map lineKey)[i]? = some (lineKey a) := by
    simp [List.getElem?_map, ha]
  have hj : ((runCalls calls m).cart.items.map lineKey)[j]? = some (lineKey a) := by
    simp [List.getElem?_map, hb, hkey]
  have hilt : i < ((runCalls calls m).cart.items.map lineKey).length := by
    by_contra hge
    rw [List.getElem?_eq_none (by omega)] at hi
    cases hi
  have hjlt : j < ((runCalls calls m).cart.items.map lineKey).length := by
    by_contra hge
    rw [List.getElem?_eq_none (by omega)] at hj
    cases hj
  have hget : ((runCalls calls m).cart.items.map lineKey)[i] =
      ((runCalls calls m).cart.items.map lineKey)[j] := by
    rw [List.getElem?_eq_getElem hilt] at hi
    rw [List.getElem?_eq_getElem hjlt] at hj
    exact (Option.some.inj hi).trans (Option.some.inj hj).symm
  have := (List.Nodup.getElem_inj_iff hnodup).1 hget
  omega

/-- Witness for C18: from the empty cart, adding `p1`, adding `p1` again,
raising it by one and removing the absent `p2` leaves the single line `p1`. -/
theorem cart_keys_distinct_witness :
    ((runCalls [.addItem sampleEnv (sampleItem none), .addItem sampleEnv (sampleItem (some 2)),
        .updateQuantity sampleEnv "p1" 1, .removeItem sampleEnv "p2"]
        (managerOf [])).cart.items.map lineKey).Nodup ∧
    (runCalls [.addItem sampleEnv (sampleItem none), .addItem sampleEnv (sampleItem (some 2)),
        .updateQuantity sampleEnv "p1" 1, .removeItem sampleEnv "p2"]
        (managerOf [])).cart.items.length = 1 := by
  constructor
  · exact (cart_keys_distinct.2 _ (managerOf []) rfl).1
  · simp [runCalls, CartCall.run, addItem, updateQuantity, removeItem, managerOf, findIndex,
      saveCart, sampleItem, quantityOrOne, List.modify, List.modifyTailIdx, sampleEnv]

end Captain
